import Mathlib

/-!
A shallow embedding of the TIFF reader and wire-serialization codec of
`src/tiff.c` (slideviewer), together with proofs about the embedded
definitions.

Modelling conventions:
* machine integers are `Nat`; byte buffers and files are `List Nat`
  (each entry one byte, values taken mod 256 where produced);
* the host is little-endian, as the source assumes: multi-byte values read
  from raw bytes are assembled little-endian and then conditionally
  byte-swapped, exactly as the source does with `bswap_16/32/64`;
* `FILE*` handles are modelled as a byte list plus a position;
* fallible code returns `Option`;
* `float` fields (`mpp_x`, `um_per_pixel_*`, ...) are modelled as `Rat`;
  in the code paths embedded here those values are only copied or computed
  from identical inputs, so no rounding behaviour is observable;
* the serialized wire format is modelled at block granularity: a stream is
  a list of framed blocks (16-byte header plus payload in the source); the
  payload of a block is carried in interpreted form.  Byte counts
  (`length` fields, total sizes) are tracked exactly as the source
  computes them.
-/

namespace Tiff

/-- Assemble a little-endian byte list into a natural number. -/
def leNat : List Nat → Nat
  | [] => 0
  | b :: rest => b % 256 + 256 * leNat rest

/-- Split a natural number into `w` little-endian bytes. -/
def toLEBytes : Nat → Nat → List Nat
  | 0, _ => []
  | w + 1, x => x % 256 :: toLEBytes w (x / 256)

/-- Assemble a big-endian byte list into a natural number. -/
def beNat (bs : List Nat) : Nat :=
  leNat bs.reverse

/-- Byte-swap of a `w`-byte value, the model of `bswap_16/32/64`. -/
def bswapBytes (w x : Nat) : Nat :=
  leNat (toLEBytes w x).reverse

/-- Model of `maybe_swap_16`. -/
def maybe_swap_16 (x : Nat) (is_big_endian : Bool) : Nat :=
  if is_big_endian then bswapBytes 2 x else x

/-- Model of `maybe_swap_32`. -/
def maybe_swap_32 (x : Nat) (is_big_endian : Bool) : Nat :=
  if is_big_endian then bswapBytes 4 x else x

/-- Model of `maybe_swap_64`. -/
def maybe_swap_64 (x : Nat) (is_big_endian : Bool) : Nat :=
  if is_big_endian then bswapBytes 8 x else x

/-- Read a multi-byte integer from raw bytes the way the source does: the
bytes land in a little-endian host integer which is then conditionally
byte-swapped.  Equivalently: little-endian or big-endian assembly. -/
def readNum (is_big_endian : Bool) (bs : List Nat) : Nat :=
  if is_big_endian then beNat bs else leNat bs

/-- Slice `n` bytes of `data` starting at `off` (short when out of range). -/
def sliceBytes (data : List Nat) (off n : Nat) : List Nat :=
  (data.drop off).take n

/-! ### Constants

TIFF data type codes.  Modelled from the spec: the numeric values come from
`tiff.h`, which is not under `src/`; spec section 4.2 lists the enumeration,
whose numbering is the standard TIFF 6.0 / BigTIFF one. -/

def TIFF_UINT8 : Nat := 1
def TIFF_ASCII : Nat := 2
def TIFF_UINT16 : Nat := 3
def TIFF_UINT32 : Nat := 4
def TIFF_RATIONAL : Nat := 5
def TIFF_INT8 : Nat := 6
def TIFF_UNDEFINED : Nat := 7
def TIFF_INT16 : Nat := 8
def TIFF_INT32 : Nat := 9
def TIFF_SRATIONAL : Nat := 10
def TIFF_FLOAT : Nat := 11
def TIFF_DOUBLE : Nat := 12
def TIFF_IFD : Nat := 13
def TIFF_UINT64 : Nat := 16
def TIFF_INT64 : Nat := 17
def TIFF_IFD8 : Nat := 18

/-- Tag codes used by the IFD parser's dispatch.  Modelled from the spec:
defined in the missing `tiff.h`; the numeric codes are listed in spec
section 4.4. -/
def TIFF_TAG_NEW_SUBFILE_TYPE : Nat := 254
def TIFF_TAG_IMAGE_WIDTH : Nat := 256
def TIFF_TAG_IMAGE_LENGTH : Nat := 257
def TIFF_TAG_BITS_PER_SAMPLE : Nat := 258
def TIFF_TAG_COMPRESSION : Nat := 259
def TIFF_TAG_PHOTOMETRIC_INTERPRETATION : Nat := 262
def TIFF_TAG_IMAGE_DESCRIPTION : Nat := 270
def TIFF_TAG_TILE_WIDTH : Nat := 322
def TIFF_TAG_TILE_LENGTH : Nat := 323
def TIFF_TAG_TILE_OFFSETS : Nat := 324
def TIFF_TAG_TILE_BYTE_COUNTS : Nat := 325
def TIFF_TAG_JPEG_TABLES : Nat := 347
def TIFF_TAG_YCBCRSUBSAMPLING : Nat := 530
def TIFF_TAG_REFERENCEBLACKWHITE : Nat := 532

/-- Modelled from the spec: `TIFF_FILETYPE_REDUCEDIMAGE` is the
REDUCEDIMAGE bit, value 1 (spec section 4.4 step 6). -/
def TIFF_FILETYPE_REDUCEDIMAGE : Nat := 1

/-- Modelled from the spec: photometric RGB is the standard TIFF code 2. -/
def TIFF_PHOTOMETRIC_RGB : Nat := 2

/-- Subimage classification codes.  Modelled from the spec: defined in the
missing `tiff.h`; the source shows `TIFF_UNKNOWN_SUBIMAGE = 0` in a comment,
the others are distinct nonzero values. -/
def TIFF_UNKNOWN_SUBIMAGE : Nat := 0
def TIFF_LEVEL_SUBIMAGE : Nat := 1
def TIFF_MACRO_SUBIMAGE : Nat := 2
def TIFF_LABEL_SUBIMAGE : Nat := 3

/-- Byte-order marks in the TIFF header: ASCII `II` and `MM` read as a
16-bit value (both palindromic, so endianness-independent). -/
def TIFF_LITTLE_ENDIAN : Nat := 0x4949
def TIFF_BIG_ENDIAN : Nat := 0x4D4D

/-- Model of `get_tiff_field_size`: byte size of one element of a TIFF
data type; unrecognized types get size 0 (after a printed warning). -/
def get_tiff_field_size (data_type : Nat) : Nat :=
  if data_type = TIFF_UINT8 ∨ data_type = TIFF_INT8 ∨ data_type = TIFF_ASCII ∨
     data_type = TIFF_UNDEFINED then 1
  else if data_type = TIFF_UINT16 ∨ data_type = TIFF_INT16 then 2
  else if data_type = TIFF_UINT32 ∨ data_type = TIFF_INT32 ∨
          data_type = TIFF_IFD ∨ data_type = TIFF_FLOAT then 4
  else if data_type = TIFF_RATIONAL ∨ data_type = TIFF_SRATIONAL then 8
  else if data_type = TIFF_DOUBLE ∨ data_type = TIFF_UINT64 ∨
          data_type = TIFF_INT64 ∨ data_type = TIFF_IFD8 then 8
  else 0

/-- Reverse each of `sub_count` consecutive chunks of `field_size` bytes at
the front of `bs`; the in-place element swaps of `maybe_swap_tiff_field`.
(When the list is shorter than `sub_count * field_size` the source would
touch bytes outside the field; the model swaps what is there.) -/
def swapChunks (field_size : Nat) : Nat → List Nat → List Nat
  | 0, bs => bs
  | sub_count + 1, bs =>
      (bs.take field_size).reverse ++ swapChunks field_size sub_count (bs.drop field_size)

/-- Model of `maybe_swap_tiff_field`: on big-endian input, swap `sub_count`
elements of `field_size` bytes in place, where `sub_count` is 2 for
RATIONAL/SRATIONAL and 1 otherwise.  Note the source never consults the
tag's `data_count` here. -/
def maybe_swap_tiff_field (field : List Nat) (data_type : Nat)
    (is_big_endian : Bool) : List Nat :=
  if is_big_endian then
    let field_size := get_tiff_field_size data_type
    if field_size > 1 then
      let sub_count : Nat :=
        if data_type = TIFF_RATIONAL ∨ data_type = TIFF_SRATIONAL then 2 else 1
      swapChunks field_size sub_count field
    else field
  else field

/-! ### File handles -/

/-- A `FILE*` opened on a byte list: contents plus current position. -/
structure FileHandle where
  data : List Nat
  pos : Nat
  deriving Repr, DecidableEq

/-- Model of `fseeko64(fp, offset, SEEK_SET)` (always succeeds, also past
the end of the file). -/
def fseek_m (h : FileHandle) (offset : Nat) : FileHandle :=
  { h with pos := offset }

/-- Model of `fread(dest, n, 1, fp)`: returns the item count (1 on a full
read, else 0), the bytes transferred, and the advanced handle.  A read of
0 bytes returns item count 0, as `fread` does. -/
def fread_m (h : FileHandle) (n : Nat) : Nat × List Nat × FileHandle :=
  let bs := sliceBytes h.data h.pos n
  let items := if n > 0 ∧ bs.length = n then 1 else 0
  (items, bs, { h with pos := h.pos + bs.length })

/-- Model of `file_read_at_offset`: save the position with `fgetpos64`,
seek to `offset`, read `num_bytes` as one item, then restore the saved
position with `fsetpos64`.  Returns the `fread` item count, the bytes
transferred, and the handle. -/
def file_read_at_offset (h : FileHandle) (offset num_bytes : Nat) :
    Nat × List Nat × FileHandle :=
  let prev_read_pos := h.pos
  let h1 := fseek_m h offset
  let (result, bs, h2) := fread_m h1 num_bytes
  (result, bs, { h2 with pos := prev_read_pos })

/-! ### Tag decoding -/

/-- Normalized TIFF tag, the model of `tiff_tag_t`.  Modelled from the
spec: `tiff.h` is not under `src/`; spec section 4.2 presents the inline
bytes and the external offset as alternatives discriminated by
`data_is_offset`, so they are carried in separate fields here (the unused
one stays zero, as the source `calloc`s the tag array). -/
structure tiff_tag_t where
  code : Nat := 0
  data_type : Nat := 0
  data_count : Nat := 0
  data_is_offset : Bool := false
  offset : Nat := 0
  data : List Nat := List.replicate 8 0
  deriving Repr, DecidableEq

/-- The inline payload reinterpreted as a 64-bit little-endian value. -/
def tiff_tag_t.data_u64 (tag : tiff_tag_t) : Nat := leNat tag.data

/-- The inline payload reinterpreted as a 32-bit little-endian value. -/
def tiff_tag_t.data_u32 (tag : tiff_tag_t) : Nat := leNat (tag.data.take 4)

/-- The inline payload reinterpreted as a 16-bit little-endian value. -/
def tiff_tag_t.data_u16 (tag : tiff_tag_t) : Nat := leNat (tag.data.take 2)

/-- Decode one raw classic-TIFF tag record (12 bytes) into a normalized
tag, as the restructuring loop of `tiff_read_ifd` does. -/
def decode_raw_tag_classic (is_big_endian : Bool) (raw : List Nat) : tiff_tag_t :=
  let code := maybe_swap_16 (leNat (sliceBytes raw 0 2)) is_big_endian
  let data_type := maybe_swap_16 (leNat (sliceBytes raw 2 2)) is_big_endian
  let data_count := maybe_swap_32 (leNat (sliceBytes raw 4 4)) is_big_endian
  let field_size := get_tiff_field_size data_type
  let data_size := field_size * data_count
  if data_size ≤ 4 then
    -- data fits in the tag so it is inlined (4 bytes copied, tail stays zero)
    { code := code, data_type := data_type, data_count := data_count,
      data_is_offset := false, offset := 0,
      data := maybe_swap_tiff_field (sliceBytes raw 8 4 ++ List.replicate 4 0)
                data_type is_big_endian }
  else
    { code := code, data_type := data_type, data_count := data_count,
      data_is_offset := true,
      offset := maybe_swap_32 (leNat (sliceBytes raw 8 4)) is_big_endian,
      data := List.replicate 8 0 }

/-- Decode one raw BigTIFF tag record (20 bytes) into a normalized tag. -/
def decode_raw_tag_bigtiff (is_big_endian : Bool) (raw : List Nat) : tiff_tag_t :=
  let code := maybe_swap_16 (leNat (sliceBytes raw 0 2)) is_big_endian
  let data_type := maybe_swap_16 (leNat (sliceBytes raw 2 2)) is_big_endian
  let data_count := maybe_swap_64 (leNat (sliceBytes raw 4 8)) is_big_endian
  let field_size := get_tiff_field_size data_type
  let data_size := field_size * data_count
  if data_size ≤ 8 then
    { code := code, data_type := data_type, data_count := data_count,
      data_is_offset := false, offset := 0,
      data := maybe_swap_tiff_field (sliceBytes raw 12 8) data_type is_big_endian }
  else
    { code := code, data_type := data_type, data_count := data_count,
      data_is_offset := true,
      offset := maybe_swap_64 (leNat (sliceBytes raw 12 8)) is_big_endian,
      data := List.replicate 8 0 }

/-- Decode `tag_count` raw tag records from the batch-read bytes. -/
def decode_raw_tags (is_bigtiff is_big_endian : Bool) :
    Nat → List Nat → List tiff_tag_t
  | 0, _ => []
  | n + 1, raw =>
      if is_bigtiff then
        decode_raw_tag_bigtiff is_big_endian (raw.take 20) ::
          decode_raw_tags is_bigtiff is_big_endian n (raw.drop 20)
      else
        decode_raw_tag_classic is_big_endian (raw.take 12) ::
          decode_raw_tags is_bigtiff is_big_endian n (raw.drop 12)

/-! ### Field loaders -/

/-- Cut a byte list into `count` chunks of `w` bytes (trailing chunks are
short or empty when the list runs out, where the source would read out of
bounds). -/
def chunkList (w : Nat) : Nat → List Nat → List (List Nat)
  | 0, _ => []
  | k + 1, bs => bs.take w :: chunkList w k (bs.drop w)

/-- Model of `tiff_read_field_ascii`: `data_count` bytes, inline or read at
the external offset; the `calloc`ed destination keeps a short read padded
with zero bytes. -/
def tiff_read_field_ascii (h : FileHandle) (tag : tiff_tag_t) : List Nat :=
  if tag.data_is_offset then
    let (_, bs, _) := file_read_at_offset h tag.offset tag.data_count
    bs ++ List.replicate (tag.data_count - bs.length) 0
  else
    let bs := tag.data.take tag.data_count
    bs ++ List.replicate (tag.data_count - bs.length) 0

/-- Model of `tiff_read_field_undefined`, which simply calls the ASCII
loader. -/
def tiff_read_field_undefined (h : FileHandle) (tag : tiff_tag_t) : List Nat :=
  tiff_read_field_ascii h tag

/-- Model of `tiff_read_field_integers`: widen an 8/16/32/64-bit integer
array to 64-bit values, byte-swapping per element when big-endian.  Fails
when the external read does not complete or the element size is not
1, 2, 4 or 8.  Inline data yields the single widened value. -/
def tiff_read_field_integers (h : FileHandle) (is_big_endian : Bool)
    (tag : tiff_tag_t) : Option (List Nat) :=
  if tag.data_is_offset then
    let bytesize := get_tiff_field_size tag.data_type
    let (items, temp_integers, _) :=
      file_read_at_offset h tag.offset (tag.data_count * bytesize)
    if items ≠ 1 then none
    else if bytesize = 8 then
      -- already 64-bit wide, swap in place when big-endian
      some ((chunkList 8 tag.data_count temp_integers).map
        (fun c => maybe_swap_64 (leNat c) is_big_endian))
    else if bytesize = 4 then
      some ((chunkList 4 tag.data_count temp_integers).map
        (fun c => maybe_swap_32 (leNat c) is_big_endian))
    else if bytesize = 2 then
      some ((chunkList 2 tag.data_count temp_integers).map
        (fun c => maybe_swap_16 (leNat c) is_big_endian))
    else if bytesize = 1 then
      some temp_integers
    else none
  else
    some [tag.data_u64]

/-- Model of `tiff_read_field_rationals`: pairs of unsigned 32-bit values,
swapped per component when big-endian.  A short external read leaves the
zeroed tail of the `calloc`ed buffer; the inline branch of the source
dereferences the inline value as a pointer (a defect), modelled as a
zeroed buffer. -/
def tiff_read_field_rationals (h : FileHandle) (is_big_endian : Bool)
    (tag : tiff_tag_t) : List (Nat × Nat) :=
  let raw : List Nat :=
    if tag.data_is_offset then
      let (_, bs, _) := file_read_at_offset h tag.offset (tag.data_count * 8)
      bs ++ List.replicate (tag.data_count * 8 - bs.length) 0
    else
      List.replicate 8 0
  let pairs := (chunkList 8 tag.data_count raw).map
    (fun c => (leNat (c.take 4), leNat ((c.drop 4).take 4)))
  if is_big_endian then
    pairs.map (fun p => (bswapBytes 4 p.1, bswapBytes 4 p.2))
  else pairs

/-! ### The IFD descriptor and the image descriptor -/

/-- Per-IFD descriptor, the model of `tiff_ifd_t` (pointer fields into
sibling IFDs are omitted; `float` fields are `Rat`).  Defaults are the
zero initialization of the source. -/
structure tiff_ifd_t where
  ifd_index : Nat := 0
  tiff_subfiletype : Nat := 0
  image_width : Nat := 0
  image_height : Nat := 0
  tile_width : Nat := 0
  tile_height : Nat := 0
  tile_count : Nat := 0
  width_in_tiles : Nat := 0
  height_in_tiles : Nat := 0
  tile_offsets : Option (List Nat) := none
  tile_byte_counts : Option (List Nat) := none
  image_description : Option (List Nat) := none
  image_description_length : Nat := 0
  jpeg_tables : Option (List Nat) := none
  jpeg_tables_length : Nat := 0
  compression : Nat := 0
  color_space : Nat := 0
  subimage_type : Nat := 0
  level_magnification : Rat := 0
  chroma_subsampling_horizontal : Nat := 0
  chroma_subsampling_vertical : Nat := 0
  reference_black_white_rational_count : Nat := 0
  reference_black_white : Option (List (Nat × Nat)) := none
  um_per_pixel_x : Rat := 0
  um_per_pixel_y : Rat := 0
  x_tile_side_in_um : Rat := 0
  y_tile_side_in_um : Rat := 0
  deriving Repr, DecidableEq

/-- File-level descriptor, the model of `tiff_t` (file handles and pointer
fields omitted; cross-references are kept as indices, as the source also
stores them). -/
structure tiff_t where
  is_remote : Bool := false
  is_bigtiff : Bool := false
  is_big_endian : Bool := false
  filesize : Nat := 0
  bytesize_of_offsets : Nat := 0
  ifd_count : Nat := 0
  ifds : List tiff_ifd_t := []
  main_image_index : Nat := 0
  macro_image_index : Nat := 0
  label_image_index : Nat := 0
  level_image_index : Nat := 0
  level_count : Nat := 0
  mpp_x : Rat := 0
  mpp_y : Rat := 0
  deriving Repr, DecidableEq

/-! ### The IFD parser -/

/-- ASCII bytes of the literal `"Macro"`. -/
def asciiMacro : List Nat := [77, 97, 99, 114, 111]

/-- ASCII bytes of the literal `"Label"`. -/
def asciiLabel : List Nat := [76, 97, 98, 101, 108]

/-- ASCII bytes of the literal `"level"`. -/
def asciiLevelWord : List Nat := [108, 101, 118, 101, 108]

/-- Dispatch of one decoded tag onto the IFD descriptor, the `switch` in
`tiff_read_ifd`.  `none` models the `return false` failure paths. -/
def tiff_process_tag (h : FileHandle) (is_big_endian : Bool)
    (ifd : tiff_ifd_t) (tag : tiff_tag_t) : Option tiff_ifd_t :=
  if tag.code = TIFF_TAG_NEW_SUBFILE_TYPE then
    some { ifd with tiff_subfiletype := tag.data_u32 }
  else if tag.code = TIFF_TAG_IMAGE_WIDTH then
    some { ifd with image_width := tag.data_u32 }
  else if tag.code = TIFF_TAG_IMAGE_LENGTH then
    some { ifd with image_height := tag.data_u32 }
  else if tag.code = TIFF_TAG_BITS_PER_SAMPLE then
    some ifd  -- observed only (debug print), no stored state
  else if tag.code = TIFF_TAG_COMPRESSION then
    some { ifd with compression := tag.data_u16 }
  else if tag.code = TIFF_TAG_PHOTOMETRIC_INTERPRETATION then
    some { ifd with color_space := tag.data_u16 }
  else if tag.code = TIFF_TAG_IMAGE_DESCRIPTION then
    some { ifd with image_description := some (tiff_read_field_ascii h tag),
                    image_description_length := tag.data_count }
  else if tag.code = TIFF_TAG_TILE_WIDTH then
    some { ifd with tile_width := tag.data_u32 }
  else if tag.code = TIFF_TAG_TILE_LENGTH then
    some { ifd with tile_height := tag.data_u32 }
  else if tag.code = TIFF_TAG_TILE_OFFSETS then
    match tiff_read_field_integers h is_big_endian tag with
    | none => none
    | some l => some { ifd with tile_count := tag.data_count, tile_offsets := some l }
  else if tag.code = TIFF_TAG_TILE_BYTE_COUNTS then
    if tag.data_count ≠ ifd.tile_count then
      none  -- mismatch in the tile count reported by TileByteCounts and TileOffsets
    else
      match tiff_read_field_integers h is_big_endian tag with
      | none => none
      | some l => some { ifd with tile_byte_counts := some l }
  else if tag.code = TIFF_TAG_JPEG_TABLES then
    some { ifd with jpeg_tables := some (tiff_read_field_undefined h tag),
                    jpeg_tables_length := tag.data_count }
  else if tag.code = TIFF_TAG_YCBCRSUBSAMPLING then
    some { ifd with chroma_subsampling_horizontal := leNat (tag.data.take 2),
                    chroma_subsampling_vertical := leNat ((tag.data.drop 2).take 2) }
  else if tag.code = TIFF_TAG_REFERENCEBLACKWHITE then
    some { ifd with reference_black_white_rational_count := tag.data_count,
                    reference_black_white :=
                      some (tiff_read_field_rationals h is_big_endian tag) }
  else
    some ifd

/-- Fold all decoded tags of one IFD through `tiff_process_tag`. -/
def tiff_process_tags (h : FileHandle) (is_big_endian : Bool)
    (ifd : tiff_ifd_t) : List tiff_tag_t → Option tiff_ifd_t
  | [] => some ifd
  | tag :: rest =>
      match tiff_process_tag h is_big_endian ifd tag with
      | none => none
      | some ifd' => tiff_process_tags h is_big_endian ifd' rest

/-- Derived tile geometry: ceiling division of the image dimensions by the
tile dimensions, when tiled. -/
def tiff_compute_tile_geometry (ifd : tiff_ifd_t) : tiff_ifd_t :=
  let ifd :=
    if ifd.tile_width > 0 then
      { ifd with width_in_tiles := (ifd.image_width + ifd.tile_width - 1) / ifd.tile_width }
    else ifd
  if ifd.tile_height > 0 then
    { ifd with height_in_tiles := (ifd.image_height + ifd.tile_height - 1) / ifd.tile_height }
  else ifd

/-- Subimage classification at the end of `tiff_read_ifd`: prefix checks on
the image description, then the level guess for tiled main or reduced
images. -/
def tiff_classify_ifd (t : tiff_t) (ifd : tiff_ifd_t) : tiff_t × tiff_ifd_t :=
  let (t, ifd) :=
    match ifd.image_description with
    | none => (t, ifd)
    | some bs =>
        if bs.take 5 = asciiMacro then
          ({ t with macro_image_index := ifd.ifd_index },
           { ifd with subimage_type := TIFF_MACRO_SUBIMAGE })
        else if bs.take 5 = asciiLabel then
          ({ t with label_image_index := ifd.ifd_index },
           { ifd with subimage_type := TIFF_LABEL_SUBIMAGE })
        else if bs.take 5 = asciiLevelWord then
          (t, { ifd with subimage_type := TIFF_LEVEL_SUBIMAGE })
        else (t, ifd)
  if ifd.subimage_type = TIFF_UNKNOWN_SUBIMAGE ∧ ifd.tile_width > 0 ∧
      (ifd.ifd_index = 0 ∨ Nat.land ifd.tiff_subfiletype TIFF_FILETYPE_REDUCEDIMAGE ≠ 0) then
    (t, { ifd with subimage_type := TIFF_LEVEL_SUBIMAGE })
  else (t, ifd)

/-- The tag-reading phase of `tiff_read_ifd`: seek to the IFD, read the tag
count, batch-read and decode the raw tag records. -/
def tiff_decode_ifd_tags (t : tiff_t) (h : FileHandle) (next_ifd_offset : Nat) :
    Option (List tiff_tag_t × FileHandle) :=
  let h := fseek_m h next_ifd_offset
  let tag_count_num_bytes := if t.is_bigtiff then 8 else 2
  let (items, bs, h) := fread_m h tag_count_num_bytes
  if items ≠ 1 then none
  else
    let tag_count :=
      if t.is_big_endian then
        if t.is_bigtiff then bswapBytes 8 (leNat bs) else bswapBytes 2 (leNat bs)
      else leNat bs
    let tag_size := if t.is_bigtiff then 20 else 12
    let (items, raw_tags, h) := fread_m h (tag_count * tag_size)
    if items ≠ 1 then none
    else some (decode_raw_tags t.is_bigtiff t.is_big_endian tag_count raw_tags, h)

/-- Model of `tiff_read_ifd`: decode and process the tags at
`next_ifd_offset`, compute derived geometry, classify the subimage, and
read the offset of the next IFD.  The source reads the next offset into
the low `bytesize_of_offsets` bytes of the existing 64-bit variable
without byte-swapping it (the upper bytes keep their old value). -/
def tiff_read_ifd (t : tiff_t) (h : FileHandle) (ifd : tiff_ifd_t)
    (next_ifd_offset : Nat) : Option (tiff_t × tiff_ifd_t × FileHandle × Nat) :=
  let ifd := { ifd with color_space := TIFF_PHOTOMETRIC_RGB }
  match tiff_decode_ifd_tags t h next_ifd_offset with
  | none => none
  | some (tags, h) =>
      match tiff_process_tags h t.is_big_endian ifd tags with
      | none => none
      | some ifd =>
          let ifd := tiff_compute_tile_geometry ifd
          let (t, ifd) := tiff_classify_ifd t ifd
          let (items, bs, h) := fread_m h t.bytesize_of_offsets
          if items ≠ 1 then none
          else
            let w := 2 ^ (8 * t.bytesize_of_offsets)
            some (t, ifd, h, leNat bs + w * (next_ifd_offset / w))

/-! ### Opening a TIFF file -/

/-- The header phase of `open_tiff_file`: stat the file, read the 16-byte
header, and decode signature, magic and first IFD offset. -/
def open_tiff_header (file : List Nat) : Option (tiff_t × FileHandle × Nat) :=
  if file.length > 8 then
    let h : FileHandle := ⟨file, 0⟩
    let (items, hdr, h) := fread_m h 16
    if items ≠ 1 then none
    else
      let byte_order_indication := leNat (sliceBytes hdr 0 2)
      if byte_order_indication ≠ TIFF_BIG_ENDIAN ∧
         byte_order_indication ≠ TIFF_LITTLE_ENDIAN then none
      else
        let is_big_endian := byte_order_indication = TIFF_BIG_ENDIAN
        let filetype := maybe_swap_16 (leNat (sliceBytes hdr 2 2)) is_big_endian
        if filetype ≠ 0x2A ∧ filetype ≠ 0x2B then none
        else
          let is_bigtiff := filetype = 0x2B
          if is_bigtiff then
            let bytesize_of_offsets :=
              maybe_swap_16 (leNat (sliceBytes hdr 4 2)) is_big_endian
            if bytesize_of_offsets ≠ 8 then none
            else if leNat (sliceBytes hdr 6 2) ≠ 0 then none
            else
              some ({ is_big_endian := is_big_endian, is_bigtiff := true,
                      bytesize_of_offsets := 8 }, h,
                    maybe_swap_64 (leNat (sliceBytes hdr 8 8)) is_big_endian)
          else
            some ({ is_big_endian := is_big_endian, is_bigtiff := false,
                    bytesize_of_offsets := 4 }, h,
                  maybe_swap_32 (leNat (sliceBytes hdr 4 4)) is_big_endian)
  else none

/-- The IFD-chain walk of `open_tiff_file`.  The source loops while the
next offset is nonzero; `fuel` bounds the walk, which the source does not
(a cyclic chain livelocks it), so exhausted fuel on a nonzero offset gives
`none`. -/
def open_tiff_ifd_loop : Nat → tiff_t → FileHandle → Nat → Option tiff_t
  | 0, t, _, next_ifd_offset => if next_ifd_offset = 0 then some t else none
  | fuel + 1, t, h, next_ifd_offset =>
      if next_ifd_offset = 0 then some t
      else
        match tiff_read_ifd t h { ifd_index := t.ifd_count } next_ifd_offset with
        | none => none
        | some (t, ifd, h, next) =>
            open_tiff_ifd_loop fuel
              { t with ifds := t.ifds ++ [ifd], ifd_count := t.ifd_count + 1 } h next

/-- Per-level fields written after the chain walk: `um_per_pixel` doubles
per level starting at 0.25, tile sides are scaled by the tile geometry. -/
def set_um_fields : Nat → Rat → List tiff_ifd_t → List tiff_ifd_t
  | 0, _, ifds => ifds
  | _ + 1, _, [] => []
  | level_counter + 1, um_per_pixel, ifd :: rest =>
      { ifd with um_per_pixel_x := um_per_pixel,
                 um_per_pixel_y := um_per_pixel,
                 x_tile_side_in_um := um_per_pixel * (ifd.tile_width : Rat),
                 y_tile_side_in_um := um_per_pixel * (ifd.tile_height : Rat) } ::
        set_um_fields level_counter (um_per_pixel * 2) rest

/-- Post-parse finalization of `open_tiff_file`: main and level base
indices, the level count, the fallback `mpp`, and the per-level
micrometer fields of the first `level_count` IFDs. -/
def tiff_post_process (t : tiff_t) : tiff_t :=
  let t := { t with main_image_index := 0, level_image_index := 0 }
  let level_counter :=
    (t.ifds.filter (fun ifd => ifd.subimage_type = TIFF_LEVEL_SUBIMAGE)).length
  let t := { t with level_count := level_counter, mpp_x := (1 : Rat)/4, mpp_y := (1 : Rat)/4 }
  { t with ifds := set_um_fields t.level_count ((1 : Rat)/4) t.ifds }

/-- Model of `open_tiff_file` on the byte contents of a file. -/
def open_tiff_file (file : List Nat) (fuel : Nat) : Option tiff_t :=
  match open_tiff_header file with
  | none => none
  | some (t, h, next_ifd_offset) =>
      match open_tiff_ifd_loop fuel t h next_ifd_offset with
      | none => none
      | some t => some (tiff_post_process t)

/-! ### The block codec

The serialized stream is modelled at block granularity: each block is a
16-byte header (`block_type`, `index`, `length`) followed by `length`
payload bytes; the payload is carried in interpreted form.  Byte counts
are tracked exactly as the source computes them.  LZ4 compression and
decompression are external library calls and enter as parameters. -/

/-- Block type codes.  Modelled from the spec: the numeric values live in
the missing `tiff.h`; only their distinctness is observable (spec section
4.6 lists the types). -/
def SERIAL_BLOCK_TERMINATOR : Nat := 0
def SERIAL_BLOCK_TIFF_HEADER_AND_META : Nat := 1
def SERIAL_BLOCK_TIFF_IFDS : Nat := 2
def SERIAL_BLOCK_TIFF_IMAGE_DESCRIPTION : Nat := 3
def SERIAL_BLOCK_TIFF_TILE_OFFSETS : Nat := 4
def SERIAL_BLOCK_TIFF_TILE_BYTE_COUNTS : Nat := 5
def SERIAL_BLOCK_TIFF_JPEG_TABLES : Nat := 6
def SERIAL_BLOCK_LZ4_COMPRESSED_DATA : Nat := 7

/-- Byte size of `serial_block_t`: `u32 + u32 + u64` per spec section 4.6. -/
def SERIAL_BLOCK_SIZE : Nat := 16

/-- Modelled from the spec: `sizeof(tiff_serial_header_t)`.  The struct
lives in the missing `tiff.h`; the exact value is immaterial to every
property proved here (it only has to be used consistently, as the source
uses `sizeof`). -/
def SERIAL_HEADER_SIZE : Nat := 80

/-- Modelled from the spec: `sizeof(tiff_serial_ifd_t)`, same caveat as
`SERIAL_HEADER_SIZE`. -/
def SERIAL_IFD_SIZE : Nat := 96

/-- The fixed-size image-level record of the HEADER_AND_META block,
mirroring the initializer in `tiff_serialize`. -/
structure tiff_serial_header_t where
  filesize : Nat := 0
  ifd_count : Nat := 0
  main_image_index : Nat := 0
  macro_image_index : Nat := 0
  label_image_index : Nat := 0
  level_count : Nat := 0
  level_image_index : Nat := 0
  bytesize_of_offsets : Nat := 0
  is_bigtiff : Bool := false
  is_big_endian : Bool := false
  mpp_x : Rat := 0
  mpp_y : Rat := 0
  deriving Repr, DecidableEq

/-- The fixed-size per-IFD record of the IFDS block, mirroring the
initializer in `tiff_serialize`. -/
structure tiff_serial_ifd_t where
  image_width : Nat := 0
  image_height : Nat := 0
  tile_width : Nat := 0
  tile_height : Nat := 0
  tile_count : Nat := 0
  image_description_length : Nat := 0
  jpeg_tables_length : Nat := 0
  compression : Nat := 0
  color_space : Nat := 0
  level_magnification : Rat := 0
  width_in_tiles : Nat := 0
  height_in_tiles : Nat := 0
  um_per_pixel_x : Rat := 0
  um_per_pixel_y : Rat := 0
  x_tile_side_in_um : Rat := 0
  y_tile_side_in_um : Rat := 0
  chroma_subsampling_horizontal : Nat := 0
  chroma_subsampling_vertical : Nat := 0
  subimage_type : Nat := 0
  deriving Repr, DecidableEq

/-- Interpreted payload of one block.  In the byte stream these are all
plain bytes; the constructors record the interpretation under which the
bytes were produced and are consumed. -/
inductive serial_block_data where
  | header (h : tiff_serial_header_t)
  | ifds (l : List tiff_serial_ifd_t)
  | bytes (b : List Nat)
  | u64s (l : List Nat)
  | compressed (b : List Nat)
  | empty
  deriving Repr, DecidableEq

/-- One framed block: the `serial_block_t` header fields plus the payload
bytes that follow it. -/
structure sblock where
  block_type : Nat := 0
  index : Nat := 0
  length : Nat := 0
  payload : serial_block_data := .empty
  deriving Repr, DecidableEq

/-- Number of payload bytes a block's payload occupies on the wire. -/
def serial_block_data.byteSize : serial_block_data → Nat
  | .header _ => SERIAL_HEADER_SIZE
  | .ifds l => l.length * SERIAL_IFD_SIZE
  | .bytes b => b.length
  | .u64s l => 8 * l.length
  | .compressed b => b.length
  | .empty => 0

/-- Bytes a block stream occupies on the wire: 16 header bytes plus the
payload, per block; this is `buffer->used_size` after the pushes. -/
def streamByteSize (blocks : List sblock) : Nat :=
  (blocks.map (fun b => SERIAL_BLOCK_SIZE + b.payload.byteSize)).sum

/-- First `n` entries of a list, padded with zeros when it is shorter (a
`memcpy` that runs past the end of the source vector is modelled as
reading zeros). -/
def padTake (n : Nat) (l : List Nat) : List Nat :=
  l.take n ++ List.replicate (n - l.length) 0

/-- The image-level record serialized for a descriptor. -/
def tiff_serial_header_of (t : tiff_t) : tiff_serial_header_t :=
  { filesize := t.filesize, ifd_count := t.ifd_count,
    main_image_index := t.main_image_index,
    macro_image_index := t.macro_image_index,
    label_image_index := t.label_image_index,
    level_count := t.level_count, level_image_index := t.level_image_index,
    bytesize_of_offsets := t.bytesize_of_offsets,
    is_bigtiff := t.is_bigtiff, is_big_endian := t.is_big_endian,
    mpp_x := t.mpp_x, mpp_y := t.mpp_y }

/-- The per-IFD record serialized for one IFD. -/
def tiff_serial_ifd_of (ifd : tiff_ifd_t) : tiff_serial_ifd_t :=
  { image_width := ifd.image_width, image_height := ifd.image_height,
    tile_width := ifd.tile_width, tile_height := ifd.tile_height,
    tile_count := ifd.tile_count,
    image_description_length := ifd.image_description_length,
    jpeg_tables_length := ifd.jpeg_tables_length,
    compression := ifd.compression, color_space := ifd.color_space,
    level_magnification := ifd.level_magnification,
    width_in_tiles := ifd.width_in_tiles, height_in_tiles := ifd.height_in_tiles,
    um_per_pixel_x := ifd.um_per_pixel_x, um_per_pixel_y := ifd.um_per_pixel_y,
    x_tile_side_in_um := ifd.x_tile_side_in_um,
    y_tile_side_in_um := ifd.y_tile_side_in_um,
    chroma_subsampling_horizontal := ifd.chroma_subsampling_horizontal,
    chroma_subsampling_vertical := ifd.chroma_subsampling_vertical,
    subimage_type := ifd.subimage_type }

/-- The IFD sequence the serializer walks: indices `0 ≤ i < ifd_count`
into the descriptor's IFD array (an index past the array reads the zero
descriptor, where the source would read out of bounds). -/
def serialize_ifd_list (t : tiff_t) : List tiff_ifd_t :=
  (List.range t.ifd_count).map (fun i => t.ifds.getD i {})

/-- The uncompressed total payload size as `tiff_serialize` accounts it
before writing: header block and record, IFDS block and records, per-IFD
variable payloads, four per-IFD block headers and the terminator. -/
def tiff_serialize_total_size (t : tiff_t) : Nat :=
  SERIAL_BLOCK_SIZE + SERIAL_HEADER_SIZE + SERIAL_BLOCK_SIZE +
    ((serialize_ifd_list t).map (fun ifd =>
        ifd.image_description_length + ifd.jpeg_tables_length +
          8 * ifd.tile_count + 8 * ifd.tile_count)).sum +
    t.ifd_count * SERIAL_IFD_SIZE +
    t.ifd_count * SERIAL_BLOCK_SIZE + t.ifd_count * SERIAL_BLOCK_SIZE +
    t.ifd_count * SERIAL_BLOCK_SIZE + t.ifd_count * SERIAL_BLOCK_SIZE +
    SERIAL_BLOCK_SIZE

/-- The four per-IFD blocks (image description, tile offsets, tile byte
counts, JPEG tables), for each IFD in order. -/
def tiff_serialize_ifd_blocks : Nat → List tiff_ifd_t → List sblock
  | _, [] => []
  | i, ifd :: rest =>
      { block_type := SERIAL_BLOCK_TIFF_IMAGE_DESCRIPTION, index := i,
        length := ifd.image_description_length,
        payload := .bytes (padTake ifd.image_description_length
          (ifd.image_description.getD [])) } ::
      { block_type := SERIAL_BLOCK_TIFF_TILE_OFFSETS, index := i,
        length := 8 * ifd.tile_count,
        payload := .u64s (padTake ifd.tile_count (ifd.tile_offsets.getD [])) } ::
      { block_type := SERIAL_BLOCK_TIFF_TILE_BYTE_COUNTS, index := i,
        length := 8 * ifd.tile_count,
        payload := .u64s (padTake ifd.tile_count (ifd.tile_byte_counts.getD [])) } ::
      { block_type := SERIAL_BLOCK_TIFF_JPEG_TABLES, index := i,
        length := ifd.jpeg_tables_length,
        payload := .bytes (padTake ifd.jpeg_tables_length
          (ifd.jpeg_tables.getD [])) } ::
      tiff_serialize_ifd_blocks (i + 1) rest

/-- The uncompressed block stream `tiff_serialize` pushes. -/
def tiff_serialize_blocks (t : tiff_t) : List sblock :=
  { block_type := SERIAL_BLOCK_TIFF_HEADER_AND_META, index := 0,
    length := SERIAL_BLOCK_SIZE,
    payload := .header (tiff_serial_header_of t) } ::
  { block_type := SERIAL_BLOCK_TIFF_IFDS, index := 0,
    length := t.ifd_count * SERIAL_IFD_SIZE,
    payload := .ifds ((serialize_ifd_list t).map tiff_serial_ifd_of) } ::
  (tiff_serialize_ifd_blocks 0 (serialize_ifd_list t) ++
    [{ block_type := SERIAL_BLOCK_TERMINATOR, index := 0, length := 0,
       payload := .empty }])

/-- Result of `tiff_serialize`: the decimal value written into the
16-character `Content-length` HTTP header field, and the block stream that
follows the blank line. -/
structure serialize_result where
  content_length : Nat
  stream : List sblock
  deriving Repr, DecidableEq

/-- Model of `tiff_serialize`.  `compress` is `LZ4_compress_default`
(`none` models a nonpositive return).  On success the whole payload is
replaced by one LZ4_COMPRESSED_DATA block whose `index` carries the
uncompressed size — and the source then rewrites the HTTP header with the
unchanged `total_size`, not the new payload size. -/
def tiff_serialize (compress : List sblock → Option (List Nat)) (t : tiff_t) :
    serialize_result :=
  let blocks := tiff_serialize_blocks t
  let total_size := tiff_serialize_total_size t
  match compress blocks with
  | some compression_buffer =>
      { content_length := total_size,
        stream := [{ block_type := SERIAL_BLOCK_LZ4_COMPRESSED_DATA,
                     index := total_size, length := compression_buffer.length,
                     payload := .compressed compression_buffer }] }
  | none => { content_length := total_size, stream := blocks }

/-! ### The reconstructor -/

/-- The IFD skeletons `tiff_deserialize` builds from the IFDS block, one
per `ifd_count`, before the variable-payload blocks arrive (reading a
record past those present yields the zero record, where the source would
read stale bytes). -/
def deserialize_skeleton (ifd_count : Nat) (serial_ifds : List tiff_serial_ifd_t) :
    List tiff_ifd_t :=
  (List.range ifd_count).map (fun i =>
    let s := serial_ifds.getD i {}
    { ifd_index := i, image_width := s.image_width, image_height := s.image_height,
      tile_width := s.tile_width, tile_height := s.tile_height,
      tile_count := s.tile_count, tile_offsets := none, tile_byte_counts := none,
      image_description := none, image_description_length := s.image_description_length,
      jpeg_tables := none, jpeg_tables_length := s.jpeg_tables_length,
      compression := s.compression, color_space := s.color_space,
      subimage_type := s.subimage_type, level_magnification := s.level_magnification,
      width_in_tiles := s.width_in_tiles, height_in_tiles := s.height_in_tiles,
      um_per_pixel_x := s.um_per_pixel_x, um_per_pixel_y := s.um_per_pixel_y,
      x_tile_side_in_um := s.x_tile_side_in_um, y_tile_side_in_um := s.y_tile_side_in_um,
      chroma_subsampling_horizontal := s.chroma_subsampling_horizontal,
      chroma_subsampling_vertical := s.chroma_subsampling_vertical,
      reference_black_white_rational_count := 0, reference_black_white := none })

/-- The payload loop of `tiff_deserialize`: pop a block, check its IFD
index, dispatch on its type with a duplicate-population guard per field,
stop at a terminator.  Running out of blocks is a failed pop. -/
def process_serial_blocks (ifd_count : Nat) (ifds : List tiff_ifd_t) :
    List sblock → Option (List tiff_ifd_t)
  | [] => none
  | b :: rest =>
      if b.index ≥ ifd_count then none
      else
        let referenced_ifd := ifds.getD b.index {}
        if b.block_type = SERIAL_BLOCK_TIFF_IMAGE_DESCRIPTION then
          match b.payload with
          | .bytes content =>
              if referenced_ifd.image_description.isSome then none
              else process_serial_blocks ifd_count
                (ifds.set b.index { referenced_ifd with
                  image_description := some content,
                  image_description_length := b.length }) rest
          | _ => none
        else if b.block_type = SERIAL_BLOCK_TIFF_TILE_OFFSETS then
          match b.payload with
          | .u64s l =>
              if referenced_ifd.tile_offsets.isSome then none
              else process_serial_blocks ifd_count
                (ifds.set b.index { referenced_ifd with tile_offsets := some l }) rest
          | _ => none
        else if b.block_type = SERIAL_BLOCK_TIFF_TILE_BYTE_COUNTS then
          match b.payload with
          | .u64s l =>
              if referenced_ifd.tile_byte_counts.isSome then none
              else process_serial_blocks ifd_count
                (ifds.set b.index { referenced_ifd with tile_byte_counts := some l }) rest
          | _ => none
        else if b.block_type = SERIAL_BLOCK_TIFF_JPEG_TABLES then
          match b.payload with
          | .bytes content =>
              if referenced_ifd.jpeg_tables.isSome then none
              else process_serial_blocks ifd_count
                (ifds.set b.index { referenced_ifd with
                  jpeg_tables := some content,
                  jpeg_tables_length := b.length }) rest
          | _ => none
        else if b.block_type = SERIAL_BLOCK_TERMINATOR then
          some ifds
        else
          process_serial_blocks ifd_count ifds rest

/-- The part of `tiff_deserialize` after the optional LZ4 unwrapping: the
HEADER_AND_META block, the IFDS block, then the payload loop. -/
def tiff_deserialize_payload (b : sblock) (rest : List sblock) : Option tiff_t :=
  if b.block_type ≠ SERIAL_BLOCK_TIFF_HEADER_AND_META then none
  else
    match b.payload with
    | .header sh =>
        let t : tiff_t :=
          { is_remote := false, filesize := sh.filesize,
            bytesize_of_offsets := sh.bytesize_of_offsets,
            ifd_count := sh.ifd_count, ifds := [],
            main_image_index := sh.main_image_index,
            macro_image_index := sh.macro_image_index,
            label_image_index := sh.label_image_index,
            level_count := sh.level_count, level_image_index := 0,
            is_bigtiff := sh.is_bigtiff, is_big_endian := sh.is_big_endian,
            mpp_x := sh.mpp_x, mpp_y := sh.mpp_y }
        match rest with
        | [] => none
        | b1 :: rest1 =>
            if b1.block_type ≠ SERIAL_BLOCK_TIFF_IFDS then none
            else if b1.length ≠ t.ifd_count * SERIAL_IFD_SIZE then none
            else
              match b1.payload with
              | .ifds serial_ifds =>
                  match process_serial_blocks t.ifd_count
                      (deserialize_skeleton t.ifd_count serial_ifds) rest1 with
                  | none => none
                  | some final_ifds => some { t with ifds := final_ifds }
              | _ => none
    | _ => none

/-- Model of `tiff_deserialize` on the block stream following the HTTP
headers (`find_end_of_http_headers` strips those; the serializer's header
contains the first and only `CRLFCRLF`).  `decompress` is
`LZ4_decompress_safe`: its integer return plus the block stream held by
the output buffer on success.  On a positive return that differs from the
block's `index` the source only prints a warning — the stale LZ4 block
then reaches the HEADER_AND_META type check in
`tiff_deserialize_payload`. -/
def tiff_deserialize (decompress : List Nat → Nat → Int × List sblock) :
    List sblock → Option tiff_t
  | [] => none
  | b0 :: rest0 =>
      let step : Option (sblock × List sblock) :=
        if b0.block_type = SERIAL_BLOCK_LZ4_COMPRESSED_DATA then
          match b0.payload with
          | .compressed data =>
              let r := decompress data b0.index
              if r.1 > 0 then
                if r.1 ≠ (b0.index : Int) then
                  some (b0, rest0)
                else
                  match r.2 with
                  | [] => none
                  | db :: drest => some (db, drest)
              else some (b0, rest0)
          | _ => none
        else some (b0, rest0)
      match step with
      | none => none
      | some (b, rest) => tiff_deserialize_payload b rest

/-! ### Spec-side definitions and well-formedness predicates -/

/-- The per-element inline swap as the spec words it (section 4.2): the
payload is split into `data_count` elements of size `data_type_size` and
each element is independently byte-swapped when big-endian.  Stated for
comparison with `maybe_swap_tiff_field`, which is translated from the
source. -/
def swap_all_elements (field : List Nat) (data_type data_count : Nat)
    (is_big_endian : Bool) : List Nat :=
  if is_big_endian then
    let field_size := get_tiff_field_size data_type
    if field_size > 1 then swapChunks field_size data_count field else field
  else field

/-- The classification the parser finally records for IFD 0, as a function
of its own description and tile width: Macro/Label/level prefixes first,
then the tiled-main-image guess, else UNKNOWN. -/
def classify_ifd0 (image_description : Option (List Nat)) (tile_width : Nat) : Nat :=
  match image_description with
  | some bs =>
      if bs.take 5 = asciiMacro then TIFF_MACRO_SUBIMAGE
      else if bs.take 5 = asciiLabel then TIFF_LABEL_SUBIMAGE
      else if bs.take 5 = asciiLevelWord then TIFF_LEVEL_SUBIMAGE
      else if tile_width > 0 then TIFF_LEVEL_SUBIMAGE
      else TIFF_UNKNOWN_SUBIMAGE
  | none =>
      if tile_width > 0 then TIFF_LEVEL_SUBIMAGE
      else TIFF_UNKNOWN_SUBIMAGE

/-- A compressor/decompressor pair that round-trips: whenever compression
succeeds, decompressing its output at the recorded uncompressed size
restores the uncompressed stream and reports exactly that size.  This is
the contract of the external LZ4 library. -/
def RoundTripCodec (compress : List sblock → Option (List Nat))
    (decompress : List Nat → Nat → Int × List sblock) : Prop :=
  ∀ blocks cb, compress blocks = some cb →
    decompress cb (streamByteSize blocks) = ((streamByteSize blocks : Int), blocks)

/-- Internal consistency of an image descriptor: the IFD count matches the
IFD vector, and each IFD's variable-length vectors match their recorded
counts (absent optional fields have recorded length 0). -/
def tiff_wf (t : tiff_t) : Prop :=
  t.ifd_count = t.ifds.length ∧
  ∀ ifd ∈ t.ifds,
    (ifd.tile_offsets.getD []).length = ifd.tile_count ∧
    (ifd.tile_byte_counts.getD []).length = ifd.tile_count ∧
    (ifd.image_description.getD []).length = ifd.image_description_length ∧
    (ifd.jpeg_tables.getD []).length = ifd.jpeg_tables_length

/-- Field-wise relation between an IFD before serialization and its
reconstruction: geometry and vectors are recovered exactly; optional
blobs come back present (an absent one as an empty one). -/
def roundtrip_ifd_match (a b : tiff_ifd_t) : Prop :=
  b.image_width = a.image_width ∧ b.image_height = a.image_height ∧
  b.tile_width = a.tile_width ∧ b.tile_height = a.tile_height ∧
  b.tile_count = a.tile_count ∧
  b.width_in_tiles = a.width_in_tiles ∧ b.height_in_tiles = a.height_in_tiles ∧
  b.tile_offsets = some (a.tile_offsets.getD []) ∧
  b.tile_byte_counts = some (a.tile_byte_counts.getD []) ∧
  b.image_description = some (a.image_description.getD []) ∧
  b.image_description_length = a.image_description_length ∧
  b.jpeg_tables = some (a.jpeg_tables.getD []) ∧
  b.jpeg_tables_length = a.jpeg_tables_length

/-- The five fields one variable-payload round trip writes into a skeleton
IFD, as the deserializer's payload loop populates them from the four
blocks the serializer emitted for `src`. -/
def fill_ifd (skel src : tiff_ifd_t) : tiff_ifd_t :=
  { skel with
    image_description :=
      some (padTake src.image_description_length (src.image_description.getD [])),
    image_description_length := src.image_description_length,
    tile_offsets := some (padTake src.tile_count (src.tile_offsets.getD [])),
    tile_byte_counts := some (padTake src.tile_count (src.tile_byte_counts.getD [])),
    jpeg_tables := some (padTake src.jpeg_tables_length (src.jpeg_tables.getD [])),
    jpeg_tables_length := src.jpeg_tables_length }

/-! ### Concrete examples used by witnesses and counterexamples -/

/-- A compressor that always declines (`LZ4_compress_default` returning a
nonpositive value). -/
def declineCompress : List sblock → Option (List Nat) := fun _ => none

/-- A decompressor that always fails. -/
def failDecompress : List Nat → Nat → Int × List sblock := fun _ _ => (0, [])

/-- A compressor that always "succeeds" with a 3-byte output. -/
def tinyCompress : List sblock → Option (List Nat) := fun _ => some [1, 2, 3]

/-- An image descriptor with no IFDs at all. -/
def exampleEmptyImage : tiff_t := {}

/-- An image descriptor with one IFD whose optional blobs are all absent. -/
def exampleBareImage : tiff_t := { ifd_count := 1, ifds := [{ ifd_index := 0 }] }

/-- A well-formed one-IFD image descriptor with tiles, description and
JPEG tables. -/
def exampleImage : tiff_t :=
  { ifd_count := 1,
    ifds := [{ ifd_index := 0, image_width := 512, image_height := 512,
               tile_width := 512, tile_height := 512, tile_count := 1,
               width_in_tiles := 1, height_in_tiles := 1,
               tile_offsets := some [1000], tile_byte_counts := some [50],
               image_description := some asciiLevelWord, image_description_length := 5,
               jpeg_tables := some [1, 2, 3], jpeg_tables_length := 3,
               compression := 7, color_space := 2, subimage_type := 1 }],
    level_count := 1 }

/-- A decompressor that reports 5 bytes written, regardless of the
expected size, while producing a perfectly valid inner stream. -/
def mismatchDecompress : List Nat → Nat → Int × List sblock :=
  fun _ _ => (5, tiff_serialize_blocks exampleImage)

/-- A decompressor that reports exactly the expected size and produces the
same valid inner stream as `mismatchDecompress`. -/
def agreeDecompress : List Nat → Nat → Int × List sblock :=
  fun _ expected => ((expected : Int), tiff_serialize_blocks exampleImage)

/-- An LZ4_COMPRESSED_DATA block recording an uncompressed size of 312
bytes (the wire size of `tiff_serialize_blocks exampleImage`). -/
def exampleLz4Block : sblock :=
  { block_type := SERIAL_BLOCK_LZ4_COMPRESSED_DATA, index := 312, length := 3,
    payload := .compressed [9, 9, 9] }

/-- A minimal classic little-endian TIFF: one IFD at offset 16 holding a
single ImageWidth tag; no tiles, no description. -/
def exampleFileBare : List Nat :=
  [0x49, 0x49, 0x2A, 0x00, 16, 0, 0, 0, 0, 0, 0, 0, 0, 0, 0, 0] ++
  [1, 0] ++
  [0, 1, 4, 0, 1, 0, 0, 0, 100, 0, 0, 0] ++
  [0, 0, 0, 0]

/-- A classic little-endian TIFF whose single IFD carries a
YCbCrSubSampling tag with the two 16-bit values (2, 2) inline. -/
def exampleFileYCbCrLE : List Nat :=
  [0x49, 0x49, 0x2A, 0x00, 16, 0, 0, 0, 0, 0, 0, 0, 0, 0, 0, 0] ++
  [1, 0] ++
  [0x12, 0x02, 3, 0, 2, 0, 0, 0, 2, 0, 2, 0] ++
  [0, 0, 0, 0]

/-- The big-endian twin of `exampleFileYCbCrLE`: the same logical content
with every multi-byte header, count and element stored big-endian. -/
def exampleFileYCbCrBE : List Nat :=
  [0x4D, 0x4D, 0x00, 0x2A, 0, 0, 0, 16, 0, 0, 0, 0, 0, 0, 0, 0] ++
  [0, 1] ++
  [0x02, 0x12, 0, 3, 0, 0, 0, 2, 0, 2, 0, 2] ++
  [0, 0, 0, 0]

/-- A classic little-endian TIFF whose single IFD has a TileOffsets tag
with two entries followed by a TileByteCounts tag declaring only one. -/
def exampleFileMismatch : List Nat :=
  [0x49, 0x49, 0x2A, 0x00, 16, 0, 0, 0, 0, 0, 0, 0, 0, 0, 0, 0] ++
  [2, 0] ++
  [0x44, 0x01, 4, 0, 2, 0, 0, 0, 46, 0, 0, 0] ++
  [0x45, 0x01, 4, 0, 1, 0, 0, 0, 99, 0, 0, 0] ++
  [0, 0, 0, 0] ++
  [10, 0, 0, 0, 20, 0, 0, 0]

/-! ### An opposite-endianness encoder pair

`tiff.c` only reads files.  To state that a big-endian file and its
little-endian twin "encode the same logical content" (spec section 8,
property 1), we fix an encoder of single-IFD classic TIFF files,
parameterized by byte order, and compare the parses of the two encodings
of the same content. -/

/-- A `w`-byte value written in the chosen byte order. -/
def encNum (is_big_endian : Bool) (w v : Nat) : List Nat :=
  if is_big_endian then (toLEBytes w v).reverse else toLEBytes w v

/-- One logical IFD entry: code, data type, declared count, and the
element values (for RATIONAL/SRATIONAL: the 32-bit components, two per
rational). -/
structure enc_tag where
  code : Nat := 0
  data_type : Nat := 0
  data_count : Nat := 0
  elems : List Nat := []
  deriving Repr, DecidableEq

/-- Width of one encoded element: rationals are written as 4-byte
components, everything else as whole elements. -/
def enc_elem_width (data_type : Nat) : Nat :=
  if data_type = TIFF_RATIONAL ∨ data_type = TIFF_SRATIONAL then 4
  else get_tiff_field_size data_type

/-- The payload bytes of one tag. -/
def enc_tag_payload (e : Bool) (tg : enc_tag) : List Nat :=
  (tg.elems.map (encNum e (enc_elem_width tg.data_type))).flatten

/-- The 12-byte record of one tag: code, type, count, then the inline
payload zero-padded into the 4-byte value slot, or the absolute offset of
the out-of-line payload. -/
def enc_tag_record (e : Bool) (tg : enc_tag) (offset : Nat) : List Nat :=
  encNum e 2 tg.code ++ encNum e 2 tg.data_type ++ encNum e 4 tg.data_count ++
    (if get_tiff_field_size tg.data_type * tg.data_count ≤ 4 then
       padTake 4 (enc_tag_payload e tg)
     else encNum e 4 offset)

/-- Encode the tag records and the out-of-line data region; out-of-line
payloads are laid out consecutively from `base`. -/
def enc_tags (e : Bool) : Nat → List enc_tag → List Nat × List Nat
  | _, [] => ([], [])
  | base, tg :: rest =>
      if get_tiff_field_size tg.data_type * tg.data_count ≤ 4 then
        let p := enc_tags e base rest
        (enc_tag_record e tg 0 ++ p.1, p.2)
      else
        let pl := enc_tag_payload e tg
        let p := enc_tags e (base + pl.length) rest
        (enc_tag_record e tg base ++ p.1, pl ++ p.2)

/-- A single-IFD classic TIFF encoding of the given tags: the 16 header
bytes the reader consumes (8-byte classic header zero-padded), the IFD at
offset 16 (tag count, records, zero next-IFD offset), then the data
region at offset `22 + 12 * tags.length`. -/
def encodeTiffFile (e : Bool) (tags : List enc_tag) : List Nat :=
  ((if e then [0x4D, 0x4D] else [0x49, 0x49]) ++ encNum e 2 0x2A ++
    encNum e 4 16 ++ List.replicate 8 0) ++
  encNum e 2 tags.length ++
  (enc_tags e (22 + 12 * tags.length) tags).1 ++
  List.replicate 4 0 ++
  (enc_tags e (22 + 12 * tags.length) tags).2

/-- The normalized tag both encodings decode to (independent of the byte
order, which is the heart of the symmetry argument). -/
def canon_tag (tg : enc_tag) (offset : Nat) : tiff_tag_t :=
  if get_tiff_field_size tg.data_type * tg.data_count ≤ 4 then
    { code := tg.code, data_type := tg.data_type, data_count := tg.data_count,
      data_is_offset := false, offset := 0,
      data := padTake 8 (enc_tag_payload false tg) }
  else
    { code := tg.code, data_type := tg.data_type, data_count := tg.data_count,
      data_is_offset := true, offset := offset, data := List.replicate 8 0 }

/-- The decoded forms of a whole tag list, with the offset accumulator of
`enc_tags`. -/
def canon_tags : Nat → List enc_tag → List tiff_tag_t
  | _, [] => []
  | base, tg :: rest =>
      if get_tiff_field_size tg.data_type * tg.data_count ≤ 4 then
        canon_tag tg 0 :: canon_tags base rest
      else
        canon_tag tg base ::
          canon_tags (base + (enc_tag_payload false tg).length) rest

/-- Encodable, symmetry-safe tags: a recognized data type; an element
list matching the declared count (components for rationals); values
fitting their width; code, type and count fitting their record slots;
inline payloads holding at most one element unless the elements are
single bytes (the decoder swaps only the first inline element);
ASCII-loaded tags (ImageDescription, JPEGTables) using single-byte
element types; TileOffsets/TileByteCounts not using rational types (the
integer loader would reassemble their components in file order);
ReferenceBlackWhite carrying a rational type with a positive count (the
rational loader reads eight bytes per entry, and an inline rational would
dereference a bogus pointer). -/
def enc_tag_ok (tg : enc_tag) : Prop :=
  1 ≤ get_tiff_field_size tg.data_type ∧
  (if tg.data_type = TIFF_RATIONAL ∨ tg.data_type = TIFF_SRATIONAL
   then tg.elems.length = 2 * tg.data_count
   else tg.elems.length = tg.data_count) ∧
  (∀ v ∈ tg.elems, v < 256 ^ enc_elem_width tg.data_type) ∧
  tg.code < 2 ^ 16 ∧ tg.data_type < 2 ^ 16 ∧ tg.data_count < 2 ^ 32 ∧
  (get_tiff_field_size tg.data_type * tg.data_count ≤ 4 →
    tg.data_count ≤ 1 ∨ get_tiff_field_size tg.data_type = 1) ∧
  ((tg.code = TIFF_TAG_IMAGE_DESCRIPTION ∨ tg.code = TIFF_TAG_JPEG_TABLES) →
    get_tiff_field_size tg.data_type = 1) ∧
  ((tg.code = TIFF_TAG_TILE_OFFSETS ∨ tg.code = TIFF_TAG_TILE_BYTE_COUNTS) →
    ¬ (tg.data_type = TIFF_RATIONAL ∨ tg.data_type = TIFF_SRATIONAL)) ∧
  (tg.code = TIFF_TAG_REFERENCEBLACKWHITE →
    (tg.data_type = TIFF_RATIONAL ∨ tg.data_type = TIFF_SRATIONAL) ∧
      1 ≤ tg.data_count)

/-- Encodability of a whole tag list: the count fits its 2-byte slot, the
file stays below the 4-gigabyte offsets of classic TIFF, and every tag is
individually fine. -/
def enc_tags_ok (tags : List enc_tag) : Prop :=
  tags.length < 2 ^ 16 ∧
  22 + 12 * tags.length +
    (tags.map (fun tg => (enc_tag_payload false tg).length)).sum < 2 ^ 32 ∧
  ∀ tg ∈ tags, enc_tag_ok tg

/-- A descriptor with its endianness flag cleared, for comparing parses
of opposite-endianness twins. -/
def strip_endianness (t : tiff_t) : tiff_t := { t with is_big_endian := false }

/-- Bytes of the out-of-line data region of an encoded tag list (inline
payloads live in their records instead). -/
def enc_data_len : List enc_tag → Nat
  | [] => 0
  | tg :: rest =>
      (if get_tiff_field_size tg.data_type * tg.data_count ≤ 4 then 0
       else (enc_tag_payload false tg).length) + enc_data_len rest

/-- Consecutive pairs of a list, the logical rationals of an encoded
component list. -/
def encPairs : List Nat → List (Nat × Nat)
  | a :: b :: rest => (a, b) :: encPairs rest
  | _ => []

/-! ### Helper lemmas -/

/-- The payload loop rejects every block, the terminator included, when
`ifd_count` is zero, because no `u32` index is below zero. -/
theorem process_serial_blocks_zero_count (ifds : List tiff_ifd_t)
    (blocks : List sblock) : process_serial_blocks 0 ifds blocks = none := by
  cases blocks with
  | nil => rfl
  | cons b rest => simp [process_serial_blocks]

/-- A file shorter than 16 bytes fails the header phase: the 16-byte
header `fread` cannot complete. -/
theorem open_tiff_header_short (file : List Nat) (hlen : file.length < 16) :
    open_tiff_header file = none := by
  unfold open_tiff_header
  by_cases h8 : file.length > 8
  · rw [if_pos h8]
    have hbs : ¬ (0 < 16 ∧ (sliceBytes file 0 16).length = 16) := by
      simp only [sliceBytes, List.drop_zero, List.length_take, not_and]
      omega
    simp only [fread_m, sliceBytes, List.drop_zero]
    have hcond : ¬ (0 < 16 ∧ (List.take 16 file).length = 16) := by
      simp only [List.length_take, not_and]
      omega
    rw [if_neg hcond, if_pos (by decide : (0 : Nat) ≠ 1)]
  · rw [if_neg h8]

/-- Length of a padded take. -/
theorem padTake_length (n : Nat) (l : List Nat) : (padTake n l).length = n := by
  simp only [padTake, List.length_append, List.length_take, List.length_replicate]
  omega

/-- A padded take of a list of exactly the requested length is the list. -/
theorem padTake_eq_self (n : Nat) (l : List Nat) (h : l.length = n) :
    padTake n l = l := by
  simp [padTake, h, List.take_of_length_le (Nat.le_of_eq h)]

/-- Wire size of the empty block stream. -/
theorem streamByteSize_nil : streamByteSize [] = 0 := rfl

/-- Wire size of a cons cell of the block stream. -/
theorem streamByteSize_cons (b : sblock) (l : List sblock) :
    streamByteSize (b :: l) = SERIAL_BLOCK_SIZE + b.payload.byteSize + streamByteSize l := by
  simp [streamByteSize]

/-- Wire size of an appended block stream. -/
theorem streamByteSize_append (l1 l2 : List sblock) :
    streamByteSize (l1 ++ l2) = streamByteSize l1 + streamByteSize l2 := by
  simp [streamByteSize]

/-- Wire size of the four per-IFD blocks of each IFD. -/
theorem streamByteSize_ifd_blocks (k : Nat) (l : List tiff_ifd_t) :
    streamByteSize (tiff_serialize_ifd_blocks k l) =
      (l.map (fun ifd => ifd.image_description_length + ifd.jpeg_tables_length +
        8 * ifd.tile_count + 8 * ifd.tile_count)).sum +
      l.length * (4 * SERIAL_BLOCK_SIZE) := by
  induction l generalizing k with
  | nil => simp [tiff_serialize_ifd_blocks, streamByteSize]
  | cons ifd rest ih =>
      simp only [tiff_serialize_ifd_blocks, streamByteSize_cons,
        serial_block_data.byteSize, padTake_length, List.map_cons, List.sum_cons,
        List.length_cons, ih]
      ring

/-- The serializer walks `ifd_count` IFD slots. -/
theorem serialize_ifd_list_length (t : tiff_t) :
    (serialize_ifd_list t).length = t.ifd_count := by
  simp [serialize_ifd_list]

/-- The `ASSERT(buffer->used_size == total_size)` of the source: the bytes
actually pushed equal the accounted total. -/
theorem streamByteSize_serialize_blocks (t : tiff_t) :
    streamByteSize (tiff_serialize_blocks t) = tiff_serialize_total_size t := by
  simp only [tiff_serialize_blocks, streamByteSize_cons, streamByteSize_append,
    streamByteSize_nil, serial_block_data.byteSize, List.length_map,
    serialize_ifd_list_length, streamByteSize_ifd_blocks, tiff_serialize_total_size,
    SERIAL_BLOCK_SIZE, SERIAL_HEADER_SIZE, SERIAL_IFD_SIZE]
  have hlen := serialize_ifd_list_length t
  omega

/-- The accounted total payload size is positive. -/
theorem tiff_serialize_total_size_pos (t : tiff_t) :
    0 < tiff_serialize_total_size t := by
  unfold tiff_serialize_total_size SERIAL_BLOCK_SIZE SERIAL_HEADER_SIZE
  omega

/-- A stream whose first block is not LZ4-compressed is deserialized
directly. -/
theorem tiff_deserialize_cons_plain
    (decompress : List Nat → Nat → Int × List sblock) (b0 : sblock)
    (rest : List sblock)
    (h : b0.block_type ≠ SERIAL_BLOCK_LZ4_COMPRESSED_DATA) :
    tiff_deserialize decompress (b0 :: rest) = tiff_deserialize_payload b0 rest := by
  simp [tiff_deserialize, h]

/-- Unwrapping a well-behaved LZ4 block: when decompression returns
exactly the recorded size and a nonempty stream, deserialization
continues on that stream. -/
theorem tiff_deserialize_lz4_unwrap
    (decompress : List Nat → Nat → Int × List sblock) (idx len : Nat)
    (data : List Nat) (rest0 : List sblock) (db : sblock) (drest : List sblock)
    (hdec : decompress data idx = ((idx : Int), db :: drest)) (hpos : 0 < idx) :
    tiff_deserialize decompress
      ({ block_type := SERIAL_BLOCK_LZ4_COMPRESSED_DATA, index := idx,
         length := len, payload := .compressed data } :: rest0) =
      tiff_deserialize_payload db drest := by
  have hgt : (0 : Int) < (idx : Int) := by exact_mod_cast hpos
  simp [tiff_deserialize, hdec, hgt]

/-- The payload phase fails whenever the header record carries
`ifd_count = 0`: even the terminator trips the index-range check. -/
theorem tiff_deserialize_payload_zero_ifds (b0 : sblock) (rest : List sblock)
    (sh : tiff_serial_header_t)
    (htype : b0.block_type = SERIAL_BLOCK_TIFF_HEADER_AND_META)
    (hpayload : b0.payload = .header sh) (hcount : sh.ifd_count = 0) :
    tiff_deserialize_payload b0 rest = none := by
  unfold tiff_deserialize_payload
  rw [hpayload, if_neg (by simp [htype])]
  simp only [hcount]
  cases rest with
  | nil => rfl
  | cons b1 rest1 =>
      by_cases hb1 : b1.block_type = SERIAL_BLOCK_TIFF_IFDS
      · by_cases hlen : b1.length = 0 * SERIAL_IFD_SIZE
        · cases hpl : b1.payload <;>
            simp [hb1, hlen, hpl, process_serial_blocks_zero_count]
        · have hlen' : b1.length ≠ 0 := by simpa using hlen
          simp [hb1, hlen']
      · simp [hb1]

/-- A stream whose head block is HEADER_AND_META with a zero `ifd_count`
never deserializes. -/
theorem deserialize_zero_header_fails
    (decompress : List Nat → Nat → Int × List sblock) (b0 : sblock)
    (rest : List sblock) (sh : tiff_serial_header_t)
    (htype : b0.block_type = SERIAL_BLOCK_TIFF_HEADER_AND_META)
    (hpayload : b0.payload = .header sh) (hcount : sh.ifd_count = 0) :
    tiff_deserialize decompress (b0 :: rest) = none := by
  rw [tiff_deserialize_cons_plain decompress b0 rest (by rw [htype]; decide)]
  exact tiff_deserialize_payload_zero_ifds b0 rest sh htype hpayload hcount

/-- Serializing an image with zero IFDs produces a stream the
deserializer rejects, through either the plain or the compressed path. -/
theorem deserialize_serialize_zero_ifds
    (compress : List sblock → Option (List Nat))
    (decompress : List Nat → Nat → Int × List sblock)
    (hcodec : RoundTripCodec compress decompress) (t : tiff_t)
    (hcount : t.ifd_count = 0) :
    tiff_deserialize decompress (tiff_serialize compress t).stream = none := by
  have hsh : (tiff_serial_header_of t).ifd_count = 0 := by
    simpa [tiff_serial_header_of] using hcount
  unfold tiff_serialize
  cases hc : compress (tiff_serialize_blocks t) with
  | none =>
      simp only [hc]
      unfold tiff_serialize_blocks
      exact deserialize_zero_header_fails decompress _ _ _ rfl rfl hsh
  | some cb =>
      simp only [hc]
      have hdec := hcodec _ cb hc
      rw [streamByteSize_serialize_blocks] at hdec
      unfold tiff_serialize_blocks at hdec
      rw [tiff_deserialize_lz4_unwrap decompress _ _ cb [] _ _ hdec
        (tiff_serialize_total_size_pos t)]
      exact tiff_deserialize_payload_zero_ifds _ _ _ rfl rfl hsh

/-- Processing a concatenation of tag lists is processing them in
sequence. -/
theorem tiff_process_tags_append (h : FileHandle) (e : Bool) (ifd : tiff_ifd_t)
    (ts1 ts2 : List tiff_tag_t) :
    tiff_process_tags h e ifd (ts1 ++ ts2) =
      match tiff_process_tags h e ifd ts1 with
      | none => none
      | some ifd1 => tiff_process_tags h e ifd1 ts2 := by
  induction ts1 generalizing ifd with
  | nil => simp [tiff_process_tags]
  | cons tag rest ih =>
      simp only [List.cons_append, tiff_process_tags]
      cases tiff_process_tag h e ifd tag with
      | none => rfl
      | some ifd' => exact ih ifd'

/-- A TileByteCounts tag whose count differs from the established tile
count makes the tag dispatch fail. -/
theorem tiff_process_tag_byte_counts_mismatch (h : FileHandle) (e : Bool)
    (ifd : tiff_ifd_t) (tag : tiff_tag_t)
    (hcode : tag.code = TIFF_TAG_TILE_BYTE_COUNTS)
    (hne : tag.data_count ≠ ifd.tile_count) :
    tiff_process_tag h e ifd tag = none := by
  simp [tiff_process_tag, hcode, hne, TIFF_TAG_NEW_SUBFILE_TYPE,
    TIFF_TAG_IMAGE_WIDTH, TIFF_TAG_IMAGE_LENGTH, TIFF_TAG_BITS_PER_SAMPLE,
    TIFF_TAG_COMPRESSION, TIFF_TAG_PHOTOMETRIC_INTERPRETATION,
    TIFF_TAG_IMAGE_DESCRIPTION, TIFF_TAG_TILE_WIDTH, TIFF_TAG_TILE_LENGTH,
    TIFF_TAG_TILE_OFFSETS, TIFF_TAG_TILE_BYTE_COUNTS]

/-- The whole tag fold fails as soon as it reaches such a tag. -/
theorem tiff_process_tags_mismatch_fails (h : FileHandle) (e : Bool)
    (ifd0 ifd1 : tiff_ifd_t) (ts1 ts2 : List tiff_tag_t) (tg : tiff_tag_t)
    (hpre : tiff_process_tags h e ifd0 ts1 = some ifd1)
    (hcode : tg.code = TIFF_TAG_TILE_BYTE_COUNTS)
    (hne : tg.data_count ≠ ifd1.tile_count) :
    tiff_process_tags h e ifd0 (ts1 ++ tg :: ts2) = none := by
  rw [tiff_process_tags_append, hpre]
  show tiff_process_tags h e ifd1 (tg :: ts2) = none
  simp only [tiff_process_tags,
    tiff_process_tag_byte_counts_mismatch h e ifd1 tg hcode hne]

/-- `tiff_read_ifd` fails when its decoded tag list reaches a
TileByteCounts tag whose count differs from the tile count established by
the preceding tags. -/
theorem tiff_read_ifd_mismatch_fails (t : tiff_t) (h h' : FileHandle)
    (ifd0 : tiff_ifd_t) (off : Nat) (tags ts1 ts2 : List tiff_tag_t)
    (tg : tiff_tag_t) (ifd1 : tiff_ifd_t)
    (hdec : tiff_decode_ifd_tags t h off = some (tags, h'))
    (hsplit : tags = ts1 ++ tg :: ts2)
    (hpre : tiff_process_tags h' t.is_big_endian
      { ifd0 with color_space := TIFF_PHOTOMETRIC_RGB } ts1 = some ifd1)
    (hcode : tg.code = TIFF_TAG_TILE_BYTE_COUNTS)
    (hne : tg.data_count ≠ ifd1.tile_count) :
    tiff_read_ifd t h ifd0 off = none := by
  simp only [tiff_read_ifd, hdec, hsplit,
    tiff_process_tags_mismatch_fails h' t.is_big_endian _ ifd1 ts1 ts2 tg
      hpre hcode hne]

/-- And `open_tiff_file` fails when the first IFD of the chain is such an
IFD. -/
theorem open_tiff_mismatch_fails (file : List Nat) (fuel : Nat) (t : tiff_t)
    (h h' : FileHandle) (off : Nat) (tags ts1 ts2 : List tiff_tag_t)
    (tg : tiff_tag_t) (ifd1 : tiff_ifd_t)
    (hhdr : open_tiff_header file = some (t, h, off)) (hoff : off ≠ 0)
    (hdec : tiff_decode_ifd_tags t h off = some (tags, h'))
    (hsplit : tags = ts1 ++ tg :: ts2)
    (hpre : tiff_process_tags h' t.is_big_endian
      { ({ ifd_index := t.ifd_count } : tiff_ifd_t) with
        color_space := TIFF_PHOTOMETRIC_RGB } ts1 = some ifd1)
    (hcode : tg.code = TIFF_TAG_TILE_BYTE_COUNTS)
    (hne : tg.data_count ≠ ifd1.tile_count) :
    open_tiff_file file fuel = none := by
  have hifd : tiff_read_ifd t h { ifd_index := t.ifd_count } off = none :=
    tiff_read_ifd_mismatch_fails t h h' _ off tags ts1 ts2 tg ifd1
      hdec hsplit hpre hcode hne
  simp only [open_tiff_file, hhdr]
  cases fuel with
  | zero => simp [open_tiff_ifd_loop, hoff]
  | succ fuel => simp [open_tiff_ifd_loop, hoff, hifd]

/-- The tag dispatch never touches the subimage type or the IFD index. -/
theorem tiff_process_tag_preserves (h : FileHandle) (e : Bool)
    (ifd : tiff_ifd_t) (tag : tiff_tag_t) (ifd' : tiff_ifd_t)
    (hp : tiff_process_tag h e ifd tag = some ifd') :
    ifd'.subimage_type = ifd.subimage_type ∧ ifd'.ifd_index = ifd.ifd_index := by
  unfold tiff_process_tag at hp
  by_cases h1 : tag.code = TIFF_TAG_NEW_SUBFILE_TYPE
  · rw [if_pos h1] at hp; cases hp; exact ⟨rfl, rfl⟩
  rw [if_neg h1] at hp
  by_cases h2 : tag.code = TIFF_TAG_IMAGE_WIDTH
  · rw [if_pos h2] at hp; cases hp; exact ⟨rfl, rfl⟩
  rw [if_neg h2] at hp
  by_cases h3 : tag.code = TIFF_TAG_IMAGE_LENGTH
  · rw [if_pos h3] at hp; cases hp; exact ⟨rfl, rfl⟩
  rw [if_neg h3] at hp
  by_cases h4 : tag.code = TIFF_TAG_BITS_PER_SAMPLE
  · rw [if_pos h4] at hp; cases hp; exact ⟨rfl, rfl⟩
  rw [if_neg h4] at hp
  by_cases h5 : tag.code = TIFF_TAG_COMPRESSION
  · rw [if_pos h5] at hp; cases hp; exact ⟨rfl, rfl⟩
  rw [if_neg h5] at hp
  by_cases h6 : tag.code = TIFF_TAG_PHOTOMETRIC_INTERPRETATION
  · rw [if_pos h6] at hp; cases hp; exact ⟨rfl, rfl⟩
  rw [if_neg h6] at hp
  by_cases h7 : tag.code = TIFF_TAG_IMAGE_DESCRIPTION
  · rw [if_pos h7] at hp; cases hp; exact ⟨rfl, rfl⟩
  rw [if_neg h7] at hp
  by_cases h8 : tag.code = TIFF_TAG_TILE_WIDTH
  · rw [if_pos h8] at hp; cases hp; exact ⟨rfl, rfl⟩
  rw [if_neg h8] at hp
  by_cases h9 : tag.code = TIFF_TAG_TILE_LENGTH
  · rw [if_pos h9] at hp; cases hp; exact ⟨rfl, rfl⟩
  rw [if_neg h9] at hp
  by_cases h10 : tag.code = TIFF_TAG_TILE_OFFSETS
  · rw [if_pos h10] at hp
    cases hx : tiff_read_field_integers h e tag with
    | none => rw [hx] at hp; exact Option.noConfusion hp
    | some l => rw [hx] at hp; cases hp; exact ⟨rfl, rfl⟩
  rw [if_neg h10] at hp
  by_cases h11 : tag.code = TIFF_TAG_TILE_BYTE_COUNTS
  · rw [if_pos h11] at hp
    by_cases hbc : tag.data_count ≠ ifd.tile_count
    · rw [if_pos hbc] at hp; exact Option.noConfusion hp
    · rw [if_neg hbc] at hp
      cases hx : tiff_read_field_integers h e tag with
      | none => rw [hx] at hp; exact Option.noConfusion hp
      | some l => rw [hx] at hp; cases hp; exact ⟨rfl, rfl⟩
  rw [if_neg h11] at hp
  by_cases h12 : tag.code = TIFF_TAG_JPEG_TABLES
  · rw [if_pos h12] at hp; cases hp; exact ⟨rfl, rfl⟩
  rw [if_neg h12] at hp
  by_cases h13 : tag.code = TIFF_TAG_YCBCRSUBSAMPLING
  · rw [if_pos h13] at hp; cases hp; exact ⟨rfl, rfl⟩
  rw [if_neg h13] at hp
  by_cases h14 : tag.code = TIFF_TAG_REFERENCEBLACKWHITE
  · rw [if_pos h14] at hp; cases hp; exact ⟨rfl, rfl⟩
  rw [if_neg h14] at hp
  cases hp; exact ⟨rfl, rfl⟩

/-- Neither does the whole tag fold. -/
theorem tiff_process_tags_preserves (h : FileHandle) (e : Bool)
    (ifd : tiff_ifd_t) (tags : List tiff_tag_t) (ifd' : tiff_ifd_t)
    (hp : tiff_process_tags h e ifd tags = some ifd') :
    ifd'.subimage_type = ifd.subimage_type ∧ ifd'.ifd_index = ifd.ifd_index := by
  induction tags generalizing ifd with
  | nil => cases hp; exact ⟨rfl, rfl⟩
  | cons tag rest ih =>
      simp only [tiff_process_tags] at hp
      cases hx : tiff_process_tag h e ifd tag with
      | none => rw [hx] at hp; exact Option.noConfusion hp
      | some ifdm =>
          rw [hx] at hp
          obtain ⟨h1, h2⟩ := tiff_process_tag_preserves h e ifd tag ifdm hx
          obtain ⟨h3, h4⟩ := ih ifdm hp
          exact ⟨h3.trans h1, h4.trans h2⟩

/-- Derived tile geometry touches neither the classification inputs nor
the classification output. -/
theorem tiff_compute_tile_geometry_preserves (ifd : tiff_ifd_t) :
    (tiff_compute_tile_geometry ifd).subimage_type = ifd.subimage_type ∧
    (tiff_compute_tile_geometry ifd).ifd_index = ifd.ifd_index ∧
    (tiff_compute_tile_geometry ifd).image_description = ifd.image_description ∧
    (tiff_compute_tile_geometry ifd).tile_width = ifd.tile_width := by
  simp only [tiff_compute_tile_geometry]
  split_ifs <;> exact ⟨rfl, rfl, rfl, rfl⟩

/-- For IFD 0 with a still-unknown subimage type, the classification step
computes exactly `classify_ifd0` of the description and tile width, and
keeps both inputs. -/
theorem tiff_classify_ifd0_spec (t : tiff_t) (ifd : tiff_ifd_t)
    (hsub : ifd.subimage_type = TIFF_UNKNOWN_SUBIMAGE)
    (hidx : ifd.ifd_index = 0) :
    (tiff_classify_ifd t ifd).2.subimage_type =
      classify_ifd0 ifd.image_description ifd.tile_width ∧
    (tiff_classify_ifd t ifd).2.image_description = ifd.image_description ∧
    (tiff_classify_ifd t ifd).2.tile_width = ifd.tile_width ∧
    (tiff_classify_ifd t ifd).2.ifd_index = ifd.ifd_index := by
  unfold tiff_classify_ifd classify_ifd0
  cases hd : ifd.image_description with
  | none =>
      simp only [hd, hsub, hidx]
      split_ifs <;> simp_all
  | some bs =>
      by_cases hm : bs.take 5 = asciiMacro
      · simp [hd, hm, TIFF_MACRO_SUBIMAGE, TIFF_UNKNOWN_SUBIMAGE,
          asciiMacro, asciiLabel, asciiLevelWord]
      · by_cases hl : bs.take 5 = asciiLabel
        · simp [hd, hm, hl, TIFF_LABEL_SUBIMAGE, TIFF_UNKNOWN_SUBIMAGE,
            asciiMacro, asciiLabel, asciiLevelWord]
        · by_cases hv : bs.take 5 = asciiLevelWord
          · simp [hd, hm, hl, hv, TIFF_LEVEL_SUBIMAGE, TIFF_UNKNOWN_SUBIMAGE,
              asciiMacro, asciiLabel, asciiLevelWord]
          · simp only [hd, hm, hl, hv, hsub, hidx, if_neg]
            split_ifs <;> simp_all

/-- The classification step never touches the IFD vector or the count. -/
theorem tiff_classify_ifd_preserves_state (t : tiff_t) (ifd : tiff_ifd_t) :
    (tiff_classify_ifd t ifd).1.ifds = t.ifds ∧
    (tiff_classify_ifd t ifd).1.ifd_count = t.ifd_count := by
  cases hd : ifd.image_description with
  | none =>
      simp only [tiff_classify_ifd, hd]
      split_ifs <;> exact ⟨rfl, rfl⟩
  | some bs =>
      simp only [tiff_classify_ifd, hd]
      split_ifs <;> exact ⟨rfl, rfl⟩

/-- `tiff_read_ifd` leaves the descriptor's IFD vector and count alone. -/
theorem tiff_read_ifd_preserves_state (t : tiff_t) (h : FileHandle)
    (ifd0 : tiff_ifd_t) (off : Nat) (t' : tiff_t) (ifd' : tiff_ifd_t)
    (h' : FileHandle) (next : Nat)
    (hread : tiff_read_ifd t h ifd0 off = some (t', ifd', h', next)) :
    t'.ifds = t.ifds ∧ t'.ifd_count = t.ifd_count := by
  simp only [tiff_read_ifd] at hread
  cases hdec : tiff_decode_ifd_tags t h off with
  | none => rw [hdec] at hread; exact Option.noConfusion hread
  | some pr =>
      obtain ⟨tags, h2⟩ := pr
      simp only [hdec] at hread
      cases hproc : tiff_process_tags h2 t.is_big_endian
          { ifd0 with color_space := TIFF_PHOTOMETRIC_RGB } tags with
      | none => rw [hproc] at hread; exact Option.noConfusion hread
      | some ifdp =>
          simp only [hproc] at hread
          cases hcl : tiff_classify_ifd t (tiff_compute_tile_geometry ifdp) with
          | mk t2 ifdc =>
              simp only [hcl] at hread
              split at hread
              · exact Option.noConfusion hread
              · cases hread
                have hst := tiff_classify_ifd_preserves_state t
                  (tiff_compute_tile_geometry ifdp)
                rw [hcl] at hst
                exact hst

/-- An IFD parsed with a fresh index-0 descriptor comes out classified by
`classify_ifd0` over its own final description and tile width. -/
theorem tiff_read_ifd_classifies_ifd0 (t : tiff_t) (h : FileHandle)
    (ifd0 : tiff_ifd_t) (off : Nat) (t' : tiff_t) (ifd' : tiff_ifd_t)
    (h' : FileHandle) (next : Nat)
    (hsub0 : ifd0.subimage_type = TIFF_UNKNOWN_SUBIMAGE)
    (hidx0 : ifd0.ifd_index = 0)
    (hread : tiff_read_ifd t h ifd0 off = some (t', ifd', h', next)) :
    ifd'.subimage_type =
      classify_ifd0 ifd'.image_description ifd'.tile_width := by
  simp only [tiff_read_ifd] at hread
  cases hdec : tiff_decode_ifd_tags t h off with
  | none => rw [hdec] at hread; exact Option.noConfusion hread
  | some pr =>
      obtain ⟨tags, h2⟩ := pr
      simp only [hdec] at hread
      cases hproc : tiff_process_tags h2 t.is_big_endian
          { ifd0 with color_space := TIFF_PHOTOMETRIC_RGB } tags with
      | none => rw [hproc] at hread; exact Option.noConfusion hread
      | some ifdp =>
          simp only [hproc] at hread
          obtain ⟨hps, hpi⟩ := tiff_process_tags_preserves h2 t.is_big_endian
            _ tags ifdp hproc
          obtain ⟨hgs, hgi, hgd, hgw⟩ :=
            tiff_compute_tile_geometry_preserves ifdp
          have hsubg : (tiff_compute_tile_geometry ifdp).subimage_type =
              TIFF_UNKNOWN_SUBIMAGE := by
            rw [hgs, hps]; exact hsub0
          have hidxg : (tiff_compute_tile_geometry ifdp).ifd_index = 0 := by
            rw [hgi, hpi]; exact hidx0
          obtain ⟨hc1, hc2, hc3, _⟩ :=
            tiff_classify_ifd0_spec t (tiff_compute_tile_geometry ifdp) hsubg hidxg
          cases hcl : tiff_classify_ifd t (tiff_compute_tile_geometry ifdp) with
          | mk t2 ifdc =>
              simp only [hcl] at hread
              rw [hcl] at hc1 hc2 hc3
              split at hread
              · exact Option.noConfusion hread
              · cases hread
                rw [hc1, hc2, hc3]

/-- The chain loop keeps the head of a nonempty IFD vector. -/
theorem open_tiff_ifd_loop_stable (fuel : Nat) :
    ∀ (t : tiff_t) (h : FileHandle) (next : Nat) (t' : tiff_t),
      open_tiff_ifd_loop fuel t h next = some t' → t.ifds ≠ [] →
      t'.ifds.getD 0 {} = t.ifds.getD 0 {} ∧ t'.ifds ≠ [] := by
  induction fuel with
  | zero =>
      intro t h next t' hl hne
      unfold open_tiff_ifd_loop at hl
      by_cases hz : next = 0
      · rw [if_pos hz] at hl; cases hl; exact ⟨rfl, hne⟩
      · rw [if_neg hz] at hl; exact Option.noConfusion hl
  | succ fuel ih =>
      intro t h next t' hl hne
      unfold open_tiff_ifd_loop at hl
      by_cases hz : next = 0
      · rw [if_pos hz] at hl; cases hl; exact ⟨rfl, hne⟩
      · rw [if_neg hz] at hl
        cases hread : tiff_read_ifd t h { ifd_index := t.ifd_count } next with
        | none => rw [hread] at hl; exact Option.noConfusion hl
        | some q =>
            obtain ⟨t1, ifd, h1, next1⟩ := q
            simp only [hread] at hl
            obtain ⟨hifds, _⟩ := tiff_read_ifd_preserves_state t h _ next
              t1 ifd h1 next1 hread
            have hne1 : t1.ifds ++ [ifd] ≠ [] := by simp
            obtain ⟨hh, hne'⟩ := ih _ h1 next1 t' hl hne1
            refine ⟨?_, hne'⟩
            rw [hh]
            show (t1.ifds ++ [ifd]).getD 0 {} = t.ifds.getD 0 {}
            rw [List.getD_append]
            · rw [hifds]
            · rw [hifds]
              cases hc : t.ifds with
              | nil => exact absurd hc hne
              | cons a as => simp

/-- Starting the chain loop on an empty descriptor, the result is empty
or its first IFD is classified by `classify_ifd0`. -/
theorem open_tiff_ifd_loop_ifd0 (fuel : Nat) :
    ∀ (t : tiff_t) (h : FileHandle) (next : Nat) (t' : tiff_t),
      open_tiff_ifd_loop fuel t h next = some t' →
      t.ifds = [] → t.ifd_count = 0 →
      t'.ifds = [] ∨
        (t'.ifds ≠ [] ∧
          (t'.ifds.getD 0 {}).subimage_type =
            classify_ifd0 ((t'.ifds.getD 0 {}).image_description)
              ((t'.ifds.getD 0 {}).tile_width)) := by
  cases fuel with
  | zero =>
      intro t h next t' hl hempty _
      unfold open_tiff_ifd_loop at hl
      by_cases hz : next = 0
      · rw [if_pos hz] at hl; cases hl; exact Or.inl hempty
      · rw [if_neg hz] at hl; exact Option.noConfusion hl
  | succ fuel =>
      intro t h next t' hl hempty hcount
      unfold open_tiff_ifd_loop at hl
      by_cases hz : next = 0
      · rw [if_pos hz] at hl; cases hl; exact Or.inl hempty
      · rw [if_neg hz] at hl
        cases hread : tiff_read_ifd t h { ifd_index := t.ifd_count } next with
        | none => rw [hread] at hl; exact Option.noConfusion hl
        | some q =>
            obtain ⟨t1, ifd, h1, next1⟩ := q
            simp only [hread] at hl
            obtain ⟨hifds, _⟩ := tiff_read_ifd_preserves_state t h _ next
              t1 ifd h1 next1 hread
            have hok := tiff_read_ifd_classifies_ifd0 t h _ next t1 ifd h1 next1
              rfl (by simpa using hcount) hread
            rw [hifds, hempty] at hl
            have hne1 : (([] : List tiff_ifd_t) ++ [ifd]) ≠ [] := by simp
            obtain ⟨hh, hne'⟩ := open_tiff_ifd_loop_stable fuel _ h1 next1 t' hl hne1
            right
            refine ⟨hne', ?_⟩
            rw [hh]
            simpa using hok

/-- The per-level micrometer pass keeps classification-relevant head
fields and emptiness. -/
theorem set_um_fields_head (k : Nat) (um : Rat) (l : List tiff_ifd_t) :
    ((set_um_fields k um l).getD 0 {}).subimage_type = (l.getD 0 {}).subimage_type ∧
    ((set_um_fields k um l).getD 0 {}).image_description = (l.getD 0 {}).image_description ∧
    ((set_um_fields k um l).getD 0 {}).tile_width = (l.getD 0 {}).tile_width ∧
    (set_um_fields k um l = [] ↔ l = []) := by
  cases k with
  | zero => simp [set_um_fields]
  | succ k =>
      cases l with
      | nil => simp [set_um_fields]
      | cons a as => simp [set_um_fields]

/-- Post-processing keeps classification-relevant head fields and
emptiness. -/
theorem tiff_post_process_head (t : tiff_t) :
    ((tiff_post_process t).ifds.getD 0 {}).subimage_type = (t.ifds.getD 0 {}).subimage_type ∧
    ((tiff_post_process t).ifds.getD 0 {}).image_description = (t.ifds.getD 0 {}).image_description ∧
    ((tiff_post_process t).ifds.getD 0 {}).tile_width = (t.ifds.getD 0 {}).tile_width ∧
    ((tiff_post_process t).ifds = [] ↔ t.ifds = []) := by
  simp only [tiff_post_process]
  exact set_um_fields_head _ _ _

/-- The header phase hands the chain loop an empty descriptor. -/
theorem open_tiff_header_inits (file : List Nat) (t0 : tiff_t)
    (h0 : FileHandle) (off0 : Nat)
    (hh : open_tiff_header file = some (t0, h0, off0)) :
    t0.ifds = [] ∧ t0.ifd_count = 0 := by
  simp only [open_tiff_header] at hh
  repeat' split at hh
  all_goals first
    | exact Option.noConfusion hh
    | (cases hh; exact ⟨rfl, rfl⟩)

/-- Mapping an index-reader over the index range rebuilds the mapped
list. -/
theorem range_map_getD {α β : Type} (l : List α) (d : α) (g : α → β) :
    (List.range l.length).map (fun i => g (l.getD i d)) = l.map g := by
  induction l with
  | nil => rfl
  | cons a as ih =>
      rw [List.length_cons, List.range_succ_eq_map]
      simp only [List.map_cons, List.map_map, List.getD_cons_zero]
      refine congrArg (g a :: ·) ?_
      have hfe : ((fun i => g ((a :: as).getD i d)) ∘ Nat.succ) =
          (fun i => g (as.getD i d)) := by
        funext i
        simp [List.getD_cons_succ]
      rw [hfe, ih]

/-- Under well-formedness, the serializer walks exactly the IFD vector. -/
theorem serialize_ifd_list_eq (t : tiff_t) (hwf : t.ifd_count = t.ifds.length) :
    serialize_ifd_list t = t.ifds := by
  rw [serialize_ifd_list, hwf]
  simpa using range_map_getD t.ifds ({} : tiff_ifd_t) id

/-- Reading an entry of a mapped range. -/
theorem getD_map_range {α : Type} (n : Nat) (f : Nat → α) (d : α) (j : Nat)
    (h : j < n) : ((List.range n).map f).getD j d = f j := by
  induction n generalizing j with
  | zero => exact absurd h (Nat.not_lt_zero j)
  | succ n ih =>
      rw [List.range_succ, List.map_append]
      by_cases hj : j < n
      · rw [List.getD_append _ _ _ _ (by simpa using hj)]
        exact ih j hj
      · have hj' : j = n := by omega
        subst hj'
        rw [List.getD_append_right _ _ _ _ (by simp)]
        simp

/-- Reading an entry of a mapped list. -/
theorem getD_map {α β : Type} (l : List α) (g : α → β) (d : α) (j : Nat)
    (h : j < l.length) : (l.map g).getD j (g d) = g (l.getD j d) := by
  induction l generalizing j with
  | nil => simp at h
  | cons a as ih =>
      cases j with
      | zero => rfl
      | succ j => simpa using ih j (by simpa using h)

/-- Setting then reading the same slot. -/
theorem getD_set_self {α : Type} (l : List α) (i : Nat) (v d : α)
    (h : i < l.length) : (l.set i v).getD i d = v := by
  induction l generalizing i with
  | nil => simp at h
  | cons a as ih =>
      cases i with
      | zero => rfl
      | succ i => simpa using ih i (by simpa using h)

/-- Setting one slot and reading another. -/
theorem getD_set_ne {α : Type} (l : List α) (i j : Nat) (v d : α)
    (h : i ≠ j) : (l.set i v).getD j d = l.getD j d := by
  induction l generalizing i j with
  | nil => simp
  | cons a as ih =>
      cases i with
      | zero => cases j with
        | zero => exact absurd rfl h
        | succ j => simp
      | succ i =>
          cases j with
          | zero => simp
          | succ j => simpa using ih i j (fun hc => h (by rw [hc]))

/-- Four IFD fields the payload loop may populate, all still absent. -/
def slot_empty (ifd : tiff_ifd_t) : Prop :=
  ifd.image_description = none ∧ ifd.tile_offsets = none ∧
  ifd.tile_byte_counts = none ∧ ifd.jpeg_tables = none

/-- One IMAGE_DESCRIPTION block populates its slot and the loop goes on. -/
theorem process_step_desc (n : Nat) (ifds : List tiff_ifd_t) (i len : Nat)
    (content : List Nat) (restb : List sblock) (hi : i < n)
    (hempty : (ifds.getD i {}).image_description = none) :
    process_serial_blocks n ifds
      ({ block_type := SERIAL_BLOCK_TIFF_IMAGE_DESCRIPTION, index := i,
         length := len, payload := .bytes content } :: restb) =
    process_serial_blocks n
      (ifds.set i
        { (ifds.getD i {}) with
          image_description := some content
          image_description_length := len }) restb := by
  simp only [process_serial_blocks]
  rw [if_neg (by omega)]
  simp only [List.getD_eq_getElem?_getD] at hempty
  simp [hempty]

/-- One TILE_OFFSETS block populates its slot and the loop goes on. -/
theorem process_step_offsets (n : Nat) (ifds : List tiff_ifd_t) (i len : Nat)
    (l : List Nat) (restb : List sblock) (hi : i < n)
    (hempty : (ifds.getD i {}).tile_offsets = none) :
    process_serial_blocks n ifds
      ({ block_type := SERIAL_BLOCK_TIFF_TILE_OFFSETS, index := i,
         length := len, payload := .u64s l } :: restb) =
    process_serial_blocks n
      (ifds.set i { (ifds.getD i {}) with tile_offsets := some l }) restb := by
  simp only [process_serial_blocks]
  rw [if_neg (by omega)]
  simp only [List.getD_eq_getElem?_getD] at hempty
  simp [hempty, SERIAL_BLOCK_TIFF_TILE_OFFSETS, SERIAL_BLOCK_TIFF_IMAGE_DESCRIPTION]

/-- One TILE_BYTE_COUNTS block populates its slot and the loop goes on. -/
theorem process_step_counts (n : Nat) (ifds : List tiff_ifd_t) (i len : Nat)
    (l : List Nat) (restb : List sblock) (hi : i < n)
    (hempty : (ifds.getD i {}).tile_byte_counts = none) :
    process_serial_blocks n ifds
      ({ block_type := SERIAL_BLOCK_TIFF_TILE_BYTE_COUNTS, index := i,
         length := len, payload := .u64s l } :: restb) =
    process_serial_blocks n
      (ifds.set i { (ifds.getD i {}) with tile_byte_counts := some l }) restb := by
  simp only [process_serial_blocks]
  rw [if_neg (by omega)]
  simp only [List.getD_eq_getElem?_getD] at hempty
  simp [hempty, SERIAL_BLOCK_TIFF_TILE_BYTE_COUNTS,
    SERIAL_BLOCK_TIFF_IMAGE_DESCRIPTION, SERIAL_BLOCK_TIFF_TILE_OFFSETS]

/-- One JPEG_TABLES block populates its slot and the loop goes on. -/
theorem process_step_jpeg (n : Nat) (ifds : List tiff_ifd_t) (i len : Nat)
    (content : List Nat) (restb : List sblock) (hi : i < n)
    (hempty : (ifds.getD i {}).jpeg_tables = none) :
    process_serial_blocks n ifds
      ({ block_type := SERIAL_BLOCK_TIFF_JPEG_TABLES, index := i,
         length := len, payload := .bytes content } :: restb) =
    process_serial_blocks n
      (ifds.set i
        { (ifds.getD i {}) with
          jpeg_tables := some content
          jpeg_tables_length := len }) restb := by
  simp only [process_serial_blocks]
  rw [if_neg (by omega)]
  simp only [List.getD_eq_getElem?_getD] at hempty
  simp [hempty, SERIAL_BLOCK_TIFF_JPEG_TABLES, SERIAL_BLOCK_TIFF_IMAGE_DESCRIPTION,
    SERIAL_BLOCK_TIFF_TILE_OFFSETS, SERIAL_BLOCK_TIFF_TILE_BYTE_COUNTS]

/-- The terminator stops the loop with success (given some IFD exists to
pass its index check). -/
theorem process_step_term (n : Nat) (ifds : List tiff_ifd_t) (hn : 1 ≤ n) :
    process_serial_blocks n ifds
      [{ block_type := SERIAL_BLOCK_TERMINATOR, index := 0, length := 0,
         payload := .empty }] = some ifds := by
  simp only [process_serial_blocks]
  rw [if_neg (by omega)]
  simp [SERIAL_BLOCK_TERMINATOR, SERIAL_BLOCK_TIFF_IMAGE_DESCRIPTION,
    SERIAL_BLOCK_TIFF_TILE_OFFSETS, SERIAL_BLOCK_TIFF_TILE_BYTE_COUNTS,
    SERIAL_BLOCK_TIFF_JPEG_TABLES]

/-- The payload loop consumes the serializer's four blocks per IFD and
the terminator, filling each referenced slot exactly once and leaving the
slots before `k` untouched. -/
theorem process_serialize_ifd_blocks (l : List tiff_ifd_t) :
    ∀ (k n : Nat) (ifds : List tiff_ifd_t),
      k + l.length = n → ifds.length = n → 1 ≤ n →
      (∀ j, k ≤ j → j < n → slot_empty (ifds.getD j {})) →
      ∃ final,
        process_serial_blocks n ifds
          (tiff_serialize_ifd_blocks k l ++
            [{ block_type := SERIAL_BLOCK_TERMINATOR, index := 0, length := 0,
               payload := .empty }]) = some final ∧
        final.length = n ∧
        (∀ j, j < k → final.getD j {} = ifds.getD j {}) ∧
        (∀ m, m < l.length →
          final.getD (k + m) {} = fill_ifd (ifds.getD (k + m) {}) (l.getD m {})) := by
  induction l with
  | nil =>
      intro k n ifds hkn hlen hpos _
      refine ⟨ifds, ?_, hlen, fun j _ => rfl, fun m hm => absurd hm (by simp)⟩
      simp only [tiff_serialize_ifd_blocks, List.nil_append]
      exact process_step_term n ifds hpos
  | cons src rest ih =>
      intro k n ifds hkn hlen hpos hempty
      have hk : k < n := by
        simp only [List.length_cons] at hkn; omega
      have hklen : k < ifds.length := by omega
      obtain ⟨he1, he2, he3, he4⟩ := hempty k (Nat.le_refl k) hk
      simp only [tiff_serialize_ifd_blocks, List.cons_append]
      rw [process_step_desc n ifds k _ _ _ hk he1]
      rw [process_step_offsets n _ k _ _ _ hk
        (by rw [getD_set_self _ _ _ _ hklen]; exact he2)]
      rw [getD_set_self _ _ _ _ hklen, List.set_set]
      rw [process_step_counts n _ k _ _ _ hk
        (by rw [getD_set_self _ _ _ _ (by simpa using hklen)]; exact he3)]
      rw [getD_set_self _ _ _ _ (by simpa using hklen), List.set_set]
      rw [process_step_jpeg n _ k _ _ _ hk
        (by rw [getD_set_self _ _ _ _ (by simpa using hklen)]; exact he4)]
      rw [getD_set_self _ _ _ _ (by simpa using hklen), List.set_set]
      obtain ⟨final, hrun, hflen, hbefore, hat⟩ := ih (k + 1) n
        (ifds.set k (fill_ifd (ifds.getD k {}) src))
        (by simp only [List.length_cons] at hkn; omega)
        (by simpa using hlen) hpos
        (by
          intro j hj1 hj2
          rw [getD_set_ne _ _ _ _ _ (by omega)]
          exact hempty j (by omega) hj2)
      refine ⟨final, hrun, hflen, ?_, ?_⟩
      · intro j hj
        rw [hbefore j (by omega), getD_set_ne _ _ _ _ _ (by omega)]
      · intro m hm
        cases m with
        | zero =>
            rw [Nat.add_zero, hbefore k (by omega),
              getD_set_self _ _ _ _ hklen]
            rfl
        | succ m =>
            have hm' : m < rest.length := by simpa using hm
            have := hat m hm'
            rw [show k + (m + 1) = (k + 1) + m by omega, this,
              getD_set_ne _ _ _ _ _ (by omega)]
            rfl

/-- The deserializer builds one skeleton per counted IFD. -/
theorem deserialize_skeleton_length (n : Nat) (sifds : List tiff_serial_ifd_t) :
    (deserialize_skeleton n sifds).length = n := by
  simp [deserialize_skeleton]

/-- Freshly built skeletons carry none of the variable payloads yet. -/
theorem deserialize_skeleton_slot_empty (n : Nat)
    (sifds : List tiff_serial_ifd_t) (j : Nat) (h : j < n) :
    slot_empty ((deserialize_skeleton n sifds).getD j ({} : tiff_ifd_t)) := by
  simp only [deserialize_skeleton]
  rw [getD_map_range n _ _ j h]
  exact ⟨rfl, rfl, rfl, rfl⟩

/-- Reconstructing the serializer's own stream from the HEADER_AND_META
block on: deserialization succeeds and every IFD matches field-wise. -/
theorem tiff_deserialize_payload_serialize (t : tiff_t) (hwf : tiff_wf t)
    (hne : t.ifds ≠ []) :
    ∃ t', tiff_deserialize_payload
        { block_type := SERIAL_BLOCK_TIFF_HEADER_AND_META, index := 0,
          length := SERIAL_BLOCK_SIZE, payload := .header (tiff_serial_header_of t) }
        ({ block_type := SERIAL_BLOCK_TIFF_IFDS, index := 0,
           length := t.ifd_count * SERIAL_IFD_SIZE,
           payload := .ifds ((serialize_ifd_list t).map tiff_serial_ifd_of) } ::
          (tiff_serialize_ifd_blocks 0 (serialize_ifd_list t) ++
            [{ block_type := SERIAL_BLOCK_TERMINATOR, index := 0, length := 0,
               payload := .empty }])) = some t' ∧
      t'.ifd_count = t.ifd_count ∧
      t'.ifds.length = t.ifds.length ∧
      (∀ i, i < t.ifds.length →
        roundtrip_ifd_match (t.ifds.getD i {}) (t'.ifds.getD i {})) := by
  obtain ⟨hwf1, hwf2⟩ := hwf
  have hlisteq := serialize_ifd_list_eq t hwf1
  have hn1 : 1 ≤ t.ifd_count := by
    rw [hwf1]
    cases hc : t.ifds with
    | nil => exact absurd hc hne
    | cons a as => simp
  obtain ⟨final, hrun, hflen, _, hat⟩ := process_serialize_ifd_blocks
    (serialize_ifd_list t) 0 t.ifd_count
    (deserialize_skeleton t.ifd_count ((serialize_ifd_list t).map tiff_serial_ifd_of))
    (by rw [Nat.zero_add, serialize_ifd_list_length])
    (deserialize_skeleton_length _ _) hn1
    (fun j _ hj => deserialize_skeleton_slot_empty _ _ j hj)
  refine ⟨{ is_remote := false, filesize := t.filesize,
            bytesize_of_offsets := t.bytesize_of_offsets,
            ifd_count := t.ifd_count, ifds := final,
            main_image_index := t.main_image_index,
            macro_image_index := t.macro_image_index,
            label_image_index := t.label_image_index,
            level_count := t.level_count, level_image_index := 0,
            is_bigtiff := t.is_bigtiff, is_big_endian := t.is_big_endian,
            mpp_x := t.mpp_x, mpp_y := t.mpp_y }, ?_, ?_, ?_, ?_⟩
  · simp only [tiff_deserialize_payload, tiff_serial_header_of]
    rw [if_neg (by simp)]
    rw [if_neg (by simp)]
    rw [if_neg (by simp)]
    rw [hrun]
  · rfl
  · show final.length = t.ifds.length
    rw [hflen, hwf1]
  · show ∀ i, i < t.ifds.length →
      roundtrip_ifd_match (t.ifds.getD i {}) (final.getD i {})
    intro i hi
    have hic : i < t.ifd_count := by rw [hwf1]; exact hi
    have hmem : t.ifds.getD i {} ∈ t.ifds := by
      rw [List.getD_eq_getElem _ _ hi]
      exact List.getElem_mem hi
    obtain ⟨hw1, hw2, hw3, hw4⟩ := hwf2 _ hmem
    have hfinal := hat i (by rw [hlisteq]; exact hi)
    rw [Nat.zero_add, hlisteq] at hfinal
    rw [hfinal]
    simp only [deserialize_skeleton]
    rw [getD_map_range t.ifd_count _ _ i hic]
    have hd0 : ({} : tiff_serial_ifd_t) = tiff_serial_ifd_of {} := rfl
    rw [hd0, getD_map _ _ _ i hi]
    unfold roundtrip_ifd_match fill_ifd tiff_serial_ifd_of
    refine ⟨rfl, rfl, rfl, rfl, rfl, rfl, rfl, ?_, ?_, ?_, rfl, ?_, rfl⟩
    · simp only [padTake_eq_self _ _ hw1]
    · simp only [padTake_eq_self _ _ hw2]
    · simp only [padTake_eq_self _ _ hw3]
    · simp only [padTake_eq_self _ _ hw4]

/-! ### Byte-level coherence lemmas for the encoder pair -/

/-- Little-endian byte splitting yields the requested width. -/
theorem toLEBytes_length (w v : Nat) : (toLEBytes w v).length = w := by
  induction w generalizing v with
  | zero => rfl
  | succ w ih => simp [toLEBytes, ih]

/-- All split bytes are bytes. -/
theorem toLEBytes_lt (w v : Nat) : ∀ x ∈ toLEBytes w v, x < 256 := by
  induction w generalizing v with
  | zero => simp [toLEBytes]
  | succ w ih =>
      intro x hx
      simp only [toLEBytes, List.mem_cons] at hx
      cases hx with
      | inl h => subst h; exact Nat.mod_lt _ (by omega)
      | inr h => exact ih _ x h

/-- Splitting then assembling restores a value below `256 ^ w`. -/
theorem leNat_toLEBytes (w : Nat) : ∀ v : Nat, v < 256 ^ w →
    leNat (toLEBytes w v) = v := by
  induction w with
  | zero =>
      intro v h
      simp [toLEBytes, leNat]
      omega
  | succ w ih =>
      intro v h
      have hdiv : v / 256 < 256 ^ w := by
        rw [Nat.div_lt_iff_lt_mul (by omega)]
        calc v < 256 ^ (w + 1) := h
          _ = 256 ^ w * 256 := by ring
      simp only [toLEBytes, leNat, ih _ hdiv]
      omega

/-- Assembling then splitting restores a byte list. -/
theorem toLEBytes_leNat (bs : List Nat) (h : ∀ x ∈ bs, x < 256) :
    toLEBytes bs.length (leNat bs) = bs := by
  induction bs with
  | nil => rfl
  | cons b rest ih =>
      have hb : b < 256 := h b (by simp)
      simp only [List.length_cons, toLEBytes, leNat]
      have h1 : (b % 256 + 256 * leNat rest) % 256 = b := by omega
      have h2 : (b % 256 + 256 * leNat rest) / 256 = leNat rest := by omega
      rw [h1, h2, ih (fun x hx => h x (by simp [hx]))]

/-- An encoded number occupies its width. -/
theorem encNum_length (e : Bool) (w v : Nat) : (encNum e w v).length = w := by
  cases e <;> simp [encNum, toLEBytes_length]

/-- Encoded numbers consist of bytes. -/
theorem encNum_lt (e : Bool) (w v : Nat) : ∀ x ∈ encNum e w v, x < 256 := by
  cases e <;> simp only [encNum, if_true, if_false, Bool.false_eq_true,
    List.mem_reverse] <;> exact toLEBytes_lt w v

/-- Reading an encoded number back in the byte order it was written. -/
theorem readNum_encNum (e : Bool) (w v : Nat) (h : v < 256 ^ w) :
    readNum e (encNum e w v) = v := by
  cases e <;>
    simp [readNum, encNum, beNat, List.reverse_reverse, leNat_toLEBytes w v h]

/-- A value-level byte swap of an assembled list is the big-endian read. -/
theorem bswapBytes_leNat (w : Nat) (bs : List Nat) (hlen : bs.length = w)
    (hb : ∀ x ∈ bs, x < 256) : bswapBytes w (leNat bs) = beNat bs := by
  rw [bswapBytes, ← hlen, toLEBytes_leNat bs hb]
  rfl

/-- The parser's read-then-conditional-swap of a 2-byte field is an
endian-aware read. -/
theorem maybe_swap_16_read (e : Bool) (bs : List Nat) (hlen : bs.length = 2)
    (hb : ∀ x ∈ bs, x < 256) : maybe_swap_16 (leNat bs) e = readNum e bs := by
  cases e <;> simp [maybe_swap_16, readNum, bswapBytes_leNat 2 bs hlen hb]

/-- Likewise for 4-byte fields. -/
theorem maybe_swap_32_read (e : Bool) (bs : List Nat) (hlen : bs.length = 4)
    (hb : ∀ x ∈ bs, x < 256) : maybe_swap_32 (leNat bs) e = readNum e bs := by
  cases e <;> simp [maybe_swap_32, readNum, bswapBytes_leNat 4 bs hlen hb]

/-- Likewise for 8-byte fields. -/
theorem maybe_swap_64_read (e : Bool) (bs : List Nat) (hlen : bs.length = 8)
    (hb : ∀ x ∈ bs, x < 256) : maybe_swap_64 (leNat bs) e = readNum e bs := by
  cases e <;> simp [maybe_swap_64, readNum, bswapBytes_leNat 8 bs hlen hb]

/-! ### Slice lemmas -/

/-- A slice entirely inside the left part of an append. -/
theorem sliceBytes_append_left (A B : List Nat) (s n : Nat)
    (h : s + n ≤ A.length) :
    sliceBytes (A ++ B) s n = sliceBytes A s n := by
  simp only [sliceBytes]
  rw [List.drop_append_of_le_length (by omega),
    List.take_append_of_le_length (by simp [List.length_drop]; omega)]

/-- A slice past the left part of an append. -/
theorem sliceBytes_append_right (A B : List Nat) (s n : Nat) :
    sliceBytes (A ++ B) (A.length + s) n = sliceBytes B s n := by
  simp only [sliceBytes]
  rw [List.drop_append]

/-- A slice past the left part of an append, with the start given as an
arbitrary arithmetic expression. -/
theorem sliceBytes_append_right' (A B : List Nat) (s s' n : Nat)
    (h : s = A.length + s') :
    sliceBytes (A ++ B) s n = sliceBytes B s' n := by
  subst h
  exact sliceBytes_append_right A B s' n

/-- The prefix of a longer slice. -/
theorem sliceBytes_take (file : List Nat) (s k n : Nat) :
    (sliceBytes file s (k + n)).take k = sliceBytes file s k := by
  simp only [sliceBytes, List.take_take]
  rw [Nat.min_def]
  split <;> first | rfl | omega

/-- The tail of a longer slice. -/
theorem sliceBytes_drop (file : List Nat) (s k n : Nat) :
    (sliceBytes file s (k + n)).drop k = sliceBytes file (s + k) n := by
  simp only [sliceBytes, List.drop_take, List.drop_drop]
  rw [show k + n - k = n by omega]

/-! ### Zero-buffer and padding lemmas -/

/-- A zero buffer assembles to zero. -/
theorem leNat_replicate_zero (m : Nat) : leNat (List.replicate m 0) = 0 := by
  induction m with
  | zero => rfl
  | succ m ih => simp [leNat, ih]

/-- Chunk swapping is invisible on a zero buffer. -/
theorem swapChunks_replicate_zero (fs : Nat) :
    ∀ k m : Nat, swapChunks fs k (List.replicate m 0) = List.replicate m 0 := by
  intro k
  induction k with
  | zero => intro m; rfl
  | succ k ih =>
      intro m
      simp only [swapChunks, List.take_replicate, List.drop_replicate,
        List.reverse_replicate, ih, ← List.replicate_add]
      congr 1
      omega

/-- The inline swap is invisible on a zero buffer. -/
theorem maybe_swap_replicate_zero (dt : Nat) (e : Bool) (m : Nat) :
    maybe_swap_tiff_field (List.replicate m 0) dt e = List.replicate m 0 := by
  cases e <;> simp [maybe_swap_tiff_field, swapChunks_replicate_zero]

/-- `padTake` of a short list appends zeros. -/
theorem padTake_of_le (n : Nat) (l : List Nat) (h : l.length ≤ n) :
    padTake n l = l ++ List.replicate (n - l.length) 0 := by
  simp [padTake, List.take_of_length_le h]

/-- Growing a 4-byte inline slot into the 8-byte tag value buffer. -/
theorem padTake_four_eight (p : List Nat) (h : p.length ≤ 4) :
    padTake 4 p ++ List.replicate 4 0 = padTake 8 p := by
  rw [padTake_of_le 4 p h, padTake_of_le 8 p (by omega), List.append_assoc,
    ← List.replicate_add]
  congr 2
  omega

/-- The element sizes `get_tiff_field_size` can report. -/
theorem get_tiff_field_size_cases (dt : Nat) :
    get_tiff_field_size dt = 0 ∨ get_tiff_field_size dt = 1 ∨
    get_tiff_field_size dt = 2 ∨ get_tiff_field_size dt = 4 ∨
    get_tiff_field_size dt = 8 := by
  unfold get_tiff_field_size
  split_ifs <;> simp

/-- Rational types have 8-byte elements. -/
theorem get_tiff_field_size_rational (dt : Nat)
    (h : dt = TIFF_RATIONAL ∨ dt = TIFF_SRATIONAL) :
    get_tiff_field_size dt = 8 := by
  rcases h with h | h <;> subst h <;> decide

/-! ### Encoder payload and record lemmas -/

/-- Length of a flattened fixed-width encoding. -/
theorem flatten_map_encNum_length (e : Bool) (w : Nat) (l : List Nat) :
    ((l.map (encNum e w)).flatten).length = w * l.length := by
  induction l with
  | nil => simp
  | cons a l ih =>
      simp only [List.map_cons, List.flatten_cons, List.length_append, ih,
        encNum_length, List.length_cons]
      ring

/-- Length of a tag payload in terms of its element list. -/
theorem enc_tag_payload_length (e : Bool) (tg : enc_tag) :
    (enc_tag_payload e tg).length =
    enc_elem_width tg.data_type * tg.elems.length := by
  exact flatten_map_encNum_length e (enc_elem_width tg.data_type) tg.elems

/-- For a well-formed tag the payload occupies `field_size * data_count`
bytes, in either byte order. -/
theorem enc_tag_payload_length_ok (e : Bool) (tg : enc_tag)
    (hok : enc_tag_ok tg) :
    (enc_tag_payload e tg).length =
    get_tiff_field_size tg.data_type * tg.data_count := by
  obtain ⟨-, hcnt, -⟩ := hok
  rw [enc_tag_payload_length]
  by_cases hr : tg.data_type = TIFF_RATIONAL ∨ tg.data_type = TIFF_SRATIONAL
  · rw [if_pos hr] at hcnt
    rw [hcnt, enc_elem_width, if_pos hr, get_tiff_field_size_rational _ hr]
    ring
  · rw [if_neg hr] at hcnt
    rw [hcnt, enc_elem_width, if_neg hr]

/-- Payload lengths do not depend on the byte order. -/
theorem enc_tag_payload_length_indep (e : Bool) (tg : enc_tag) :
    (enc_tag_payload e tg).length = (enc_tag_payload false tg).length := by
  rw [enc_tag_payload_length, enc_tag_payload_length]

/-- Single-byte elements encode identically in both byte orders. -/
theorem enc_tag_payload_width_one (e : Bool) (tg : enc_tag)
    (h : enc_elem_width tg.data_type = 1) :
    enc_tag_payload e tg = enc_tag_payload false tg := by
  simp only [enc_tag_payload, h]
  have hfn : encNum e 1 = encNum false 1 := by
    funext v
    cases e <;> simp [encNum, toLEBytes]
  rw [hfn]

/-- Every encoded tag record is 12 bytes. -/
theorem enc_tag_record_length (e : Bool) (tg : enc_tag) (off : Nat) :
    (enc_tag_record e tg off).length = 12 := by
  simp only [enc_tag_record]
  split <;>
    simp [encNum_length, padTake_length]

/-- The record region of an encoded tag list is 12 bytes per tag. -/
theorem enc_tags_fst_length (e : Bool) (tags : List enc_tag) :
    ∀ base, (enc_tags e base tags).1.length = 12 * tags.length := by
  induction tags with
  | nil => intro base; simp [enc_tags]
  | cons tg rest ih =>
      intro base
      simp only [enc_tags]
      split <;>
        simp only [List.length_append, enc_tag_record_length, ih,
          List.length_cons] <;> ring

/-- The data region of an encoded tag list is `enc_data_len` bytes. -/
theorem enc_tags_snd_length (e : Bool) (tags : List enc_tag) :
    ∀ base, (enc_tags e base tags).2.length = enc_data_len tags := by
  induction tags with
  | nil => intro base; simp [enc_tags, enc_data_len]
  | cons tg rest ih =>
      intro base
      simp only [enc_tags, enc_data_len]
      split
      · simp [ih]
      · simp only [List.length_append, ih, enc_tag_payload_length_indep]

/-- The data region is bounded by the total payload budget of
`enc_tags_ok`. -/
theorem enc_data_len_le (tags : List enc_tag) :
    enc_data_len tags ≤
    (tags.map (fun tg => (enc_tag_payload false tg).length)).sum := by
  induction tags with
  | nil => simp [enc_data_len]
  | cons tg rest ih =>
      simp only [enc_data_len, List.map_cons, List.sum_cons]
      split <;> omega

/-- Reading back a 2-byte field written in the matching byte order. -/
theorem maybe_swap_16_encNum (e : Bool) (v : Nat) (h : v < 2 ^ 16) :
    maybe_swap_16 (leNat (encNum e 2 v)) e = v := by
  rw [maybe_swap_16_read e _ (encNum_length e 2 v) (encNum_lt e 2 v),
    readNum_encNum e 2 v (by norm_num at h ⊢; omega)]

/-- Reading back a 4-byte field written in the matching byte order. -/
theorem maybe_swap_32_encNum (e : Bool) (v : Nat) (h : v < 2 ^ 32) :
    maybe_swap_32 (leNat (encNum e 4 v)) e = v := by
  rw [maybe_swap_32_read e _ (encNum_length e 4 v) (encNum_lt e 4 v),
    readNum_encNum e 4 v (by norm_num at h ⊢; omega)]

/-- Reading back an 8-byte field written in the matching byte order. -/
theorem maybe_swap_64_encNum (e : Bool) (v : Nat) (h : v < 2 ^ 64) :
    maybe_swap_64 (leNat (encNum e 8 v)) e = v := by
  rw [maybe_swap_64_read e _ (encNum_length e 8 v) (encNum_lt e 8 v),
    readNum_encNum e 8 v (by norm_num at h ⊢; omega)]

/-- Byte-swapping twice restores a value below `256 ^ w`. -/
theorem bswapBytes_bswapBytes (w v : Nat) (h : v < 256 ^ w) :
    bswapBytes w (bswapBytes w v) = v := by
  have hlen : ((toLEBytes w v).reverse).length = w := by
    simp [toLEBytes_length]
  have hmem : ∀ x ∈ (toLEBytes w v).reverse, x < 256 := by
    intro x hx
    exact toLEBytes_lt w v x (List.mem_reverse.mp hx)
  have h1 : toLEBytes w (bswapBytes w v) = (toLEBytes w v).reverse := by
    calc toLEBytes w (bswapBytes w v)
        = toLEBytes ((toLEBytes w v).reverse).length
            (leNat (toLEBytes w v).reverse) := by rw [hlen]; rfl
      _ = (toLEBytes w v).reverse := toLEBytes_leNat _ hmem
  show leNat (toLEBytes w (bswapBytes w v)).reverse = v
  rw [h1, List.reverse_reverse, leNat_toLEBytes w v h]

/-! ### Chunking lemmas -/

/-- Chunking a flattened list of `w`-byte chunks restores the chunks. -/
theorem chunkList_flatten (w : Nat) :
    ∀ ll : List (List Nat), (∀ l ∈ ll, l.length = w) →
    chunkList w ll.length ll.flatten = ll := by
  intro ll
  induction ll with
  | nil => intro h; rfl
  | cons l rest ih =>
      intro h
      have hl : l.length = w := h l (by simp)
      simp only [List.length_cons, chunkList, List.flatten_cons,
        List.take_left' hl, List.drop_left' hl]
      rw [ih (fun x hx => h x (by simp [hx]))]

/-- Chunking an encoded element array restores the per-element
encodings. -/
theorem chunkList_map_encNum (e : Bool) (w : Nat) (elems : List Nat) :
    chunkList w elems.length ((elems.map (encNum e w)).flatten) =
    elems.map (encNum e w) := by
  have hmem : ∀ l ∈ elems.map (encNum e w), l.length = w := by
    intro l hl
    obtain ⟨v, -, rfl⟩ := List.mem_map.mp hl
    exact encNum_length e w v
  have h := chunkList_flatten w (elems.map (encNum e w)) hmem
  rwa [List.length_map] at h

/-! ### Unfolding lemmas for the encoder accumulators -/

/-- Record region of an inline-headed tag list. -/
theorem enc_tags_fst_cons_inline (e : Bool) (base : Nat) (tg : enc_tag)
    (rest : List enc_tag)
    (h : get_tiff_field_size tg.data_type * tg.data_count ≤ 4) :
    (enc_tags e base (tg :: rest)).1 =
    enc_tag_record e tg 0 ++ (enc_tags e base rest).1 := by
  simp [enc_tags, h]

/-- Data region of an inline-headed tag list. -/
theorem enc_tags_snd_cons_inline (e : Bool) (base : Nat) (tg : enc_tag)
    (rest : List enc_tag)
    (h : get_tiff_field_size tg.data_type * tg.data_count ≤ 4) :
    (enc_tags e base (tg :: rest)).2 = (enc_tags e base rest).2 := by
  simp [enc_tags, h]

/-- Record region of an out-of-line-headed tag list. -/
theorem enc_tags_fst_cons_offset (e : Bool) (base : Nat) (tg : enc_tag)
    (rest : List enc_tag)
    (h : ¬ get_tiff_field_size tg.data_type * tg.data_count ≤ 4) :
    (enc_tags e base (tg :: rest)).1 =
    enc_tag_record e tg base ++
      (enc_tags e (base + (enc_tag_payload e tg).length) rest).1 := by
  simp [enc_tags, h]

/-- Data region of an out-of-line-headed tag list. -/
theorem enc_tags_snd_cons_offset (e : Bool) (base : Nat) (tg : enc_tag)
    (rest : List enc_tag)
    (h : ¬ get_tiff_field_size tg.data_type * tg.data_count ≤ 4) :
    (enc_tags e base (tg :: rest)).2 =
    enc_tag_payload e tg ++
      (enc_tags e (base + (enc_tag_payload e tg).length) rest).2 := by
  simp [enc_tags, h]

/-- Canonical tags of an inline-headed tag list. -/
theorem canon_tags_cons_inline (base : Nat) (tg : enc_tag)
    (rest : List enc_tag)
    (h : get_tiff_field_size tg.data_type * tg.data_count ≤ 4) :
    canon_tags base (tg :: rest) = canon_tag tg 0 :: canon_tags base rest := by
  simp [canon_tags, h]

/-- Canonical tags of an out-of-line-headed tag list. -/
theorem canon_tags_cons_offset (base : Nat) (tg : enc_tag)
    (rest : List enc_tag)
    (h : ¬ get_tiff_field_size tg.data_type * tg.data_count ≤ 4) :
    canon_tags base (tg :: rest) =
    canon_tag tg base ::
      canon_tags (base + (enc_tag_payload false tg).length) rest := by
  simp [canon_tags, h]

/-- Data length of an inline-headed tag list. -/
theorem enc_data_len_cons_inline (tg : enc_tag) (rest : List enc_tag)
    (h : get_tiff_field_size tg.data_type * tg.data_count ≤ 4) :
    enc_data_len (tg :: rest) = enc_data_len rest := by
  simp [enc_data_len, h]

/-- Data length of an out-of-line-headed tag list. -/
theorem enc_data_len_cons_offset (tg : enc_tag) (rest : List enc_tag)
    (h : ¬ get_tiff_field_size tg.data_type * tg.data_count ≤ 4) :
    enc_data_len (tg :: rest) =
    (enc_tag_payload false tg).length + enc_data_len rest := by
  simp [enc_data_len, h]

/-- One step of the classic-TIFF record decode loop. -/
theorem decode_raw_tags_classic_succ (e : Bool) (n : Nat) (raw : List Nat) :
    decode_raw_tags false e (n + 1) raw =
    decode_raw_tag_classic e (raw.take 12) ::
      decode_raw_tags false e n (raw.drop 12) := by
  simp [decode_raw_tags]

/-! ### The inline value buffer is byte-order independent -/

/-- An empty inline payload decodes to the zero buffer whatever the byte
order. -/
theorem inline_data_canon_empty (dt : Nat) (e : Bool) :
    maybe_swap_tiff_field (padTake 4 ([] : List Nat) ++ List.replicate 4 0)
      dt e = padTake 8 ([] : List Nat) := by
  have h4 : padTake 4 ([] : List Nat) ++ List.replicate 4 0 =
      List.replicate 8 0 := rfl
  rw [h4, maybe_swap_replicate_zero]
  rfl

/-- For a well-formed inline tag, the decoder's swapped 8-byte value
buffer equals the zero-padded little-endian payload, in either byte
order.  This is where the first-element-only swap of
`maybe_swap_tiff_field` forces the single-element (or single-byte)
restriction of `enc_tag_ok`. -/
theorem inline_data_canon (e : Bool) (tg : enc_tag) (hok : enc_tag_ok tg)
    (hsz : get_tiff_field_size tg.data_type * tg.data_count ≤ 4) :
    maybe_swap_tiff_field
      (padTake 4 (enc_tag_payload e tg) ++ List.replicate 4 0)
      tg.data_type e = padTake 8 (enc_tag_payload false tg) := by
  have hok' := hok
  obtain ⟨hfs, hcnt, helems, -, -, -, hinl, -⟩ := hok'
  by_cases hr : tg.data_type = TIFF_RATIONAL ∨ tg.data_type = TIFF_SRATIONAL
  · -- rational elements are 8 bytes, so inline forces an empty payload
    have hfs8 := get_tiff_field_size_rational _ hr
    rw [hfs8] at hsz
    rw [if_pos hr] at hcnt
    have hc0 : tg.data_count = 0 := by omega
    rw [hc0] at hcnt
    have hel : tg.elems = [] := List.length_eq_zero.mp (by omega)
    have hpay : ∀ e' : Bool, enc_tag_payload e' tg = [] := by
      intro e'
      simp [enc_tag_payload, hel]
    rw [hpay e, hpay false]
    exact inline_data_canon_empty tg.data_type e
  · rw [if_neg hr] at hcnt
    have hwfs : enc_elem_width tg.data_type = get_tiff_field_size tg.data_type := by
      rw [enc_elem_width, if_neg hr]
    by_cases h1 : get_tiff_field_size tg.data_type = 1
    · -- single-byte elements: no swap happens and payloads coincide
      have hpay := enc_tag_payload_width_one e tg (by rw [hwfs, h1])
      rw [hpay]
      have hle : (enc_tag_payload false tg).length ≤ 4 := by
        rw [enc_tag_payload_length, hwfs, h1, hcnt]
        rw [h1] at hsz
        omega
      rw [padTake_four_eight _ hle]
      cases e
      · rfl
      · show maybe_swap_tiff_field _ _ true = _
        rw [maybe_swap_tiff_field]
        simp [h1]
    · -- multi-byte elements: inline well-formedness forces count ≤ 1
      have hcle : tg.data_count ≤ 1 := by
        rcases hinl hsz with h | h
        · exact h
        · exact absurd h h1
      rcases Nat.le_one_iff_eq_zero_or_eq_one.mp hcle with hc0 | hc1
      · rw [hc0] at hcnt
        have hel : tg.elems = [] := List.length_eq_zero.mp hcnt
        have hpay : ∀ e' : Bool, enc_tag_payload e' tg = [] := by
          intro e'
          simp [enc_tag_payload, hel]
        rw [hpay e, hpay false]
        exact inline_data_canon_empty tg.data_type e
      · rw [hc1] at hcnt
        obtain ⟨v, hel⟩ := List.length_eq_one.mp hcnt
        have hpay : ∀ e' : Bool,
            enc_tag_payload e' tg = encNum e' (get_tiff_field_size tg.data_type) v := by
          intro e'
          simp [enc_tag_payload, hel, hwfs]
        rw [hc1] at hsz
        have hfs4 : get_tiff_field_size tg.data_type ≤ 4 := by omega
        rw [hpay e, hpay false,
          padTake_of_le 4 _ (by rw [encNum_length]; omega),
          padTake_of_le 8 _ (by rw [encNum_length]; omega),
          encNum_length, encNum_length, List.append_assoc, ← List.replicate_add,
          show 4 - get_tiff_field_size tg.data_type + 4 =
            8 - get_tiff_field_size tg.data_type by omega]
        cases e
        · rfl
        · rw [maybe_swap_tiff_field]
          have hgt : get_tiff_field_size tg.data_type > 1 := by omega
          simp only [if_pos rfl, if_pos hgt, if_neg hr]
          show swapChunks _ 1 _ = _
          simp only [swapChunks,
            List.take_left' (encNum_length true _ v),
            List.drop_left' (encNum_length true _ v)]
          rw [show (encNum true (get_tiff_field_size tg.data_type) v).reverse =
              encNum false (get_tiff_field_size tg.data_type) v by
            simp [encNum]]

/-! ### Decoding encoded records -/

/-- Decoding the 12-byte record of a well-formed tag yields the canonical
tag, in either byte order. -/
theorem decode_enc_tag (e : Bool) (tg : enc_tag) (off : Nat)
    (hok : enc_tag_ok tg) (hoff : off < 2 ^ 32) :
    decode_raw_tag_classic e (enc_tag_record e tg off) = canon_tag tg off := by
  have hok' := hok
  obtain ⟨-, -, -, hcode, htype, hcount, -, -⟩ := hok'
  set D := (if get_tiff_field_size tg.data_type * tg.data_count ≤ 4 then
      padTake 4 (enc_tag_payload e tg)
    else encNum e 4 off) with hDdef
  have hD4 : D.length = 4 := by
    rw [hDdef]
    split
    · exact padTake_length 4 _
    · exact encNum_length e 4 off
  have hrec : enc_tag_record e tg off =
      encNum e 2 tg.code ++ (encNum e 2 tg.data_type ++
        (encNum e 4 tg.data_count ++ D)) := by
    rw [enc_tag_record, ← hDdef]
    simp [List.append_assoc]
  have hs0 : sliceBytes (enc_tag_record e tg off) 0 2 = encNum e 2 tg.code := by
    rw [hrec]
    show (List.drop 0 _).take 2 = _
    rw [List.drop_zero, List.take_left' (encNum_length e 2 _)]
  have hs2 : sliceBytes (enc_tag_record e tg off) 2 2 =
      encNum e 2 tg.data_type := by
    rw [hrec, sliceBytes_append_right' _ _ 2 0 2 (by simp [encNum_length])]
    show (List.drop 0 _).take 2 = _
    rw [List.drop_zero, List.take_left' (encNum_length e 2 _)]
  have hs4 : sliceBytes (enc_tag_record e tg off) 4 4 =
      encNum e 4 tg.data_count := by
    rw [hrec, sliceBytes_append_right' _ _ 4 2 4 (by simp [encNum_length]),
      sliceBytes_append_right' _ _ 2 0 4 (by simp [encNum_length])]
    show (List.drop 0 _).take 4 = _
    rw [List.drop_zero, List.take_left' (encNum_length e 4 _)]
  have hs8 : sliceBytes (enc_tag_record e tg off) 8 4 = D := by
    rw [hrec, sliceBytes_append_right' _ _ 8 6 4 (by simp [encNum_length]),
      sliceBytes_append_right' _ _ 6 4 4 (by simp [encNum_length]),
      sliceBytes_append_right' _ _ 4 0 4 (by simp [encNum_length])]
    show (List.drop 0 _).take 4 = _
    rw [List.drop_zero, List.take_of_length_le (le_of_eq hD4)]
  simp only [decode_raw_tag_classic, hs0, hs2, hs4, hs8,
    maybe_swap_16_encNum e _ hcode, maybe_swap_16_encNum e _ htype,
    maybe_swap_32_encNum e _ hcount]
  by_cases hsz : get_tiff_field_size tg.data_type * tg.data_count ≤ 4
  · rw [if_pos hsz, canon_tag, if_pos hsz]
    have hD : D = padTake 4 (enc_tag_payload e tg) := by rw [hDdef, if_pos hsz]
    rw [hD, inline_data_canon e tg hok hsz]
  · rw [if_neg hsz, canon_tag, if_neg hsz]
    have hD : D = encNum e 4 off := by rw [hDdef, if_neg hsz]
    rw [hD, maybe_swap_32_encNum e off hoff]

/-- Decoding a whole encoded record region yields the canonical tag
list, in either byte order. -/
theorem decode_enc_tags (e : Bool) (tags : List enc_tag) :
    ∀ base, (∀ tg ∈ tags, enc_tag_ok tg) →
    base + enc_data_len tags < 2 ^ 32 →
    decode_raw_tags false e tags.length (enc_tags e base tags).1 =
    canon_tags base tags := by
  induction tags with
  | nil => intro base h hb; rfl
  | cons tg rest ih =>
      intro base h hb
      have hok : enc_tag_ok tg := h tg (by simp)
      have hrest : ∀ x ∈ rest, enc_tag_ok x := fun x hx => h x (by simp [hx])
      rw [List.length_cons, decode_raw_tags_classic_succ]
      by_cases hsz : get_tiff_field_size tg.data_type * tg.data_count ≤ 4
      · rw [enc_tags_fst_cons_inline e base tg rest hsz,
          canon_tags_cons_inline base tg rest hsz,
          List.take_left' (enc_tag_record_length e tg 0),
          List.drop_left' (enc_tag_record_length e tg 0),
          decode_enc_tag e tg 0 hok (by norm_num)]
        rw [enc_data_len_cons_inline tg rest hsz] at hb
        rw [ih base hrest hb]
      · rw [enc_tags_fst_cons_offset e base tg rest hsz,
          canon_tags_cons_offset base tg rest hsz,
          List.take_left' (enc_tag_record_length e tg base),
          List.drop_left' (enc_tag_record_length e tg base)]
        rw [enc_data_len_cons_offset tg rest hsz] at hb
        rw [decode_enc_tag e tg base hok (by omega)]
        rw [enc_tag_payload_length_indep e tg, ih _ hrest (by omega)]

/-! ### Loader lemmas -/

/-- Zero splits into zero bytes. -/
theorem toLEBytes_zero (w : Nat) : toLEBytes w 0 = List.replicate w 0 := by
  induction w with
  | zero => rfl
  | succ w ih => simp [toLEBytes, ih, List.replicate_succ]

/-- Byte-swapping zero gives zero. -/
theorem bswapBytes_zero (w : Nat) : bswapBytes w 0 = 0 := by
  show leNat (toLEBytes w 0).reverse = 0
  rw [toLEBytes_zero, List.reverse_replicate, leNat_replicate_zero]

/-- Both members of an element pair come from the element list. -/
theorem encPairs_mem : ∀ l : List Nat, ∀ p ∈ encPairs l, p.1 ∈ l ∧ p.2 ∈ l
  | [] => by simp [encPairs]
  | [a] => by simp [encPairs]
  | a :: b :: rest => by
      intro p hp
      simp only [encPairs, List.mem_cons] at hp
      rcases hp with rfl | hp
      · constructor <;> simp
      · have h := encPairs_mem rest p hp
        constructor <;> simp [h.1, h.2]

/-- Rational pairs cut from a zero buffer are zero pairs. -/
theorem chunk_zeros_pairs :
    ∀ k m : Nat, (chunkList 8 k (List.replicate m 0)).map
      (fun c => (leNat (c.take 4), leNat ((c.drop 4).take 4))) =
    List.replicate k (0, 0) := by
  intro k
  induction k with
  | zero => intro m; rfl
  | succ k ih =>
      intro m
      simp only [chunkList, List.map_cons, List.take_replicate,
        List.drop_replicate, leNat_replicate_zero, ih, List.replicate_succ]

/-- The rationals loader on an inline tag always yields zero pairs: the
source would dereference the inline value as a pointer, modelled as a
zeroed buffer. -/
theorem rationals_inline (h : FileHandle) (e : Bool) (tag : tiff_tag_t)
    (hoff : tag.data_is_offset = false) :
    tiff_read_field_rationals h e tag =
    List.replicate tag.data_count ((0, 0) : Nat × Nat) := by
  cases e
  · simp only [tiff_read_field_rationals, hoff, Bool.false_eq_true, if_false]
    exact chunk_zeros_pairs _ 8
  · simp only [tiff_read_field_rationals, hoff, Bool.false_eq_true, if_false]
    rw [if_pos trivial, chunk_zeros_pairs, List.map_replicate, bswapBytes_zero]

/-- A fully-present positioned read returns its slice and restores the
handle. -/
theorem file_read_at_offset_eq (f : List Nat) (p off : Nat) (bs : List Nat)
    (n : Nat) (hbs : sliceBytes f off n = bs) (hn : 0 < n)
    (hlen : bs.length = n) :
    file_read_at_offset ⟨f, p⟩ off n = (1, bs, ⟨f, p⟩) := by
  simp [file_read_at_offset, fread_m, fseek_m, hbs, hlen, hn]

/-- The ASCII loader on an out-of-line tag whose payload is fully present
returns exactly that payload. -/
theorem ascii_loader_enc (f : List Nat) (p : Nat) (tag : tiff_tag_t)
    (payload : List Nat)
    (hoff : tag.data_is_offset = true)
    (hlen : payload.length = tag.data_count)
    (hbs : sliceBytes f tag.offset tag.data_count = payload) :
    tiff_read_field_ascii ⟨f, p⟩ tag = payload := by
  simp [tiff_read_field_ascii, hoff, file_read_at_offset, fread_m, fseek_m,
    hbs, hlen]

/-- Single-byte encodings flatten back to the elements. -/
theorem flatten_encNum_one (e : Bool) (elems : List Nat)
    (h : ∀ v ∈ elems, v < 256) :
    ((elems.map (encNum e 1)).flatten) = elems := by
  induction elems with
  | nil => rfl
  | cons a rest ih =>
      have ha : a < 256 := h a (by simp)
      have henc : encNum e 1 a = [a] := by
        cases e <;> simp [encNum, toLEBytes, Nat.mod_eq_of_lt ha]
      simp only [List.map_cons, List.flatten_cons, henc,
        ih (fun v hv => h v (by simp [hv])), List.singleton_append]

/-- The integers loader on an out-of-line payload encoded at the tag's
element width recovers the elements, whatever the byte order. -/
theorem integers_loader_enc (e : Bool) (f : List Nat) (p : Nat)
    (tag : tiff_tag_t) (elems : List Nat)
    (hoff : tag.data_is_offset = true)
    (hfs : 1 ≤ get_tiff_field_size tag.data_type)
    (hlen : elems.length = tag.data_count)
    (hval : ∀ v ∈ elems, v < 256 ^ get_tiff_field_size tag.data_type)
    (hpos : 0 < tag.data_count * get_tiff_field_size tag.data_type)
    (hbs : sliceBytes f tag.offset
        (tag.data_count * get_tiff_field_size tag.data_type) =
      (elems.map (encNum e (get_tiff_field_size tag.data_type))).flatten) :
    tiff_read_field_integers ⟨f, p⟩ e tag = some elems := by
  have hflen : ((elems.map
      (encNum e (get_tiff_field_size tag.data_type))).flatten).length =
      tag.data_count * get_tiff_field_size tag.data_type := by
    rw [flatten_map_encNum_length, hlen]
    ring
  have hread := file_read_at_offset_eq f p tag.offset _ _ hbs hpos hflen
  have hmapped : ∀ (w : Nat) (g : Nat → Nat),
      (∀ v ∈ elems, g (leNat (encNum e w v)) = v) →
      ((chunkList w tag.data_count ((elems.map (encNum e w)).flatten)).map
        (fun c => g (leNat c))) = elems := by
    intro w g hg
    rw [← hlen, chunkList_map_encNum e w elems, List.map_map]
    calc elems.map ((fun c => g (leNat c)) ∘ encNum e w)
        = elems.map id := List.map_congr_left (fun v hv => hg v hv)
      _ = elems := List.map_id elems
  rcases get_tiff_field_size_cases tag.data_type with h0 | h1 | h2 | h4 | h8
  · omega
  · -- single-byte elements: returned verbatim
    rw [h1] at hread hval
    simp only [tiff_read_field_integers, hoff, if_true, h1, hread]
    norm_num
    exact flatten_encNum_one e elems (by simpa using hval)
  · -- 2-byte elements
    rw [h2] at hread hval
    simp only [tiff_read_field_integers, hoff, if_true, h2, hread]
    norm_num
    refine hmapped 2 (fun x => maybe_swap_16 x e) ?_
    intro v hv
    refine maybe_swap_16_encNum e v ?_
    have hb := hval v hv
    norm_num at hb ⊢
    omega
  · -- 4-byte elements
    rw [h4] at hread hval
    simp only [tiff_read_field_integers, hoff, if_true, h4, hread]
    norm_num
    refine hmapped 4 (fun x => maybe_swap_32 x e) ?_
    intro v hv
    refine maybe_swap_32_encNum e v ?_
    have hb := hval v hv
    norm_num at hb ⊢
    omega
  · -- 8-byte elements
    rw [h8] at hread hval
    simp only [tiff_read_field_integers, hoff, if_true, h8, hread]
    norm_num
    refine hmapped 8 (fun x => maybe_swap_64 x e) ?_
    intro v hv
    refine maybe_swap_64_encNum e v ?_
    have hb := hval v hv
    norm_num at hb ⊢
    omega

/-- Cutting a flattened 4-byte component encoding into 8-byte chunks
pairs up consecutive components. -/
theorem chunk8_pairs (e : Bool) :
    ∀ (count : Nat) (elems : List Nat), elems.length = 2 * count →
    (chunkList 8 count ((elems.map (encNum e 4)).flatten)).map
      (fun c => (leNat (c.take 4), leNat ((c.drop 4).take 4))) =
    (encPairs elems).map
      (fun q => (leNat (encNum e 4 q.1), leNat (encNum e 4 q.2))) := by
  intro count
  induction count with
  | zero =>
      intro elems hlen
      have h : elems = [] := List.length_eq_zero.mp (by omega)
      subst h
      rfl
  | succ count ih =>
      intro elems hlen
      cases elems with
      | nil => exfalso; rw [List.length_nil] at hlen; omega
      | cons a tail =>
          cases tail with
          | nil =>
              exfalso
              rw [List.length_cons, List.length_nil] at hlen
              omega
          | cons b rest =>
              have hrest : rest.length = 2 * count := by
                rw [List.length_cons, List.length_cons] at hlen
                omega
              have hassoc : encNum e 4 a ++ (encNum e 4 b ++
                  (rest.map (encNum e 4)).flatten) =
                  (encNum e 4 a ++ encNum e 4 b) ++
                    (rest.map (encNum e 4)).flatten :=
                (List.append_assoc _ _ _).symm
              have hab : (encNum e 4 a ++ encNum e 4 b).length = 8 := by
                simp [encNum_length]
              simp only [List.map_cons, List.flatten_cons, chunkList, encPairs,
                hassoc, List.take_left' hab, List.drop_left' hab]
              rw [ih rest hrest]
              congr 1
              rw [List.take_left' (encNum_length e 4 a),
                List.drop_left' (encNum_length e 4 a),
                List.take_of_length_le (le_of_eq (encNum_length e 4 b))]

/-- The rationals loader on an out-of-line payload encoded as 4-byte
components recovers the component pairs, whatever the byte order. -/
theorem rationals_loader_enc (e : Bool) (f : List Nat) (p : Nat)
    (tag : tiff_tag_t) (elems : List Nat)
    (hoff : tag.data_is_offset = true)
    (hlen : elems.length = 2 * tag.data_count)
    (hval : ∀ v ∈ elems, v < 256 ^ 4)
    (hbs : sliceBytes f tag.offset (tag.data_count * 8) =
      (elems.map (encNum e 4)).flatten) :
    tiff_read_field_rationals ⟨f, p⟩ e tag = encPairs elems := by
  have hflen : ((elems.map (encNum e 4)).flatten).length =
      tag.data_count * 8 := by
    rw [flatten_map_encNum_length, hlen]
    ring
  have hraw : (elems.map (encNum e 4)).flatten ++
      List.replicate (tag.data_count * 8 -
        ((elems.map (encNum e 4)).flatten).length) 0 =
      (elems.map (encNum e 4)).flatten := by
    rw [hflen, Nat.sub_self]
    simp
  have hpairs := chunk8_pairs e tag.data_count elems hlen
  cases e
  · simp only [tiff_read_field_rationals, hoff, if_true, file_read_at_offset,
      fread_m, fseek_m, hbs, hraw, Bool.false_eq_true, if_false, hpairs]
    calc (encPairs elems).map
          (fun q => (leNat (encNum false 4 q.1), leNat (encNum false 4 q.2)))
        = (encPairs elems).map id := by
          refine List.map_congr_left ?_
          intro q hq
          obtain ⟨h1, h2⟩ := encPairs_mem elems q hq
          have e1 : leNat (encNum false 4 q.1) = q.1 :=
            leNat_toLEBytes 4 q.1 (hval _ h1)
          have e2 : leNat (encNum false 4 q.2) = q.2 :=
            leNat_toLEBytes 4 q.2 (hval _ h2)
          simp [e1, e2]
      _ = encPairs elems := List.map_id _
  · simp only [tiff_read_field_rationals, hoff, if_true, file_read_at_offset,
      fread_m, fseek_m, hbs, hraw, hpairs]
    rw [List.map_map]
    calc (encPairs elems).map
          ((fun q : Nat × Nat => (bswapBytes 4 q.1, bswapBytes 4 q.2)) ∘
            (fun q => (leNat (encNum true 4 q.1), leNat (encNum true 4 q.2))))
        = (encPairs elems).map id := by
          refine List.map_congr_left ?_
          intro q hq
          obtain ⟨h1, h2⟩ := encPairs_mem elems q hq
          have e1 : bswapBytes 4 (leNat (encNum true 4 q.1)) = q.1 := by
            have hb : leNat (encNum true 4 q.1) = bswapBytes 4 q.1 := rfl
            rw [hb, bswapBytes_bswapBytes 4 q.1 (hval _ h1)]
          have e2 : bswapBytes 4 (leNat (encNum true 4 q.2)) = q.2 := by
            have hb : leNat (encNum true 4 q.2) = bswapBytes 4 q.2 := rfl
            rw [hb, bswapBytes_bswapBytes 4 q.2 (hval _ h2)]
          simp [Function.comp, e1, e2]
      _ = encPairs elems := List.map_id _

/-! ### Tag-dispatch symmetry -/

/-- `tiff_process_tag` consults the handle and the byte order only
through the three field loaders, and only for the tag codes that invoke
them. -/
theorem process_tag_ext (hA hB : FileHandle) (eA eB : Bool)
    (ifd : tiff_ifd_t) (tag : tiff_tag_t)
    (hasc : (tag.code = TIFF_TAG_IMAGE_DESCRIPTION ∨
        tag.code = TIFF_TAG_JPEG_TABLES) →
      tiff_read_field_ascii hA tag = tiff_read_field_ascii hB tag)
    (hint : (tag.code = TIFF_TAG_TILE_OFFSETS ∨
        tag.code = TIFF_TAG_TILE_BYTE_COUNTS) →
      tiff_read_field_integers hA eA tag = tiff_read_field_integers hB eB tag)
    (hrat : tag.code = TIFF_TAG_REFERENCEBLACKWHITE →
      tiff_read_field_rationals hA eA tag =
        tiff_read_field_rationals hB eB tag) :
    tiff_process_tag hA eA ifd tag = tiff_process_tag hB eB ifd tag := by
  unfold tiff_process_tag tiff_read_field_undefined
  by_cases h1 : tag.code = TIFF_TAG_NEW_SUBFILE_TYPE
  · rw [if_pos h1, if_pos h1]
  rw [if_neg h1, if_neg h1]
  by_cases h2 : tag.code = TIFF_TAG_IMAGE_WIDTH
  · rw [if_pos h2, if_pos h2]
  rw [if_neg h2, if_neg h2]
  by_cases h3 : tag.code = TIFF_TAG_IMAGE_LENGTH
  · rw [if_pos h3, if_pos h3]
  rw [if_neg h3, if_neg h3]
  by_cases h4 : tag.code = TIFF_TAG_BITS_PER_SAMPLE
  · rw [if_pos h4, if_pos h4]
  rw [if_neg h4, if_neg h4]
  by_cases h5 : tag.code = TIFF_TAG_COMPRESSION
  · rw [if_pos h5, if_pos h5]
  rw [if_neg h5, if_neg h5]
  by_cases h6 : tag.code = TIFF_TAG_PHOTOMETRIC_INTERPRETATION
  · rw [if_pos h6, if_pos h6]
  rw [if_neg h6, if_neg h6]
  by_cases h7 : tag.code = TIFF_TAG_IMAGE_DESCRIPTION
  · rw [if_pos h7, if_pos h7, hasc (Or.inl h7)]
  rw [if_neg h7, if_neg h7]
  by_cases h8 : tag.code = TIFF_TAG_TILE_WIDTH
  · rw [if_pos h8, if_pos h8]
  rw [if_neg h8, if_neg h8]
  by_cases h9 : tag.code = TIFF_TAG_TILE_LENGTH
  · rw [if_pos h9, if_pos h9]
  rw [if_neg h9, if_neg h9]
  by_cases h10 : tag.code = TIFF_TAG_TILE_OFFSETS
  · rw [if_pos h10, if_pos h10, hint (Or.inl h10)]
  rw [if_neg h10, if_neg h10]
  by_cases h11 : tag.code = TIFF_TAG_TILE_BYTE_COUNTS
  · rw [if_pos h11, if_pos h11, hint (Or.inr h11)]
  rw [if_neg h11, if_neg h11]
  by_cases h12 : tag.code = TIFF_TAG_JPEG_TABLES
  · rw [if_pos h12, if_pos h12, hasc (Or.inr h12)]
  rw [if_neg h12, if_neg h12]
  by_cases h13 : tag.code = TIFF_TAG_YCBCRSUBSAMPLING
  · rw [if_pos h13, if_pos h13]
  rw [if_neg h13, if_neg h13]
  by_cases h14 : tag.code = TIFF_TAG_REFERENCEBLACKWHITE
  · rw [if_pos h14, if_pos h14, hrat h14]
  rw [if_neg h14, if_neg h14]

/-- On an inline tag the dispatch is byte-order and handle independent. -/
theorem process_tag_inline_eq (hA hB : FileHandle) (eA eB : Bool)
    (ifd : tiff_ifd_t) (tag : tiff_tag_t)
    (hoff : tag.data_is_offset = false) :
    tiff_process_tag hA eA ifd tag = tiff_process_tag hB eB ifd tag := by
  refine process_tag_ext hA hB eA eB ifd tag ?_ ?_ ?_
  · intro _
    simp [tiff_read_field_ascii, hoff]
  · intro _
    simp [tiff_read_field_integers, hoff]
  · intro _
    rw [rationals_inline hA eA tag hoff, rationals_inline hB eB tag hoff]

/-- The canonical form of an out-of-line tag, as an explicit record. -/
theorem canon_tag_offset_fields (tg : enc_tag) (off : Nat)
    (h : ¬ get_tiff_field_size tg.data_type * tg.data_count ≤ 4) :
    canon_tag tg off =
      ⟨tg.code, tg.data_type, tg.data_count, true, off,
        List.replicate 8 0⟩ := by
  simp [canon_tag, h]

/-- Processing the canonical tags of a well-formed encoded tag list gives
the same result whether the file carries the little-endian or the
big-endian data region. -/
theorem process_enc_tags_eq (tags : List enc_tag) :
    ∀ (base : Nat) (ifd : tiff_ifd_t) (fL fB : List Nat) (pL pB : Nat),
    (∀ tg ∈ tags, enc_tag_ok tg) →
    sliceBytes fL base (enc_data_len tags) = (enc_tags false base tags).2 →
    sliceBytes fB base (enc_data_len tags) = (enc_tags true base tags).2 →
    tiff_process_tags ⟨fL, pL⟩ false ifd (canon_tags base tags) =
    tiff_process_tags ⟨fB, pB⟩ true ifd (canon_tags base tags) := by
  induction tags with
  | nil => intros; rfl
  | cons tg rest ih =>
      intro base ifd fL fB pL pB h hsL hsB
      have hok := h tg (by simp)
      have hok' := hok
      obtain ⟨hfs, hcnt, helems, -, -, -, -, hascii, htile, hrbw⟩ := hok'
      have hrest : ∀ x ∈ rest, enc_tag_ok x := fun x hx => h x (by simp [hx])
      by_cases hsz : get_tiff_field_size tg.data_type * tg.data_count ≤ 4
      · -- inline head: the dispatch never touches the file
        rw [canon_tags_cons_inline base tg rest hsz]
        have hoffF : (canon_tag tg 0).data_is_offset = false := by
          simp [canon_tag, hsz]
        have hhead := process_tag_inline_eq ⟨fL, pL⟩ ⟨fB, pB⟩ false true ifd
          (canon_tag tg 0) hoffF
        simp only [tiff_process_tags, hhead]
        cases hres : tiff_process_tag ⟨fB, pB⟩ true ifd (canon_tag tg 0) with
        | none => rfl
        | some ifd' =>
            rw [enc_data_len_cons_inline tg rest hsz] at hsL hsB
            rw [enc_tags_snd_cons_inline false base tg rest hsz] at hsL
            rw [enc_tags_snd_cons_inline true base tg rest hsz] at hsB
            exact ih base ifd' fL fB pL pB hrest hsL hsB
      · -- out-of-line head: the loaders read the twin payloads
        rw [canon_tags_cons_offset base tg rest hsz]
        rw [enc_data_len_cons_offset tg rest hsz] at hsL hsB
        rw [enc_tags_snd_cons_offset false base tg rest hsz] at hsL
        rw [enc_tags_snd_cons_offset true base tg rest hsz] at hsB
        rw [enc_tag_payload_length_indep true tg] at hsB
        have hLhead : sliceBytes fL base (enc_tag_payload false tg).length =
            enc_tag_payload false tg := by
          have htk := congrArg (List.take (enc_tag_payload false tg).length) hsL
          rwa [sliceBytes_take, List.take_left] at htk
        have hBhead : sliceBytes fB base (enc_tag_payload false tg).length =
            enc_tag_payload true tg := by
          have htk := congrArg (List.take (enc_tag_payload false tg).length) hsB
          rw [sliceBytes_take] at htk
          rwa [List.take_left' (enc_tag_payload_length_indep true tg)] at htk
        have hLrest : sliceBytes fL
            (base + (enc_tag_payload false tg).length) (enc_data_len rest) =
            (enc_tags false (base + (enc_tag_payload false tg).length) rest).2 := by
          have hdk := congrArg (List.drop (enc_tag_payload false tg).length) hsL
          rwa [sliceBytes_drop, List.drop_left] at hdk
        have hBrest : sliceBytes fB
            (base + (enc_tag_payload false tg).length) (enc_data_len rest) =
            (enc_tags true (base + (enc_tag_payload false tg).length) rest).2 := by
          have hdk := congrArg (List.drop (enc_tag_payload false tg).length) hsB
          rw [sliceBytes_drop] at hdk
          rwa [List.drop_left' (enc_tag_payload_length_indep true tg)] at hdk
        have hct := canon_tag_offset_fields tg base hsz
        have hhead : tiff_process_tag ⟨fL, pL⟩ false ifd (canon_tag tg base) =
            tiff_process_tag ⟨fB, pB⟩ true ifd (canon_tag tg base) := by
          refine process_tag_ext _ _ _ _ _ _ ?_ ?_ ?_
          · -- ImageDescription / JPEGTables: single-byte elements
            intro hcode
            have hc : tg.code = TIFF_TAG_IMAGE_DESCRIPTION ∨
                tg.code = TIFF_TAG_JPEG_TABLES := by
              simpa [hct] using hcode
            have h1 := hascii hc
            have hnr : ¬ (tg.data_type = TIFF_RATIONAL ∨
                tg.data_type = TIFF_SRATIONAL) := by
              intro hr
              rw [get_tiff_field_size_rational _ hr] at h1
              omega
            have hw1 : enc_elem_width tg.data_type = 1 := by
              rw [enc_elem_width, if_neg hnr, h1]
            have hpayB := enc_tag_payload_width_one true tg hw1
            have hplen : (enc_tag_payload false tg).length = tg.data_count := by
              rw [enc_tag_payload_length_ok false tg hok, h1, one_mul]
            rw [ascii_loader_enc fL pL (canon_tag tg base)
                (enc_tag_payload false tg) (by simp [hct])
                (by simp only [hct]; exact hplen)
                (by simp only [hct]; rw [← hplen]; exact hLhead),
              ascii_loader_enc fB pB (canon_tag tg base)
                (enc_tag_payload true tg) (by simp [hct])
                (by simp only [hct]
                    rw [enc_tag_payload_length_indep]
                    exact hplen)
                (by simp only [hct]
                    rw [← hplen]
                    exact hBhead),
              hpayB]
          · -- TileOffsets / TileByteCounts: a non-rational integer array
            intro hcode
            have hc : tg.code = TIFF_TAG_TILE_OFFSETS ∨
                tg.code = TIFF_TAG_TILE_BYTE_COUNTS := by
              simpa [hct] using hcode
            have hnr := htile hc
            have hw : enc_elem_width tg.data_type =
                get_tiff_field_size tg.data_type := by
              rw [enc_elem_width, if_neg hnr]
            rw [if_neg hnr] at hcnt
            have hval' : ∀ v ∈ tg.elems,
                v < 256 ^ get_tiff_field_size tg.data_type := by
              intro v hv
              have hb := helems v hv
              rwa [hw] at hb
            have hlen2 : (enc_tag_payload false tg).length =
                tg.data_count * get_tiff_field_size tg.data_type := by
              rw [enc_tag_payload_length_ok false tg hok, Nat.mul_comm]
            have hlen2' : (enc_tag_payload true tg).length =
                tg.data_count * get_tiff_field_size tg.data_type := by
              rw [enc_tag_payload_length_indep true tg]
              exact hlen2
            have hpayL : enc_tag_payload false tg =
                (tg.elems.map
                  (encNum false (get_tiff_field_size tg.data_type))).flatten := by
              simp only [enc_tag_payload, hw]
            have hpayB : enc_tag_payload true tg =
                (tg.elems.map
                  (encNum true (get_tiff_field_size tg.data_type))).flatten := by
              simp only [enc_tag_payload, hw]
            rw [integers_loader_enc false fL pL (canon_tag tg base) tg.elems
                (by simp [hct]) (by simp only [hct]; exact hfs)
                (by simp only [hct]; exact hcnt)
                (by simp only [hct]; exact hval')
                (by simp only [hct]
                    rw [Nat.mul_comm]
                    omega)
                (by simp only [hct]
                    rw [← hlen2, ← hpayL]
                    exact hLhead),
              integers_loader_enc true fB pB (canon_tag tg base) tg.elems
                (by simp [hct]) (by simp only [hct]; exact hfs)
                (by simp only [hct]; exact hcnt)
                (by simp only [hct]; exact hval')
                (by simp only [hct]
                    rw [Nat.mul_comm]
                    omega)
                (by simp only [hct]
                    rw [← hlen2, ← hpayB]
                    exact hBhead)]
          · -- ReferenceBlackWhite: rational components
            intro hcode
            have hc : tg.code = TIFF_TAG_REFERENCEBLACKWHITE := by
              simpa [hct] using hcode
            obtain ⟨hr, -⟩ := hrbw hc
            rw [if_pos hr] at hcnt
            have hw4 : enc_elem_width tg.data_type = 4 := by
              rw [enc_elem_width, if_pos hr]
            have hval' : ∀ v ∈ tg.elems, v < 256 ^ 4 := by
              intro v hv
              have hb := helems v hv
              rwa [hw4] at hb
            have hlen8 : (enc_tag_payload false tg).length =
                tg.data_count * 8 := by
              rw [enc_tag_payload_length, hw4, hcnt]
              ring
            have hpayL : enc_tag_payload false tg =
                (tg.elems.map (encNum false 4)).flatten := by
              simp only [enc_tag_payload, hw4]
            have hpayB : enc_tag_payload true tg =
                (tg.elems.map (encNum true 4)).flatten := by
              simp only [enc_tag_payload, hw4]
            rw [rationals_loader_enc false fL pL (canon_tag tg base) tg.elems
                (by simp [hct]) (by simp only [hct]; exact hcnt) hval'
                (by simp only [hct]
                    rw [← hlen8, ← hpayL]
                    exact hLhead),
              rationals_loader_enc true fB pB (canon_tag tg base) tg.elems
                (by simp [hct]) (by simp only [hct]; exact hcnt) hval'
                (by simp only [hct]
                    rw [← hlen8, ← hpayB]
                    exact hBhead)]
        simp only [tiff_process_tags, hhead]
        cases hres : tiff_process_tag ⟨fB, pB⟩ true ifd (canon_tag tg base) with
        | none => rfl
        | some ifd' => exact ih _ ifd' fL fB pL pB hrest hLrest hBrest

/-! ### Layout of the encoded file -/

/-- A fully-present sequential read returns its slice and advances the
position. -/
theorem fread_m_eq (f : List Nat) (p n : Nat) (bs : List Nat)
    (hbs : sliceBytes f p n = bs) (hn : 0 < n) (hlen : bs.length = n) :
    fread_m ⟨f, p⟩ n = (1, bs, ⟨f, p + n⟩) := by
  simp [fread_m, hbs, hlen, hn]

/-- The encoded file, reassociated into its five regions. -/
theorem encodeTiffFile_assoc (e : Bool) (tags : List enc_tag) :
    encodeTiffFile e tags =
    ((if e then [0x4D, 0x4D] else [0x49, 0x49]) ++ encNum e 2 0x2A ++
      encNum e 4 16 ++ List.replicate 8 0) ++
    (encNum e 2 tags.length ++
      ((enc_tags e (22 + 12 * tags.length) tags).1 ++
        (List.replicate 4 0 ++ (enc_tags e (22 + 12 * tags.length) tags).2))) := by
  simp [encodeTiffFile, List.append_assoc]

/-- The encoded header region is 16 bytes. -/
theorem encode_header_length (e : Bool) :
    ((if e then [0x4D, 0x4D] else [0x49, 0x49]) ++ encNum e 2 0x2A ++
      encNum e 4 16 ++ List.replicate 8 0).length = 16 := by
  cases e <;> simp [encNum_length]

/-- Total length of the encoded file. -/
theorem encodeTiffFile_length (e : Bool) (tags : List enc_tag) :
    (encodeTiffFile e tags).length =
    22 + 12 * tags.length + enc_data_len tags := by
  cases e <;>
    simp [encodeTiffFile, encNum_length, enc_tags_fst_length,
      enc_tags_snd_length] <;>
    ring

/-- The tag-count slot of the encoded file. -/
theorem encode_slice_cnt (e : Bool) (tags : List enc_tag) :
    sliceBytes (encodeTiffFile e tags) 16 2 = encNum e 2 tags.length := by
  rw [encodeTiffFile_assoc,
    sliceBytes_append_right' _ _ 16 0 2
      (by rw [encode_header_length e])]
  show (List.drop 0 _).take 2 = _
  rw [List.drop_zero, List.take_left' (encNum_length e 2 _)]

/-- The record region of the encoded file. -/
theorem encode_slice_records (e : Bool) (tags : List enc_tag) :
    sliceBytes (encodeTiffFile e tags) 18 (tags.length * 12) =
    (enc_tags e (22 + 12 * tags.length) tags).1 := by
  rw [encodeTiffFile_assoc,
    sliceBytes_append_right' _ _ 18 2 (tags.length * 12)
      (by rw [encode_header_length e]),
    sliceBytes_append_right' _ _ 2 0 (tags.length * 12)
      (by rw [encNum_length])]
  show (List.drop 0 _).take (tags.length * 12) = _
  rw [List.drop_zero,
    List.take_left' (by rw [enc_tags_fst_length]; ring)]

/-- The zero next-IFD offset of the encoded file. -/
theorem encode_slice_next (e : Bool) (tags : List enc_tag) :
    sliceBytes (encodeTiffFile e tags) (18 + 12 * tags.length) 4 =
    List.replicate 4 0 := by
  rw [encodeTiffFile_assoc,
    sliceBytes_append_right' _ _ (18 + 12 * tags.length)
      (2 + 12 * tags.length) 4 (by rw [encode_header_length e]; omega),
    sliceBytes_append_right' _ _ (2 + 12 * tags.length) (12 * tags.length) 4
      (by rw [encNum_length]),
    sliceBytes_append_right' _ _ (12 * tags.length) 0 4
      (by rw [enc_tags_fst_length]; omega)]
  show (List.drop 0 _).take 4 = _
  rw [List.drop_zero, List.take_left' (List.length_replicate 4 0)]

/-- The data region of the encoded file. -/
theorem encode_slice_data (e : Bool) (tags : List enc_tag) :
    sliceBytes (encodeTiffFile e tags) (22 + 12 * tags.length)
      (enc_data_len tags) =
    (enc_tags e (22 + 12 * tags.length) tags).2 := by
  rw [encodeTiffFile_assoc,
    sliceBytes_append_right' _ _ (22 + 12 * tags.length)
      (6 + 12 * tags.length) (enc_data_len tags)
      (by rw [encode_header_length e]; omega),
    sliceBytes_append_right' _ _ (6 + 12 * tags.length)
      (4 + 12 * tags.length) (enc_data_len tags)
      (by rw [encNum_length]; omega),
    sliceBytes_append_right' _ _ (4 + 12 * tags.length) 4 (enc_data_len tags)
      (by rw [enc_tags_fst_length]; omega),
    sliceBytes_append_right' _ _ 4 0 (enc_data_len tags)
      (by rw [List.length_replicate])]
  show (List.drop 0 _).take (enc_data_len tags) = _
  rw [List.drop_zero,
    List.take_of_length_le (le_of_eq (enc_tags_snd_length e tags _))]

/-- The header phase accepts the encoded file and reports its byte order,
classic-TIFF layout, and first IFD offset 16. -/
theorem open_header_enc (e : Bool) (tags : List enc_tag) :
    open_tiff_header (encodeTiffFile e tags) =
    some ({ is_big_endian := e, is_bigtiff := false,
            bytesize_of_offsets := 4 },
          ⟨encodeTiffFile e tags, 16⟩, 16) := by
  have hgt : (encodeTiffFile e tags).length > 8 := by
    rw [encodeTiffFile_length]
    omega
  have hslice : sliceBytes (encodeTiffFile e tags) 0 16 =
      (if e then [0x4D, 0x4D] else [0x49, 0x49]) ++ encNum e 2 0x2A ++
        encNum e 4 16 ++ List.replicate 8 0 := by
    rw [encodeTiffFile_assoc]
    show (List.drop 0 _).take 16 = _
    rw [List.drop_zero, List.take_left' (encode_header_length e)]
  have hfr : fread_m ⟨encodeTiffFile e tags, 0⟩ 16 =
      (1, (if e then [0x4D, 0x4D] else [0x49, 0x49]) ++ encNum e 2 0x2A ++
        encNum e 4 16 ++ List.replicate 8 0,
       ⟨encodeTiffFile e tags, 16⟩) := by
    have h := fread_m_eq (encodeTiffFile e tags) 0 16 _ hslice (by omega)
      (encode_header_length e)
    simpa using h
  cases e
  · simp only [open_tiff_header, if_pos hgt, hfr]
    norm_num [sliceBytes, leNat, encNum, toLEBytes, maybe_swap_16,
      maybe_swap_32, bswapBytes, beNat, TIFF_BIG_ENDIAN, TIFF_LITTLE_ENDIAN]
  · simp only [open_tiff_header, if_pos hgt, hfr]
    norm_num [sliceBytes, leNat, encNum, toLEBytes, maybe_swap_16,
      maybe_swap_32, bswapBytes, beNat, TIFF_BIG_ENDIAN, TIFF_LITTLE_ENDIAN]

/-- The tag-reading phase on the encoded file produces the canonical
tags and leaves the handle at the next-IFD-offset slot. -/
theorem decode_ifd_enc (e : Bool) (tags : List enc_tag) (p : Nat)
    (hn : tags.length < 2 ^ 16) (hne : tags ≠ [])
    (hok : ∀ tg ∈ tags, enc_tag_ok tg)
    (hbound : 22 + 12 * tags.length + enc_data_len tags < 2 ^ 32) :
    tiff_decode_ifd_tags
      { is_big_endian := e, is_bigtiff := false, bytesize_of_offsets := 4 }
      ⟨encodeTiffFile e tags, p⟩ 16 =
    some (canon_tags (22 + 12 * tags.length) tags,
          ⟨encodeTiffFile e tags, 18 + tags.length * 12⟩) := by
  have hpos : 0 < tags.length := List.length_pos.mpr hne
  have hfr1 : fread_m ⟨encodeTiffFile e tags, 16⟩ 2 =
      (1, encNum e 2 tags.length, ⟨encodeTiffFile e tags, 18⟩) :=
    fread_m_eq _ 16 2 _ (encode_slice_cnt e tags) (by omega)
      (encNum_length e 2 _)
  have hfr2 : fread_m ⟨encodeTiffFile e tags, 18⟩ (tags.length * 12) =
      (1, (enc_tags e (22 + 12 * tags.length) tags).1,
       ⟨encodeTiffFile e tags, 18 + tags.length * 12⟩) :=
    fread_m_eq _ 18 (tags.length * 12) _ (encode_slice_records e tags)
      (by omega) (by rw [enc_tags_fst_length]; ring)
  have hdec := decode_enc_tags e tags (22 + 12 * tags.length) hok (by omega)
  cases e
  · have hc : leNat (encNum false 2 tags.length) = tags.length := by
      show leNat (toLEBytes 2 tags.length) = tags.length
      refine leNat_toLEBytes 2 tags.length ?_
      norm_num at hn ⊢
      omega
    simp only [tiff_decode_ifd_tags, fseek_m]
    norm_num [hfr1, hc, hfr2, hdec]
  · have hc : bswapBytes 2 (leNat (encNum true 2 tags.length)) =
        tags.length := by
      have h := maybe_swap_16_encNum true tags.length hn
      simpa [maybe_swap_16] using h
    simp only [tiff_decode_ifd_tags, fseek_m]
    norm_num [hfr1, hc, hfr2, hdec]

/-- With no tags the record read is empty and the tag-reading phase
fails: `fread` of zero bytes reports zero items. -/
theorem decode_ifd_enc_nil (e : Bool) (p : Nat) :
    tiff_decode_ifd_tags
      { is_big_endian := e, is_bigtiff := false, bytesize_of_offsets := 4 }
      ⟨encodeTiffFile e [], p⟩ 16 = none := by
  have hfr1 : fread_m ⟨encodeTiffFile e [], 16⟩ 2 =
      (1, encNum e 2 ([] : List enc_tag).length, ⟨encodeTiffFile e [], 18⟩) :=
    fread_m_eq _ 16 2 _ (encode_slice_cnt e []) (by omega)
      (encNum_length e 2 _)
  have hfr2 : fread_m ⟨encodeTiffFile e [], 18⟩ 0 =
      (0, [], ⟨encodeTiffFile e [], 18⟩) := by
    simp [fread_m, sliceBytes]
  cases e
  · have hc : leNat (encNum false 2 (0 : Nat)) = 0 := by decide
    simp only [tiff_decode_ifd_tags, fseek_m]
    norm_num [hfr1, hc, hfr2]
  · have hc : bswapBytes 2 (leNat (encNum true 2 (0 : Nat))) = 0 := by decide
    simp only [tiff_decode_ifd_tags, fseek_m]
    norm_num [hfr1, hc, hfr2]

/-- Classification ignores and preserves the endianness flag. -/
theorem classify_flag (t : tiff_t) (e : Bool) (ifd : tiff_ifd_t) :
    tiff_classify_ifd { t with is_big_endian := e } ifd =
    ({ (tiff_classify_ifd t ifd).1 with is_big_endian := e },
     (tiff_classify_ifd t ifd).2) := by
  cases hdesc : ifd.image_description <;>
    simp only [tiff_classify_ifd, hdesc] <;>
    split_ifs <;>
    rfl

/-- Classification never touches the offset width. -/
theorem classify_preserves_bytesize (t : tiff_t) (ifd : tiff_ifd_t) :
    (tiff_classify_ifd t ifd).1.bytesize_of_offsets =
    t.bytesize_of_offsets := by
  cases hdesc : ifd.image_description <;>
    simp only [tiff_classify_ifd, hdesc] <;>
    split_ifs <;>
    rfl

/-- The chain walk stops immediately on a zero next-IFD offset. -/
theorem open_tiff_ifd_loop_zero (fuel : Nat) (t : tiff_t) (h : FileHandle) :
    open_tiff_ifd_loop fuel t h 0 = some t := by
  cases fuel <;> simp [open_tiff_ifd_loop]

/-- `open_tiff_file` with zero fuel fails on any file whose header parse
reports the nonzero first IFD offset 16. -/
theorem open_tiff_file_zero_reduce (file : List Nat) (t : tiff_t) (p : Nat)
    (hh : open_tiff_header file = some (t, ⟨file, p⟩, 16)) :
    open_tiff_file file 0 = none := by
  unfold open_tiff_file
  rw [hh]
  rfl

/-- `open_tiff_file` reduces to the chain walk once the header parse is
known. -/
theorem open_tiff_file_loop_reduce (file : List Nat) (t : tiff_t)
    (p : Nat) (fuel : Nat)
    (hh : open_tiff_header file = some (t, ⟨file, p⟩, 16)) :
    open_tiff_file file fuel =
    (match open_tiff_ifd_loop fuel t ⟨file, p⟩ 16 with
     | none => none
     | some t3 => some (tiff_post_process t3)) := by
  unfold open_tiff_file
  rw [hh]

/-- One step of the chain walk at offset 16 when the IFD read fails. -/
theorem open_tiff_ifd_loop_succ_none (fuel : Nat) (t : tiff_t)
    (h : FileHandle)
    (hr : tiff_read_ifd t h { ifd_index := t.ifd_count } 16 = none) :
    open_tiff_ifd_loop (fuel + 1) t h 16 = none := by
  simp only [open_tiff_ifd_loop]
  rw [if_neg (show ¬ ((16 : Nat) = 0) by norm_num), hr]

/-- One step of the chain walk at offset 16 when the IFD read succeeds
with next offset zero: the walk appends the IFD and stops. -/
theorem open_tiff_ifd_loop_succ_some (fuel : Nat) (t : tiff_t)
    (h : FileHandle) (t2 : tiff_t) (ifd : tiff_ifd_t) (h2 : FileHandle)
    (hr : tiff_read_ifd t h { ifd_index := t.ifd_count } 16 =
      some (t2, ifd, h2, 0)) :
    open_tiff_ifd_loop (fuel + 1) t h 16 =
    some { t2 with
           ifds := t2.ifds ++ [ifd]
           ifd_count := t2.ifd_count + 1 } := by
  simp only [open_tiff_ifd_loop]
  rw [if_neg (show ¬ ((16 : Nat) = 0) by norm_num), hr]
  exact open_tiff_ifd_loop_zero fuel _ h2

/-- Post-processing ignores and preserves the endianness flag. -/
theorem post_process_flag (t : tiff_t) (e : Bool) :
    tiff_post_process { t with is_big_endian := e } =
    { tiff_post_process t with is_big_endian := e } := rfl

/-- Stripping the flag erases a flag difference across post-processing. -/
theorem strip_post_flag (t : tiff_t) (e : Bool) :
    strip_endianness (tiff_post_process { t with is_big_endian := e }) =
    strip_endianness (tiff_post_process t) := rfl

/-- Reading the single IFD of the encoded file reduces to processing the
canonical tags: the next-IFD offset always comes back zero. -/
theorem read_ifd_enc_reduce (e : Bool) (tags : List enc_tag)
    (hn : tags.length < 2 ^ 16) (hne : tags ≠ [])
    (hok : ∀ tg ∈ tags, enc_tag_ok tg)
    (hbound : 22 + 12 * tags.length + enc_data_len tags < 2 ^ 32) :
    tiff_read_ifd
      { is_big_endian := e, is_bigtiff := false, bytesize_of_offsets := 4 }
      ⟨encodeTiffFile e tags, 16⟩ { ifd_index := 0 } 16 =
    (match tiff_process_tags ⟨encodeTiffFile e tags, 18 + tags.length * 12⟩ e
        { ifd_index := 0, color_space := TIFF_PHOTOMETRIC_RGB }
        (canon_tags (22 + 12 * tags.length) tags) with
     | none => none
     | some ifd1 =>
         some ((tiff_classify_ifd
             { is_big_endian := e, is_bigtiff := false,
               bytesize_of_offsets := 4 }
             (tiff_compute_tile_geometry ifd1)).1,
           (tiff_classify_ifd
             { is_big_endian := e, is_bigtiff := false,
               bytesize_of_offsets := 4 }
             (tiff_compute_tile_geometry ifd1)).2,
           ⟨encodeTiffFile e tags, 18 + tags.length * 12 + 4⟩, 0)) := by
  have hdec := decode_ifd_enc e tags 16 hn hne hok hbound
  have hfr : fread_m ⟨encodeTiffFile e tags, 18 + tags.length * 12⟩ 4 =
      (1, List.replicate 4 0,
       ⟨encodeTiffFile e tags, 18 + tags.length * 12 + 4⟩) := by
    refine fread_m_eq _ _ 4 _ ?_ (by omega) (List.length_replicate 4 0)
    rw [show 18 + tags.length * 12 = 18 + 12 * tags.length by ring]
    exact encode_slice_next e tags
  simp only [tiff_read_ifd, hdec]
  cases hP : tiff_process_tags ⟨encodeTiffFile e tags, 18 + tags.length * 12⟩
      e { ifd_index := 0, color_space := TIFF_PHOTOMETRIC_RGB }
      (canon_tags (22 + 12 * tags.length) tags) with
  | none => simp [hP]
  | some ifd1 =>
      simp only [hP, classify_preserves_bytesize, hfr]
      norm_num [leNat_replicate_zero]

/-! ### Claim theorems -/

/-- C8: for every call `file_read_at_offset(dest, fp, offset, num_bytes)`,
the file position indicator of `fp` on return equals its value on entry,
whether the positioned read succeeds or short-reads. -/
theorem file_read_at_offset_preserves_position (h : FileHandle)
    (offset num_bytes : Nat) :
    (file_read_at_offset h offset num_bytes).2.2.pos = h.pos := rfl

/-- C10: `open_tiff_file` returns failure for every file shorter than 16
bytes: it requires `filesize > 8` and then unconditionally reads a
16-byte header in one `fread`, so even a structurally valid classic
little-endian TIFF of 8 to 15 bytes is rejected. -/
theorem open_rejects_short_files (file : List Nat) (fuel : Nat)
    (hlen : file.length < 16) : open_tiff_file file fuel = none := by
  unfold open_tiff_file
  rw [open_tiff_header_short file hlen]

/-- Witness for C10 at a 12-byte structurally valid classic little-endian
TIFF (`II`, magic 42, first IFD offset 0, i.e. an empty IFD chain). -/
theorem open_rejects_short_files_witness :
    ([0x49, 0x49, 0x2A, 0x00, 0, 0, 0, 0, 0, 0, 0, 0] : List Nat).length < 16 ∧
    open_tiff_file [0x49, 0x49, 0x2A, 0x00, 0, 0, 0, 0, 0, 0, 0, 0] 4 = none :=
  ⟨by decide,
   open_rejects_short_files [0x49, 0x49, 0x2A, 0x00, 0, 0, 0, 0, 0, 0, 0, 0] 4
     (by decide)⟩

/-- C3 counterexample: on the inline payload of a big-endian
YCbCrSubSampling tag (two UINT16 elements with value 2 each) the decoder's
swap differs from the per-element swap the claim describes — only element
0 is swapped, element 1 keeps its big-endian bytes. -/
theorem inline_swap_counterexample :
    maybe_swap_tiff_field [0, 2, 0, 2, 0, 0, 0, 0] TIFF_UINT16 true =
      [2, 0, 0, 2, 0, 0, 0, 0] ∧
    swap_all_elements [0, 2, 0, 2, 0, 0, 0, 0] TIFF_UINT16 2 true =
      [2, 0, 2, 0, 0, 0, 0, 0] ∧
    maybe_swap_tiff_field [0, 2, 0, 2, 0, 0, 0, 0] TIFF_UINT16 true ≠
      swap_all_elements [0, 2, 0, 2, 0, 0, 0, 0] TIFF_UINT16 2 true := by
  refine ⟨by decide, by decide, by decide⟩

/-- C3 amended: for a big-endian inline payload of any non-rational data
type with element size above one byte, the decoder byte-swaps exactly one
element at the front of the payload and leaves everything after it — in
particular every element beyond index 0 — untouched. -/
theorem inline_swap_first_element_only (field : List Nat) (data_type : Nat)
    (h1 : data_type ≠ TIFF_RATIONAL) (h2 : data_type ≠ TIFF_SRATIONAL)
    (h3 : 1 < get_tiff_field_size data_type) :
    maybe_swap_tiff_field field data_type true =
      (field.take (get_tiff_field_size data_type)).reverse ++
        field.drop (get_tiff_field_size data_type) := by
  simp [maybe_swap_tiff_field, swapChunks, h1, h2, h3]

/-- Witness for the amended C3 at the UINT16 payload of the
counterexample. -/
theorem inline_swap_first_element_only_witness :
    TIFF_UINT16 ≠ TIFF_RATIONAL ∧ TIFF_UINT16 ≠ TIFF_SRATIONAL ∧
    1 < get_tiff_field_size TIFF_UINT16 ∧
    maybe_swap_tiff_field [0, 2, 0, 2, 0, 0, 0, 0] TIFF_UINT16 true =
      (([0, 2, 0, 2, 0, 0, 0, 0] : List Nat).take (get_tiff_field_size TIFF_UINT16)).reverse ++
        ([0, 2, 0, 2, 0, 0, 0, 0] : List Nat).drop (get_tiff_field_size TIFF_UINT16) :=
  ⟨by decide, by decide, by decide,
   inline_swap_first_element_only [0, 2, 0, 2, 0, 0, 0, 0] TIFF_UINT16
     (by decide) (by decide) (by decide)⟩

/-- C6 counterexample: a decompressor returning a positive byte count (5)
different from the block's `index` (312) makes `tiff_deserialize` fail,
even though the very same inner stream deserializes fine when the
reported count matches — the mismatch is not tolerated. -/
theorem lz4_size_mismatch_counterexample :
    tiff_deserialize mismatchDecompress [exampleLz4Block] = none ∧
    (tiff_deserialize agreeDecompress [exampleLz4Block]).isSome = true := by
  refine ⟨by decide, by decide⟩

/-- C6 amended: when the first block is LZ4_COMPRESSED_DATA and
decompression returns a positive byte count that differs from the block's
`index`, `tiff_deserialize` prints the mismatch but then fails: the stale
LZ4 block reaches the HEADER_AND_META type check, so deserialization does
not complete. -/
theorem lz4_size_mismatch_fails
    (decompress : List Nat → Nat → Int × List sblock)
    (b0 : sblock) (rest : List sblock) (data : List Nat)
    (htype : b0.block_type = SERIAL_BLOCK_LZ4_COMPRESSED_DATA)
    (hpayload : b0.payload = .compressed data)
    (hpos : 0 < (decompress data b0.index).1)
    (hne : (decompress data b0.index).1 ≠ (b0.index : Int)) :
    tiff_deserialize decompress (b0 :: rest) = none := by
  simp only [tiff_deserialize, htype, hpayload, if_pos rfl]
  rw [if_pos hpos, if_pos hne]
  simp [tiff_deserialize_payload, htype, SERIAL_BLOCK_LZ4_COMPRESSED_DATA,
    SERIAL_BLOCK_TIFF_HEADER_AND_META]

/-- C4 counterexample: the two encodings of the same logical content — a
single YCbCrSubSampling tag with the two UINT16 values (2, 2) — parse to
descriptors that differ beyond `is_big_endian`: the big-endian parse
leaves the second inline element unswapped, so
`chroma_subsampling_vertical` reads 512 instead of 2. -/
theorem endianness_symmetry_counterexample :
    encodeTiffFile false
        [{ code := 530, data_type := 3, data_count := 2, elems := [2, 2] }] =
      exampleFileYCbCrLE ∧
    encodeTiffFile true
        [{ code := 530, data_type := 3, data_count := 2, elems := [2, 2] }] =
      exampleFileYCbCrBE ∧
    (open_tiff_file exampleFileYCbCrLE 2).map
      (fun t => (t.ifds.getD 0 {}).chroma_subsampling_vertical) = some 2 ∧
    (open_tiff_file exampleFileYCbCrBE 2).map
      (fun t => (t.ifds.getD 0 {}).chroma_subsampling_vertical) = some 512 ∧
    (open_tiff_file exampleFileYCbCrLE 2).map strip_endianness ≠
      (open_tiff_file exampleFileYCbCrBE 2).map strip_endianness := by
  refine ⟨by decide, by decide, by decide, by decide, by decide⟩

/-- Exhausted fuel on the nonzero first IFD offset fails both parses. -/
theorem endianness_symmetry_zero (tags : List enc_tag) :
    (open_tiff_file (encodeTiffFile false tags) 0).map strip_endianness =
    (open_tiff_file (encodeTiffFile true tags) 0).map strip_endianness := by
  rw [open_tiff_file_zero_reduce _ _ 16 (open_header_enc false tags),
    open_tiff_file_zero_reduce _ _ 16 (open_header_enc true tags)]

/-- An empty tag list makes the record read fail in both parses. -/
theorem endianness_symmetry_nil (fuel : Nat) :
    (open_tiff_file (encodeTiffFile false []) (fuel + 1)).map
      strip_endianness =
    (open_tiff_file (encodeTiffFile true []) (fuel + 1)).map
      strip_endianness := by
  have hL : tiff_read_ifd
      { is_big_endian := false, is_bigtiff := false,
        bytesize_of_offsets := 4 }
      ⟨encodeTiffFile false [], 16⟩ { ifd_index := 0 } 16 = none := by
    simp [tiff_read_ifd, decode_ifd_enc_nil]
  have hB : tiff_read_ifd
      { is_big_endian := true, is_bigtiff := false,
        bytesize_of_offsets := 4 }
      ⟨encodeTiffFile true [], 16⟩ { ifd_index := 0 } 16 = none := by
    simp [tiff_read_ifd, decode_ifd_enc_nil]
  simp only [open_tiff_file, open_header_enc]
  simp [open_tiff_ifd_loop, hL, hB]

/-- The successful-walk case of the symmetry theorem: the one IFD
processes identically on both twins and the next offset is zero. -/
theorem endianness_symmetry_main (tags : List enc_tag)
    (hn : tags.length < 2 ^ 16) (hne : tags ≠ [])
    (htags : ∀ tg ∈ tags, enc_tag_ok tg)
    (hbound : 22 + 12 * tags.length + enc_data_len tags < 2 ^ 32)
    (fuel : Nat) :
    (open_tiff_file (encodeTiffFile false tags) (fuel + 1)).map
      strip_endianness =
    (open_tiff_file (encodeTiffFile true tags) (fuel + 1)).map
      strip_endianness := by
  have hL := read_ifd_enc_reduce false tags hn hne htags hbound
  have hB := read_ifd_enc_reduce true tags hn hne htags hbound
  have hPeq := process_enc_tags_eq tags (22 + 12 * tags.length)
    { ifd_index := 0, color_space := TIFF_PHOTOMETRIC_RGB }
    (encodeTiffFile false tags) (encodeTiffFile true tags)
    (18 + tags.length * 12) (18 + tags.length * 12) htags
    (encode_slice_data false tags) (encode_slice_data true tags)
  rw [hPeq] at hL
  rw [open_tiff_file_loop_reduce _ _ 16 (fuel + 1)
      (open_header_enc false tags),
    open_tiff_file_loop_reduce _ _ 16 (fuel + 1)
      (open_header_enc true tags)]
  cases hP : tiff_process_tags
      ⟨encodeTiffFile true tags, 18 + tags.length * 12⟩ true
      { ifd_index := 0, color_space := TIFF_PHOTOMETRIC_RGB }
      (canon_tags (22 + 12 * tags.length) tags) with
  | none =>
      have hrL : tiff_read_ifd
          { is_big_endian := false, is_bigtiff := false,
            bytesize_of_offsets := 4 }
          ⟨encodeTiffFile false tags, 16⟩ { ifd_index := 0 } 16 = none := by
        rw [hL, hP]
      have hrB : tiff_read_ifd
          { is_big_endian := true, is_bigtiff := false,
            bytesize_of_offsets := 4 }
          ⟨encodeTiffFile true tags, 16⟩ { ifd_index := 0 } 16 = none := by
        rw [hB, hP]
      rw [open_tiff_ifd_loop_succ_none fuel _ _ hrL,
        open_tiff_ifd_loop_succ_none fuel _ _ hrB]
  | some ifd1 =>
      have hcb : tiff_classify_ifd
          { is_big_endian := true, is_bigtiff := false,
            bytesize_of_offsets := 4 }
          (tiff_compute_tile_geometry ifd1) =
          ({ (tiff_classify_ifd
              { is_big_endian := false, is_bigtiff := false,
                bytesize_of_offsets := 4 }
              (tiff_compute_tile_geometry ifd1)).1 with
              is_big_endian := true },
           (tiff_classify_ifd
              { is_big_endian := false, is_bigtiff := false,
                bytesize_of_offsets := 4 }
              (tiff_compute_tile_geometry ifd1)).2) :=
        classify_flag
          { is_big_endian := false, is_bigtiff := false,
            bytesize_of_offsets := 4 } true
          (tiff_compute_tile_geometry ifd1)
      have hrL : tiff_read_ifd
          { is_big_endian := false, is_bigtiff := false,
            bytesize_of_offsets := 4 }
          ⟨encodeTiffFile false tags, 16⟩ { ifd_index := 0 } 16 =
          some ((tiff_classify_ifd
              { is_big_endian := false, is_bigtiff := false,
                bytesize_of_offsets := 4 }
              (tiff_compute_tile_geometry ifd1)).1,
            (tiff_classify_ifd
              { is_big_endian := false, is_bigtiff := false,
                bytesize_of_offsets := 4 }
              (tiff_compute_tile_geometry ifd1)).2,
            ⟨encodeTiffFile false tags, 18 + tags.length * 12 + 4⟩, 0) := by
        simp only [hL, hP]
      have hrB : tiff_read_ifd
          { is_big_endian := true, is_bigtiff := false,
            bytesize_of_offsets := 4 }
          ⟨encodeTiffFile true tags, 16⟩ { ifd_index := 0 } 16 =
          some ({ (tiff_classify_ifd
              { is_big_endian := false, is_bigtiff := false,
                bytesize_of_offsets := 4 }
              (tiff_compute_tile_geometry ifd1)).1 with
              is_big_endian := true },
            (tiff_classify_ifd
              { is_big_endian := false, is_bigtiff := false,
                bytesize_of_offsets := 4 }
              (tiff_compute_tile_geometry ifd1)).2,
            ⟨encodeTiffFile true tags, 18 + tags.length * 12 + 4⟩, 0) := by
        simp only [hB, hP, hcb]
      rw [open_tiff_ifd_loop_succ_some fuel _ _ _ _ _ hrL,
        open_tiff_ifd_loop_succ_some fuel _ _ _ _ _ hrB]
      rfl

/-- C4 (amended): endianness symmetry holds on the symmetry-safe class.
For every tag list satisfying `enc_tags_ok` — recognized types, elements
matching their declared counts and widths, inline payloads limited to one
element unless single-byte (the decoder swaps only the first inline
element), ASCII-loaded tags byte-typed, tile arrays non-rational, and
ReferenceBlackWhite rational with a positive count — parsing the
little-endian encoding and parsing the big-endian encoding of the same
logical content produce the same descriptor up to the recorded
`is_big_endian` flag, for every chain-walk fuel. -/
theorem endianness_symmetry_restricted (tags : List enc_tag)
    (hok : enc_tags_ok tags) (fuel : Nat) :
    (open_tiff_file (encodeTiffFile false tags) fuel).map strip_endianness =
    (open_tiff_file (encodeTiffFile true tags) fuel).map strip_endianness := by
  obtain ⟨hn, hbound0, htags⟩ := hok
  have hbound : 22 + 12 * tags.length + enc_data_len tags < 2 ^ 32 := by
    have h := enc_data_len_le tags
    omega
  cases fuel with
  | zero => exact endianness_symmetry_zero tags
  | succ fuel =>
      by_cases hne : tags = []
      · subst hne
        exact endianness_symmetry_nil fuel
      · exact endianness_symmetry_main tags hn hne htags hbound fuel

/-- Closed witness for the amended C4 theorem: a single out-of-line-free
ImageWidth tag, instantiated at fuel 2. -/
theorem endianness_symmetry_restricted_witness :
    enc_tags_ok
      [{ code := 256, data_type := 4, data_count := 1, elems := [4096] }] ∧
    (open_tiff_file (encodeTiffFile false
        [{ code := 256, data_type := 4, data_count := 1, elems := [4096] }])
        2).map strip_endianness =
      (open_tiff_file (encodeTiffFile true
        [{ code := 256, data_type := 4, data_count := 1, elems := [4096] }])
        2).map strip_endianness :=
  ⟨by unfold enc_tags_ok enc_tag_ok; decide,
   endianness_symmetry_restricted
     [{ code := 256, data_type := 4, data_count := 1, elems := [4096] }]
     (by unfold enc_tags_ok enc_tag_ok; decide) 2⟩

/-- C5: for every IFD in which a TileByteCounts tag (code 325) is decoded
with a `data_count` different from the `tile_count` previously
established (by a TileOffsets tag, or still 0 without one),
`tiff_read_ifd` returns failure — and consequently `open_tiff_file`
fails for a file whose IFD chain starts at such an IFD. -/
theorem tile_byte_counts_mismatch_fails :
    (∀ (t : tiff_t) (h h' : FileHandle) (ifd0 : tiff_ifd_t) (off : Nat)
        (tags ts1 ts2 : List tiff_tag_t) (tg : tiff_tag_t) (ifd1 : tiff_ifd_t),
        tiff_decode_ifd_tags t h off = some (tags, h') →
        tags = ts1 ++ tg :: ts2 →
        tiff_process_tags h' t.is_big_endian
          { ifd0 with color_space := TIFF_PHOTOMETRIC_RGB } ts1 = some ifd1 →
        tg.code = TIFF_TAG_TILE_BYTE_COUNTS →
        tg.data_count ≠ ifd1.tile_count →
        tiff_read_ifd t h ifd0 off = none) ∧
    (∀ (file : List Nat) (fuel : Nat) (t : tiff_t) (h h' : FileHandle)
        (off : Nat) (tags ts1 ts2 : List tiff_tag_t) (tg : tiff_tag_t)
        (ifd1 : tiff_ifd_t),
        open_tiff_header file = some (t, h, off) → off ≠ 0 →
        tiff_decode_ifd_tags t h off = some (tags, h') →
        tags = ts1 ++ tg :: ts2 →
        tiff_process_tags h' t.is_big_endian
          { ({ ifd_index := t.ifd_count } : tiff_ifd_t) with
            color_space := TIFF_PHOTOMETRIC_RGB } ts1 = some ifd1 →
        tg.code = TIFF_TAG_TILE_BYTE_COUNTS →
        tg.data_count ≠ ifd1.tile_count →
        open_tiff_file file fuel = none) :=
  ⟨tiff_read_ifd_mismatch_fails, open_tiff_mismatch_fails⟩

/-- Witness for C5 at `exampleFileMismatch`: TileOffsets declares two
tiles, TileByteCounts declares one, and both `tiff_read_ifd` and
`open_tiff_file` reject the file. -/
theorem tile_byte_counts_mismatch_fails_witness :
    tiff_read_ifd { is_big_endian := false, is_bigtiff := false, bytesize_of_offsets := 4 }
      ⟨exampleFileMismatch, 16⟩ { ifd_index := 0 } 16 = none ∧
    open_tiff_file exampleFileMismatch 3 = none := by
  have htag1 : tiff_decode_ifd_tags
      { is_big_endian := false, is_bigtiff := false, bytesize_of_offsets := 4 }
      ⟨exampleFileMismatch, 16⟩ 16 =
      some ([⟨324, 4, 2, true, 46, [0, 0, 0, 0, 0, 0, 0, 0]⟩,
             ⟨325, 4, 1, false, 0, [99, 0, 0, 0, 0, 0, 0, 0]⟩],
            ⟨exampleFileMismatch, 42⟩) := by decide
  refine ⟨?_, ?_⟩
  · exact tile_byte_counts_mismatch_fails.1
      { is_big_endian := false, is_bigtiff := false, bytesize_of_offsets := 4 }
      ⟨exampleFileMismatch, 16⟩ ⟨exampleFileMismatch, 42⟩ { ifd_index := 0 } 16
      _ [⟨324, 4, 2, true, 46, [0, 0, 0, 0, 0, 0, 0, 0]⟩] []
      ⟨325, 4, 1, false, 0, [99, 0, 0, 0, 0, 0, 0, 0]⟩
      { ifd_index := 0, color_space := 2, tile_count := 2,
        tile_offsets := some [10, 20] }
      htag1 rfl (by decide) rfl (by decide)
  · exact tile_byte_counts_mismatch_fails.2 exampleFileMismatch 3
      { is_big_endian := false, is_bigtiff := false, bytesize_of_offsets := 4 }
      ⟨exampleFileMismatch, 16⟩ ⟨exampleFileMismatch, 42⟩ 16
      _ [⟨324, 4, 2, true, 46, [0, 0, 0, 0, 0, 0, 0, 0]⟩] []
      ⟨325, 4, 1, false, 0, [99, 0, 0, 0, 0, 0, 0, 0]⟩
      { ifd_index := 0, color_space := 2, tile_count := 2,
        tile_offsets := some [10, 20] }
      (by decide) (by decide) htag1 rfl (by decide) rfl (by decide)

/-- C7 counterexample: `exampleFileBare` parses successfully, IFD 0 has no
image description (so no Macro/Label prefix either) and no tile geometry,
yet its subimage type is UNKNOWN, not LEVEL as the claim states. -/
theorem ifd0_classification_counterexample :
    (open_tiff_file exampleFileBare 2).isSome = true ∧
    (open_tiff_file exampleFileBare 2).map
      (fun t => ((t.ifds.getD 0 {}).image_description,
                 (t.ifds.getD 0 {}).tile_width,
                 (t.ifds.getD 0 {}).subimage_type)) =
      some (none, 0, TIFF_UNKNOWN_SUBIMAGE) ∧
    TIFF_UNKNOWN_SUBIMAGE ≠ TIFF_LEVEL_SUBIMAGE := by
  refine ⟨by decide, by decide, by decide⟩

/-- C7 amended: for every file `open_tiff_file` parses successfully and
that has at least one IFD, IFD 0 is classified MACRO if its description
begins with "Macro", LABEL if it begins with "Label", LEVEL if it begins
with "level" or (failing all prefixes, or with no description at all) if
`tile_width > 0` — and otherwise stays UNKNOWN; in particular, with no
image description and no tile geometry, IFD 0 is UNKNOWN rather than
LEVEL. -/
theorem ifd0_classification (file : List Nat) (fuel : Nat) (t : tiff_t)
    (hopen : open_tiff_file file fuel = some t) (hne : t.ifds ≠ []) :
    (t.ifds.getD 0 {}).subimage_type =
      classify_ifd0 (t.ifds.getD 0 {}).image_description
        (t.ifds.getD 0 {}).tile_width := by
  unfold open_tiff_file at hopen
  cases hh : open_tiff_header file with
  | none => rw [hh] at hopen; exact Option.noConfusion hopen
  | some tri =>
      obtain ⟨t0, h0, off0⟩ := tri
      simp only [hh] at hopen
      cases hl : open_tiff_ifd_loop fuel t0 h0 off0 with
      | none => rw [hl] at hopen; exact Option.noConfusion hopen
      | some t1 =>
          simp only [hl] at hopen
          cases hopen
          obtain ⟨hinit1, hinit2⟩ := open_tiff_header_inits file t0 h0 off0 hh
          obtain ⟨hp1, hp2, hp3, hp4⟩ := tiff_post_process_head t1
          cases open_tiff_ifd_loop_ifd0 fuel t0 h0 off0 t1 hl hinit1 hinit2 with
          | inl hempty => exact absurd (hp4.mpr hempty) hne
          | inr hok => rw [hp1, hp2, hp3]; exact hok.2

/-- Witness for the amended C7 at `exampleFileBare`. -/
theorem ifd0_classification_witness :
    open_tiff_file exampleFileBare 2 =
      some { is_bigtiff := false, is_big_endian := false, bytesize_of_offsets := 4,
             ifd_count := 1, mpp_x := (1 : Rat)/4, mpp_y := (1 : Rat)/4,
             ifds := [{ ifd_index := 0, image_width := 100, color_space := 2 }] } ∧
    (({ ifd_index := 0, image_width := 100, color_space := 2 } : tiff_ifd_t)).subimage_type =
      classify_ifd0 (none : Option (List Nat)) 0 := by
  have hopen : open_tiff_file exampleFileBare 2 =
      some { is_bigtiff := false, is_big_endian := false, bytesize_of_offsets := 4,
             ifd_count := 1, mpp_x := (1 : Rat)/4, mpp_y := (1 : Rat)/4,
             ifds := [{ ifd_index := 0, image_width := 100, color_space := 2 }] } := rfl
  refine ⟨hopen, ?_⟩
  have h := ifd0_classification exampleFileBare 2
    { is_bigtiff := false, is_big_endian := false, bytesize_of_offsets := 4,
      ifd_count := 1, mpp_x := (1 : Rat)/4, mpp_y := (1 : Rat)/4,
      ifds := [{ ifd_index := 0, image_width := 100, color_space := 2 }] }
    hopen (by decide)
  simpa using h

/-- C1 counterexample: round-tripping is not universal.  An image with
zero IFDs serializes to a stream the deserializer rejects; and an image
whose single IFD has no (null) image description comes back with a
present-but-empty one, so the descriptions are not equal. -/
theorem roundtrip_counterexample :
    tiff_deserialize failDecompress
      (tiff_serialize declineCompress exampleEmptyImage).stream = none ∧
    (tiff_deserialize failDecompress
        (tiff_serialize declineCompress exampleBareImage).stream).map
      (fun t' => (t'.ifds.getD 0 {}).image_description) = some (some []) ∧
    (exampleBareImage.ifds.getD 0 {}).image_description = none := by
  refine ⟨by decide, by decide, by decide⟩

/-- C1 amended: for every internally consistent image descriptor with at
least one IFD, and any LZ4 pair obeying the library contract,
deserializing the serialized stream succeeds and yields a descriptor with
equal `ifd_count` and, per IFD, equal geometry
(image/tile width and height, tile_count, width/height_in_tiles), the
tile_offsets and tile_byte_counts vectors recovered exactly, and
image_description and jpeg_tables recovered with their lengths — with an
absent (null) blob coming back present but empty. -/
theorem roundtrip_deserialize_serialize
    (compress : List sblock → Option (List Nat))
    (decompress : List Nat → Nat → Int × List sblock)
    (hcodec : RoundTripCodec compress decompress) (t : tiff_t)
    (hwf : tiff_wf t) (hne : t.ifds ≠ []) :
    ∃ t', tiff_deserialize decompress (tiff_serialize compress t).stream = some t' ∧
      t'.ifd_count = t.ifd_count ∧
      t'.ifds.length = t.ifds.length ∧
      (∀ i, i < t.ifds.length →
        roundtrip_ifd_match (t.ifds.getD i {}) (t'.ifds.getD i {})) := by
  obtain ⟨t', hrun, ha, hb, hc⟩ := tiff_deserialize_payload_serialize t hwf hne
  unfold tiff_serialize
  cases hcp : compress (tiff_serialize_blocks t) with
  | none =>
      simp only [hcp]
      refine ⟨t', ?_, ha, hb, hc⟩
      unfold tiff_serialize_blocks
      rw [tiff_deserialize_cons_plain decompress _ _
        (by simp [SERIAL_BLOCK_TIFF_HEADER_AND_META, SERIAL_BLOCK_LZ4_COMPRESSED_DATA])]
      exact hrun
  | some cb =>
      simp only [hcp]
      refine ⟨t', ?_, ha, hb, hc⟩
      have hdec := hcodec _ cb hcp
      rw [streamByteSize_serialize_blocks] at hdec
      unfold tiff_serialize_blocks at hdec
      rw [tiff_deserialize_lz4_unwrap decompress _ _ cb [] _ _ hdec
        (tiff_serialize_total_size_pos t)]
      exact hrun

/-- Witness for the amended C1 at `exampleImage` with a declining
compressor. -/
theorem roundtrip_deserialize_serialize_witness :
    tiff_wf exampleImage ∧ exampleImage.ifds ≠ [] ∧
    ∃ t', tiff_deserialize failDecompress
        (tiff_serialize declineCompress exampleImage).stream = some t' ∧
      t'.ifd_count = exampleImage.ifd_count ∧
      t'.ifds.length = exampleImage.ifds.length ∧
      (∀ i, i < exampleImage.ifds.length →
        roundtrip_ifd_match (exampleImage.ifds.getD i {})
          (t'.ifds.getD i {})) :=
  ⟨⟨rfl, by decide⟩, by decide,
   roundtrip_deserialize_serialize declineCompress failDecompress
     (fun _ _ h => Option.noConfusion h) exampleImage ⟨rfl, by decide⟩
     (by decide)⟩

/-- C9: for every input buffer whose HEADER_AND_META record carries
`ifd_count = 0`, `tiff_deserialize` fails: the `block->index >= ifd_count`
range check is applied to every block of the payload loop, the TERMINATOR
(whose index is 0) included, so the terminator itself is rejected; in
particular `deserialize(serialize X)` fails for an image `X` with zero
IFDs. -/
theorem deserialize_zero_ifd_fails :
    (∀ (decompress : List Nat → Nat → Int × List sblock) (b0 : sblock)
        (rest : List sblock) (sh : tiff_serial_header_t),
        b0.block_type = SERIAL_BLOCK_TIFF_HEADER_AND_META →
        b0.payload = .header sh → sh.ifd_count = 0 →
        tiff_deserialize decompress (b0 :: rest) = none) ∧
    (∀ (compress : List sblock → Option (List Nat))
        (decompress : List Nat → Nat → Int × List sblock),
        RoundTripCodec compress decompress →
        ∀ t : tiff_t, t.ifd_count = 0 →
        tiff_deserialize decompress (tiff_serialize compress t).stream = none) :=
  ⟨deserialize_zero_header_fails, deserialize_serialize_zero_ifds⟩

/-- Witness for C9: a lone zero-count header block, and the serialization
of the zero-IFD example image, are both rejected. -/
theorem deserialize_zero_ifd_fails_witness :
    tiff_deserialize failDecompress
      [{ block_type := SERIAL_BLOCK_TIFF_HEADER_AND_META, index := 0,
         length := 16, payload := .header {} }] = none ∧
    tiff_deserialize failDecompress
      (tiff_serialize declineCompress exampleEmptyImage).stream = none :=
  ⟨deserialize_zero_ifd_fails.1 failDecompress _ [] {} rfl rfl rfl,
   deserialize_zero_ifd_fails.2 declineCompress failDecompress
     (fun _ _ h => Option.noConfusion h) exampleEmptyImage rfl⟩

/-- C2: evaluation at a failing input.  In the uncompressed path the
Content-length value equals the wire size of the payload; but when
compression succeeds (here: a 3-byte output), the rewritten header still
carries the uncompressed total (312), while the payload following the
blank line is one 16-byte block header plus 3 compressed bytes. -/
theorem content_length_compressed_bug :
    (tiff_serialize declineCompress exampleImage).content_length =
      streamByteSize (tiff_serialize declineCompress exampleImage).stream ∧
    (tiff_serialize tinyCompress exampleImage).content_length = 312 ∧
    streamByteSize (tiff_serialize tinyCompress exampleImage).stream = 19 ∧
    (tiff_serialize tinyCompress exampleImage).content_length ≠
      streamByteSize (tiff_serialize tinyCompress exampleImage).stream := by
  refine ⟨by decide, by decide, by decide, by decide⟩

/-- Witness for the amended C6 at the concrete mismatching decompressor. -/
theorem lz4_size_mismatch_fails_witness :
    exampleLz4Block.block_type = SERIAL_BLOCK_LZ4_COMPRESSED_DATA ∧
    exampleLz4Block.payload = .compressed [9, 9, 9] ∧
    0 < (mismatchDecompress [9, 9, 9] exampleLz4Block.index).1 ∧
    (mismatchDecompress [9, 9, 9] exampleLz4Block.index).1 ≠
      (exampleLz4Block.index : Int) ∧
    tiff_deserialize mismatchDecompress [exampleLz4Block] = none :=
  ⟨by decide, by decide, by decide, by decide,
   lz4_size_mismatch_fails mismatchDecompress exampleLz4Block [] [9, 9, 9]
     (by decide) (by decide) (by decide) (by decide)⟩

end Tiff
